import Mathlib

/-!
# WholeImagePoolingLayer: a shallow embedding and its specification

Embedding of `src/caffe/my_own_layers/whole_image_pooling_layer.cpp`.

Conventions of the embedding

* The layer is a template over `Dtype`, instantiated for `float` and for
  `double`.  A value of `Dtype` is a NaN, an infinity or a finite rational
  number; the one zero of the embedding stands for both zeros of IEEE 754,
  which the layer cannot tell apart (it compares, multiplies, subtracts,
  rounds, and divides by converted integers only).  An arithmetic (`Arith`)
  fixes how results are rounded and how wide `int` is: `float` is binary32
  and `double` is binary64, both with rounding to nearest, ties to even,
  gradual underflow and overflow to infinity, and both with a 32-bit `int`;
  `ideal` is exact arithmetic, with no rounding and integers without bound,
  the arithmetic of the statements that are scoped to exact arithmetic.  A
  layer carries its arithmetic in the field `arith`.  Each operation on
  `Dtype` is rounded on its own, to `Dtype`: no wider intermediate format and
  no fused multiply-add.
* Conversion to `int` of a `Dtype` outside the range of `int`, and signed
  overflow, are undefined in C++.  The embedding takes what the x86-64 target
  does: the conversion gives `INT_MIN`, additions and subtractions wrap
  around.  Wrap-around is applied where the operands come from region data
  (lines 113-114 and 137-140); loop counters, indices and offsets are bounded
  by the element count of a blob, which the host framework keeps within `int`,
  and are computed in the integers.
* `a > b` on `Dtype` is the comparison of IEEE 754: false as soon as one side
  is a NaN.  `<` and `≤` on `Dtype` are that comparison; they are not a total
  order.
* `FLT_MAX` is the single precision constant of `<cfloat>`, a finite value of
  both `float` and `double`.
* A blob is its four extents together with its buffer; a buffer is a total
  map from element offsets to values, and a C pointer into a buffer is an
  offset.  `p[i]` is `mem (p + i)` and `p += k` adds `k` to the offset.
* A failed `CHECK_*` or `NOT_IMPLEMENTED` aborts the process: the functions
  return `Except`, the error naming the macro that fired.
* `Blob` belongs to the host framework: its offsets are the row-major formula,
  and the framework's own checks of the arguments of `offset` and `Reshape`
  are not part of the embedding.
* `FwdState.reads` is a ghost log of the feature-map elements that
  `Forward_cpu` has read; no decision of the code depends on it.
-/

namespace caffe

/-- The arithmetic of the template parameter `Dtype` and of `int`: `float`
(binary32, 32-bit `int`), `double` (binary64, 32-bit `int`), or `ideal`
(exact arithmetic: no rounding, integers without bound). -/
inductive Arith where
  | float
  | double
  | ideal
  deriving DecidableEq, Repr

/-- A value of the scalar type: a NaN, an infinity (`neg` tells its sign) or a
finite number. -/
inductive Dtype where
  | nan
  | inf (neg : Bool)
  | fin (q : ℚ)
  deriving DecidableEq

namespace Dtype

instance : Zero Dtype := ⟨fin 0⟩

instance : Inhabited Dtype := ⟨fin 0⟩

/-- Unary minus, which is exact. -/
def neg : Dtype → Dtype
  | nan => nan
  | inf s => inf (!s)
  | fin q => fin (-q)

instance : Neg Dtype := ⟨neg⟩

/-- The comparison `x < y` of IEEE 754. -/
def blt : Dtype → Dtype → Bool
  | fin a, fin b => decide (a < b)
  | fin _, inf s => !s
  | inf s, fin _ => s
  | inf s, inf t => s && !t
  | _, _ => false

instance : LT Dtype := ⟨fun x y => blt x y = true⟩

instance : LE Dtype := ⟨fun x y => blt x y = true ∨ (x = y ∧ x ≠ nan)⟩

instance (x y : Dtype) : Decidable (x < y) :=
  inferInstanceAs (Decidable (blt x y = true))

instance (x y : Dtype) : Decidable (x ≤ y) :=
  inferInstanceAs (Decidable (blt x y = true ∨ (x = y ∧ x ≠ nan)))

end Dtype

/-- The constant `FLT_MAX` of `<cfloat>`: `(2 - 2^(-23)) * 2^127`. -/
def FLT_MAX : Dtype := .fin 340282346638528859811704183484516925440

/-- The constant `INT_MIN` of a 32-bit `int`. -/
def INT_MIN : Int := -2147483648

/-- The constant `INT_MAX` of a 32-bit `int`. -/
def INT_MAX : Int := 2147483647

/-- The integer nearest to `n / d`, halfway cases to the even one (`d > 0`). -/
def roundEven (n d : Nat) : Nat :=
  if 2 * (n % d) < d then n / d
  else if d < 2 * (n % d) then n / d + 1
  else if (n / d) % 2 = 0 then n / d else n / d + 1

/-- Halving `n` down to 1, at most `fuel` times: the number of halvings. -/
def log2Fuel : Nat → Nat → Nat
  | 0, _ => 0
  | fuel + 1, n => if n < 2 then 0 else log2Fuel fuel (n / 2) + 1

/-- The exponent `e` with `2^e ≤ n < 2^(e+1)` (`n > 0`). -/
def log2 (n : Nat) : Nat := log2Fuel n n

/-- The exponent `e` with `2^e ≤ n / d < 2^(e+1)` (`n, d > 0`). -/
def ilog2 (n d : Nat) : Int :=
  let e0 : Int := (log2 n : Int) - (log2 d : Int)
  if 0 ≤ e0 then (if d * 2 ^ e0.toNat ≤ n then e0 else e0 - 1)
  else (if d ≤ n * 2 ^ (-e0).toNat then e0 else e0 - 1)

/-- Rounding of the rational `q` to the binary format of precision `p` and
greatest exponent `emax` (least exponent `1 - emax`): to nearest, ties to
even, subnormal below `2^(1 - emax)`, infinite from `2^(emax + 1)` on.  The
value is `m * 2^k` with `k` the exponent of the last place. -/
def roundTo (p emax : Nat) (q : ℚ) : Dtype :=
  if q = 0 then .fin 0
  else
    let n := q.num.natAbs
    let d := q.den
    let k : Int := max (ilog2 n d) (1 - (emax : Int)) - (p : Int) + 1
    let m := if 0 ≤ k then roundEven n (d * 2 ^ k.toNat) else roundEven (n * 2 ^ (-k).toNat) d
    let mag : ℚ :=
      if 0 ≤ k then ((m * 2 ^ k.toNat : Nat) : ℚ) else (m : ℚ) / ((2 ^ (-k).toNat : Nat) : ℚ)
    if ((2 ^ (emax + 1) : Nat) : ℚ) ≤ mag then .inf (decide (q < 0))
    else .fin (if q < 0 then -mag else mag)

namespace Arith

/-- The value of `Dtype` that an operation with exact result `q` returns. -/
def round : Arith → ℚ → Dtype
  | float, q => roundTo 24 127 q
  | double, q => roundTo 53 1023 q
  | ideal, q => .fin q

/-- Conversion of an `int` to `Dtype`: `static_cast<Dtype>(z)`, `Dtype(z)`. -/
def ofInt (A : Arith) (z : Int) : Dtype := A.round (z : ℚ)

/-- The result of an `int` addition or subtraction whose exact value is `z`. -/
def wrap : Arith → Int → Int
  | ideal, z => z
  | _, z => (z - INT_MIN) % 4294967296 + INT_MIN

/-- The product `x * y` of two `Dtype`. -/
def mul (A : Arith) : Dtype → Dtype → Dtype
  | .fin a, .fin b => A.round (a * b)
  | .fin a, .inf s => if a = 0 then .nan else .inf (xor (decide (a < 0)) s)
  | .inf s, .fin b => if b = 0 then .nan else .inf (xor s (decide (b < 0)))
  | .inf s, .inf t => .inf (xor s t)
  | _, _ => .nan

/-- The difference `x - y` of two `Dtype`. -/
def sub (A : Arith) : Dtype → Dtype → Dtype
  | .fin a, .fin b => A.round (a - b)
  | .fin _, .inf s => .inf (!s)
  | .inf s, .fin _ => .inf s
  | .inf s, .inf t => if s = t then .nan else .inf s
  | _, _ => .nan

/-- The quotient `x / y` of two `Dtype`; a zero divisor is `+0`, as a
converted `int` is. -/
def div (A : Arith) : Dtype → Dtype → Dtype
  | .fin a, .fin b =>
    if b = 0 then (if a = 0 then .nan else .inf (decide (a < 0))) else A.round (a / b)
  | .fin _, .inf _ => .fin 0
  | .inf s, .fin b => .inf (xor s (decide (b < 0)))
  | _, _ => .nan

end Arith

/-- The C function `floor`. -/
def c_floor : Dtype → Dtype
  | .fin q => .fin (⌊q⌋ : Int)
  | x => x

/-- The C function `ceil`. -/
def c_ceil : Dtype → Dtype
  | .fin q => .fin (⌈q⌉ : Int)
  | x => x

/-- The C function `round`: nearest integer, halfway cases away from zero. -/
def c_round : Dtype → Dtype
  | .fin q => .fin ((if 0 ≤ q then ⌊q + 1 / 2⌋ else ⌈q - 1 / 2⌉ : Int) : ℚ)
  | x => x

/-- Conversion of a `Dtype` to `int`: the fractional part is discarded; with a
32-bit `int`, a value out of range, an infinity and a NaN give `INT_MIN`. -/
def toInt (A : Arith) : Dtype → Int
  | .fin q =>
    let z : Int := if 0 ≤ q then ⌊q⌋ else ⌈q⌉
    match A with
    | .ideal => z
    | _ => if INT_MIN ≤ z ∧ z ≤ INT_MAX then z else INT_MIN
  | _ => INT_MIN

/-- Blob of the host framework: extents `num x channels x height x width`
and a row-major buffer. -/
structure Blob (α : Type) where
  num : Nat
  channels : Nat
  height : Nat
  width : Nat
  data : Int → α

namespace Blob

variable {α : Type}

/-- Number of elements, `Blob::count()`. -/
def count (b : Blob α) : Int :=
  (b.num : Int) * b.channels * b.height * b.width

/-- Element offset, `Blob::offset(n, c, h, w)`. -/
def offset (b : Blob α) (n : Int) (c : Int) (h : Int) (w : Int) : Int :=
  ((n * b.channels + c) * b.height + h) * b.width + w

/-- Change of extents, `Blob::Reshape(num, channels, height, width)`; the
buffer is kept.  Extents of a blob are never negative. -/
def Reshape (b : Blob α) (num channels height width : Int) : Blob α :=
  { b with num := num.toNat, channels := channels.toNat,
           height := height.toNat, width := width.toNat }

end Blob

/-- The aborts of the layer, one per `CHECK_*` / `NOT_IMPLEMENTED` site. -/
inductive Fatal where
  /-- Abort of `CHECK_GT(roi_pool_param.pooled_h(), 0) << "pooled_h must be > 0"`. -/
  | pooled_h_must_be_gt_0
  /-- Abort of `CHECK_GT(roi_pool_param.pooled_w(), 0) << "pooled_w must be > 0"`. -/
  | pooled_w_must_be_gt_0
  /-- Abort of `CHECK_EQ(bottom[1]->count() / bottom[1]->num(), 5)`. -/
  | wrong_im_info_params
  /-- Integer division by zero inside the `im_info` check. -/
  | division_by_zero
  /-- Abort of `CHECK_EQ(num_rois, batch_size)`. -/
  | check_eq_num_rois_batch_size
  /-- Abort of `CHECK_GE(roi_batch_ind, 0)`. -/
  | check_ge_roi_batch_ind_0
  /-- Abort of `CHECK_LT(roi_batch_ind, batch_size)`. -/
  | check_lt_roi_batch_ind_batch_size
  /-- Abort of `NOT_IMPLEMENTED`. -/
  | not_implemented
  deriving DecidableEq, Repr

/-- Modelled from the spec: the configuration message `ROIPoolingParameter`
(its declaration is generated code outside this file), with the three
fields the layer reads. -/
structure ROIPoolingParameter where
  pooled_h : Int
  pooled_w : Int
  spatial_scale : Dtype

/-- The data members of `WholeImagePoolingLayer<Dtype>`, and with them the
arithmetic of the template argument. -/
structure WholeImagePoolingLayer where
  arith : Arith
  channels_ : Int
  height_ : Int
  width_ : Int
  pooled_height_ : Int
  pooled_width_ : Int
  spatial_scale_ : Dtype
  max_idx_ : Blob Int
  bboxes_ : Blob Dtype

/-- The loop `for (int i = 0; i < k; ++i) body(i)`. -/
def forLoop {σ : Type} (body : Nat → σ → σ) : Nat → σ → σ
  | 0, s => s
  | k + 1, s => body k (forLoop body k s)

/-- The loop `for (int i = lo; i < hi; ++i) body(i)`. -/
def forRange {σ : Type} (lo hi : Int) (body : Int → σ → σ) (s : σ) : σ :=
  forLoop (fun i => body (lo + (i : Int))) (hi - lo).toNat s

/-- The loop `for (int i = 0; i < k; ++i) body(i)` with a body that may abort. -/
def forLoopM {σ ε : Type} (body : Nat → σ → Except ε σ) : Nat → σ → Except ε σ
  | 0, s => .ok s
  | k + 1, s =>
    match forLoopM body k s with
    | .ok s1 => body k s1
    | .error e => .error e

/-- The call `caffe_set(count, value, p)` on a buffer, `p` at offset 0. -/
def caffe_set {α : Type} (count : Int) (value : α) (mem : Int → α) : Int → α :=
  fun i => if 0 ≤ i ∧ i < count then value else mem i

/-- The method `WholeImagePoolingLayer::LayerSetUp`. -/
def LayerSetUp (L : WholeImagePoolingLayer) (roi_pool_param : ROIPoolingParameter) :
    Except Fatal WholeImagePoolingLayer :=
  if ¬ (roi_pool_param.pooled_h > 0) then .error .pooled_h_must_be_gt_0
  else if ¬ (roi_pool_param.pooled_w > 0) then .error .pooled_w_must_be_gt_0
  else .ok { L with pooled_height_ := roi_pool_param.pooled_h,
                    pooled_width_ := roi_pool_param.pooled_w,
                    spatial_scale_ := roi_pool_param.spatial_scale }

/-- One pass of the region loop of `Reshape` (lines 61-83): the state is the
pointer `bottom_rois` and the buffer of `bboxes_`. -/
def Reshape_roi (A : Arith) (width_ height_ : Int) (im_info : Option (Blob Dtype))
    (stride : Int) (n : Nat) (st : Int × (Int → Dtype)) : Int × (Int → Dtype) :=
  let bottom_rois := st.1
  let m := Function.update st.2 (bottom_rois + 0) (A.ofInt n)
  let m := Function.update m (bottom_rois + 1) (A.ofInt 0)
  let m := Function.update m (bottom_rois + 2) (A.ofInt 0)
  let m :=
    match im_info with
    | some b1 =>
      let offset := b1.offset n 0 0 0
      let o_width := b1.data (offset + 1)
      let o_height := b1.data (offset + 2)
      let o_scale := b1.data (offset + 3)
      let m := Function.update m (bottom_rois + 3) (A.sub (A.mul o_width o_scale) (A.ofInt 1))
      Function.update m (bottom_rois + 4) (A.sub (A.mul o_height o_scale) (A.ofInt 1))
    | none =>
      let m := Function.update m (bottom_rois + 3) (A.ofInt (width_ - 1))
      Function.update m (bottom_rois + 4) (A.ofInt (height_ - 1))
  (bottom_rois + stride, m)

/-- The work of `Reshape` other than its check (lines 38-45 and 59-83), with
`im_info` the side input when there is one. -/
def Reshape_body (L : WholeImagePoolingLayer) (bottom0 top0 : Blob Dtype)
    (im_info : Option (Blob Dtype)) : WholeImagePoolingLayer × Blob Dtype :=
  let num : Int := bottom0.num
  let channels_ : Int := bottom0.channels
  let height_ : Int := bottom0.height
  let width_ : Int := bottom0.width
  let top0 := top0.Reshape num channels_ L.pooled_height_ L.pooled_width_
  let max_idx_ := L.max_idx_.Reshape num channels_ L.pooled_height_ L.pooled_width_
  let bboxes_ := L.bboxes_.Reshape num 5 1 1
  let st := forLoop (Reshape_roi L.arith width_ height_ im_info (bboxes_.offset 1 0 0 0))
    num.toNat (0, bboxes_.data)
  ({ L with channels_ := channels_, height_ := height_, width_ := width_,
            max_idx_ := max_idx_, bboxes_ := { bboxes_ with data := st.2 } }, top0)

/-- The method `WholeImagePoolingLayer::Reshape`, on `bottom = bottom0 :: bottomRest`
and `top[0] = top0`; returns the layer and `top[0]`.  `bottom.size() == 2`
is `bottomRest = [bottom1]`. -/
def Reshape (L : WholeImagePoolingLayer) (bottom0 : Blob Dtype)
    (bottomRest : List (Blob Dtype)) (top0 : Blob Dtype) :
    Except Fatal (WholeImagePoolingLayer × Blob Dtype) :=
  match bottomRest with
  | [bottom1] =>
    if bottom1.num = 0 then .error .division_by_zero
    else if bottom1.count / bottom1.num ≠ 5 then .error .wrong_im_info_params
    else .ok (Reshape_body L bottom0 top0 (some bottom1))
  | _ => .ok (Reshape_body L bottom0 top0 none)

/-- The buffers `Forward_cpu` writes and the pointers it moves. -/
structure FwdState where
  /-- pointer into the buffer of `bboxes_` -/
  bottom_rois : Int
  /-- pointer into the buffer of `top[0]` -/
  top_data : Int
  /-- pointer into the buffer of `max_idx_` -/
  argmax_data : Int
  /-- buffer of `top[0]` -/
  top_mem : Int → Dtype
  /-- buffer of `max_idx_` -/
  max_idx_mem : Int → Int
  /-- ghost: region number and offset of every element read from `bottom[0]` -/
  reads : List (Nat × Int)

/-- The four bounds of a pooling window. -/
structure Bin where
  hstart : Int
  hend : Int
  wstart : Int
  wend : Int
  deriving DecidableEq, Repr

/-- The window of output unit `(ph, pw)` before clamping (lines 128-135),
already shifted by the region start (the additions of lines 137-140). -/
def rawBin (A : Arith) (roi_start_h roi_start_w : Int) (bin_size_h bin_size_w : Dtype)
    (ph pw : Int) : Bin :=
  { hstart := A.wrap (toInt A (c_floor (A.mul (A.ofInt ph) bin_size_h)) + roi_start_h)
    hend := A.wrap (toInt A (c_ceil (A.mul (A.ofInt (ph + 1)) bin_size_h)) + roi_start_h)
    wstart := A.wrap (toInt A (c_floor (A.mul (A.ofInt pw) bin_size_w)) + roi_start_w)
    wend := A.wrap (toInt A (c_ceil (A.mul (A.ofInt (pw + 1)) bin_size_w)) + roi_start_w) }

/-- The clamping of lines 137-140. -/
def clampBin (height_ width_ : Int) (b : Bin) : Bin :=
  { hstart := min (max b.hstart 0) height_
    hend := min (max b.hend 0) height_
    wstart := min (max b.wstart 0) width_
    wend := min (max b.wend 0) width_ }

/-- The body of the scan loop (lines 152-156) at `(h, w)`. -/
def scanElem (width_ : Int) (bottom_data : Int → Dtype) (n : Nat)
    (batch_data pool_index : Int) (h w : Int) (s : FwdState) : FwdState :=
  let index := h * width_ + w
  let s := { s with reads := (n, batch_data + index) :: s.reads }
  if bottom_data (batch_data + index) > s.top_mem (s.top_data + pool_index) then
    { s with
      top_mem := Function.update s.top_mem (s.top_data + pool_index)
        (bottom_data (batch_data + index))
      max_idx_mem := Function.update s.max_idx_mem (s.argmax_data + pool_index) index }
  else s

/-- The body of the `pw` loop (lines 125-158) for output unit `(ph, pw)`. -/
def poolCell (L : WholeImagePoolingLayer) (bottom_data : Int → Dtype) (n : Nat)
    (batch_data roi_start_h roi_start_w : Int) (bin_size_h bin_size_w : Dtype)
    (ph pw : Int) (s : FwdState) : FwdState :=
  let b := clampBin L.height_ L.width_
    (rawBin L.arith roi_start_h roi_start_w bin_size_h bin_size_w ph pw)
  let is_empty : Bool := decide (b.hend ≤ b.hstart) || decide (b.wend ≤ b.wstart)
  let pool_index := ph * L.pooled_width_ + pw
  let s :=
    if is_empty then
      { s with
        top_mem := Function.update s.top_mem (s.top_data + pool_index) 0
        max_idx_mem := Function.update s.max_idx_mem (s.argmax_data + pool_index) (-1) }
    else s
  forRange b.hstart b.hend
    (fun h => forRange b.wstart b.wend
      (fun w => scanElem L.width_ bottom_data n batch_data pool_index h w)) s

/-- The `ph` and `pw` loops (lines 123-160). -/
def poolGrid (L : WholeImagePoolingLayer) (bottom_data : Int → Dtype) (n : Nat)
    (batch_data roi_start_h roi_start_w : Int) (bin_size_h bin_size_w : Dtype)
    (s : FwdState) : FwdState :=
  forLoop
    (fun ph => forLoop
      (fun pw => poolCell L bottom_data n batch_data roi_start_h roi_start_w
        bin_size_h bin_size_w ph pw)
      L.pooled_width_.toNat)
    L.pooled_height_.toNat s

/-- The body of the channel loop (lines 122-165); the state carries the
pointer `batch_data` next to the buffers. -/
def poolChannel (L : WholeImagePoolingLayer) (bottom0 top0 : Blob Dtype) (n : Nat)
    (roi_start_h roi_start_w : Int) (bin_size_h bin_size_w : Dtype)
    (_c : Nat) (st : Int × FwdState) : Int × FwdState :=
  let batch_data := st.1
  let s := poolGrid L bottom0.data n batch_data roi_start_h roi_start_w
    bin_size_h bin_size_w st.2
  (batch_data + bottom0.offset 0 1 0 0,
   { s with top_data := s.top_data + top0.offset 0 1 0 0
            argmax_data := s.argmax_data + L.max_idx_.offset 0 1 0 0 })

/-- The integers read off a region `[batch_index x1 y1 x2 y2]` (lines 105-109). -/
structure Roi where
  roi_batch_ind : Int
  roi_start_w : Int
  roi_start_h : Int
  roi_end_w : Int
  roi_end_h : Int
  deriving DecidableEq, Repr

/-- Lines 105-109 at the pointer `bottom_rois`. -/
def readRoi (L : WholeImagePoolingLayer) (bottom_rois : Int) : Roi :=
  { roi_batch_ind := toInt L.arith (L.bboxes_.data (bottom_rois + 0))
    roi_start_w :=
      toInt L.arith (c_round (L.arith.mul (L.bboxes_.data (bottom_rois + 1)) L.spatial_scale_))
    roi_start_h :=
      toInt L.arith (c_round (L.arith.mul (L.bboxes_.data (bottom_rois + 2)) L.spatial_scale_))
    roi_end_w :=
      toInt L.arith (c_round (L.arith.mul (L.bboxes_.data (bottom_rois + 3)) L.spatial_scale_))
    roi_end_h :=
      toInt L.arith (c_round (L.arith.mul (L.bboxes_.data (bottom_rois + 4)) L.spatial_scale_)) }

/-- Lines 113 and 115-116. -/
def bin_size_h (L : WholeImagePoolingLayer) (r : Roi) : Dtype :=
  let roi_height := max (L.arith.wrap (L.arith.wrap (r.roi_end_h - r.roi_start_h) + 1)) 1
  L.arith.div (L.arith.ofInt roi_height) (L.arith.ofInt L.pooled_height_)

/-- Lines 114 and 117-118. -/
def bin_size_w (L : WholeImagePoolingLayer) (r : Roi) : Dtype :=
  let roi_width := max (L.arith.wrap (L.arith.wrap (r.roi_end_w - r.roi_start_w) + 1)) 1
  L.arith.div (L.arith.ofInt roi_width) (L.arith.ofInt L.pooled_width_)

/-- The body of the region loop past its two checks (lines 113-167). -/
def poolRoiBody (L : WholeImagePoolingLayer) (bottom0 top0 : Blob Dtype)
    (n : Nat) (s : FwdState) : FwdState :=
  let r := readRoi L s.bottom_rois
  let batch_data := bottom0.offset r.roi_batch_ind 0 0 0
  let st := forLoop
    (poolChannel L bottom0 top0 n r.roi_start_h r.roi_start_w
      (bin_size_h L r) (bin_size_w L r))
    L.channels_.toNat (batch_data, s)
  { st.2 with bottom_rois := st.2.bottom_rois + L.bboxes_.offset 1 0 0 0 }

/-- The body of the region loop (lines 105-167). -/
def poolRoi (L : WholeImagePoolingLayer) (bottom0 top0 : Blob Dtype)
    (n : Nat) (s : FwdState) : Except (Fatal × FwdState) FwdState :=
  let batch_size : Int := bottom0.num
  let r := readRoi L s.bottom_rois
  if ¬ (r.roi_batch_ind ≥ 0) then .error (.check_ge_roi_batch_ind_0, s)
  else if ¬ (r.roi_batch_ind < batch_size) then
    .error (.check_lt_roi_batch_ind_batch_size, s)
  else .ok (poolRoiBody L bottom0 top0 n s)

/-- The method `WholeImagePoolingLayer::Forward_cpu` on `bottom[0] = bottom0` and
`top[0] = top0`.  An abort carries the state reached. -/
def Forward_cpu (L : WholeImagePoolingLayer) (bottom0 top0 : Blob Dtype) :
    Except (Fatal × FwdState) FwdState :=
  let num_rois : Int := L.bboxes_.num
  let batch_size : Int := bottom0.num
  let s0 : FwdState :=
    { bottom_rois := 0, top_data := 0, argmax_data := 0
      top_mem := top0.data, max_idx_mem := L.max_idx_.data, reads := [] }
  if num_rois ≠ batch_size then .error (.check_eq_num_rois_batch_size, s0)
  else
    let top_count := top0.count
    let s : FwdState :=
      { s0 with top_mem := caffe_set top_count (-FLT_MAX) s0.top_mem
                max_idx_mem := caffe_set top_count (-1) s0.max_idx_mem }
    forLoopM (poolRoi L bottom0 top0) L.bboxes_.num s

/-- The method `WholeImagePoolingLayer::Backward_cpu`. -/
def Backward_cpu (_L : WholeImagePoolingLayer) (_top : List (Blob Dtype))
    (_propagate_down : List Bool) (_bottom : List (Blob Dtype)) :
    Except Fatal (List (Blob Dtype)) :=
  .error .not_implemented

/-! ## Definitions for the statements

The scan seen on the one output unit it updates, the sizes and regions the
pointer advances run over, what `Reshape` establishes, and the predicates the
theorems are stated with. -/

/-- The body of the scan loop (lines 152-156) on the pair
`(top_data[pool_index], argmax_data[pool_index])`. -/
def scanAcc (width_ : Int) (bottom_data : Int → Dtype) (batch_data : Int)
    (h w : Int) (acc : Dtype × Int) : Dtype × Int :=
  let index := h * width_ + w
  if bottom_data (batch_data + index) > acc.1 then
    (bottom_data (batch_data + index), index)
  else acc

/-- The scan of a window (lines 150-158) on that pair. -/
def scanBin (width_ : Int) (bottom_data : Int → Dtype) (batch_data : Int) (b : Bin)
    (acc : Dtype × Int) : Dtype × Int :=
  forRange b.hstart b.hend
    (fun h => forRange b.wstart b.wend
      (fun w => scanAcc width_ bottom_data batch_data h w)) acc

/-- The body of the `pw` loop (lines 125-158) on that pair. -/
def cellValue (L : WholeImagePoolingLayer) (bottom_data : Int → Dtype)
    (batch_data roi_start_h roi_start_w : Int) (bin_size_h bin_size_w : Dtype)
    (ph pw : Int) (acc : Dtype × Int) : Dtype × Int :=
  let b := clampBin L.height_ L.width_
    (rawBin L.arith roi_start_h roi_start_w bin_size_h bin_size_w ph pw)
  let is_empty : Bool := decide (b.hend ≤ b.hstart) || decide (b.wend ≤ b.wstart)
  scanBin L.width_ bottom_data batch_data b (if is_empty then (0, -1) else acc)

/-- The two output buffers read together, relative to the pointers `tp`
(into `top[0]`) and `ap` (into `max_idx_`). -/
def viewAt (tp ap : Int) (s : FwdState) (x : Int) : Dtype × Int :=
  (s.top_mem (tp + x), s.max_idx_mem (ap + x))

/-- The three pointers of a state. -/
def Ptrs (br tp ap : Int) (s : FwdState) : Prop :=
  s.bottom_rois = br ∧ s.top_data = tp ∧ s.argmax_data = ap

/-- The number of units of one channel of the pooled grid. -/
def gridSize (L : WholeImagePoolingLayer) : Int :=
  (L.pooled_height_.toNat : Int) * (L.pooled_width_.toNat : Int)

/-- The number of units of one region of the pooled output. -/
def roiSize (L : WholeImagePoolingLayer) : Int :=
  (L.channels_.toNat : Int) * gridSize L

/-- The region the `n`-th pass of the region loop reads, `bottom_rois` having
been advanced `n` times from offset `br`. -/
def regionAt (L : WholeImagePoolingLayer) (br : Int) (n : Nat) : Roi :=
  readRoi L (br + (n : Int) * L.bboxes_.offset 1 0 0 0)

/-- What `Reshape` establishes between the layer, `bottom[0]` and `top[0]`:
the cached extents, the extents of `top[0]` and `max_idx_`, and the extents
of `bboxes_`.  The contents of `bboxes_` are left free. -/
def Shaped (L : WholeImagePoolingLayer) (bottom0 top0 : Blob Dtype) : Prop :=
  (L.channels_ = bottom0.channels ∧ L.height_ = bottom0.height ∧ L.width_ = bottom0.width) ∧
  (top0.num = bottom0.num ∧ top0.channels = bottom0.channels ∧
    top0.height = L.pooled_height_.toNat ∧ top0.width = L.pooled_width_.toNat) ∧
  (L.max_idx_.num = bottom0.num ∧ L.max_idx_.channels = bottom0.channels ∧
    L.max_idx_.height = L.pooled_height_.toNat ∧ L.max_idx_.width = L.pooled_width_.toNat) ∧
  (L.bboxes_.num = bottom0.num ∧ L.bboxes_.channels = 5 ∧ L.bboxes_.height = 1 ∧
    L.bboxes_.width = 1)

instance (L : WholeImagePoolingLayer) (bottom0 top0 : Blob Dtype) :
    Decidable (Shaped L bottom0 top0) := by
  unfold Shaped; exact inferInstance

/-- The state of `Forward_cpu` on entry to the region loop (lines 89-101). -/
def seedState (L : WholeImagePoolingLayer) (top0 : Blob Dtype) : FwdState :=
  { bottom_rois := 0, top_data := 0, argmax_data := 0
    top_mem := caffe_set top0.count (-FLT_MAX) top0.data
    max_idx_mem := caffe_set top0.count (-1) L.max_idx_.data
    reads := [] }

/-- The window of output unit `(ph, pw)` of region `n`, as lines 105-140
compute it. -/
def cellBin (L : WholeImagePoolingLayer) (n ph pw : Nat) : Bin :=
  clampBin L.height_ L.width_
    (rawBin L.arith (regionAt L 0 n).roi_start_h (regionAt L 0 n).roi_start_w
      (bin_size_h L (regionAt L 0 n)) (bin_size_w L (regionAt L 0 n)) ph pw)

/-- The value and argmax that the pass for unit `(n, c, ph, pw)` leaves,
starting from the seeds of lines 99 and 101. -/
def outCell (L : WholeImagePoolingLayer) (bottom0 : Blob Dtype) (n c ph pw : Nat) :
    Dtype × Int :=
  cellValue L bottom0.data
    (bottom0.offset (regionAt L 0 n).roi_batch_ind 0 0 0 + (c : Int) * bottom0.offset 0 1 0 0)
    (regionAt L 0 n).roi_start_h (regionAt L 0 n).roi_start_w
    (bin_size_h L (regionAt L 0 n)) (bin_size_w L (regionAt L 0 n)) ph pw (-FLT_MAX, -1)

/-- Region `n` names an image of the batch: the two checks of lines 110-111
pass on it. -/
def ValidRoi (L : WholeImagePoolingLayer) (bottom0 : Blob Dtype) (n : Nat) : Prop :=
  0 ≤ (regionAt L 0 n).roi_batch_ind ∧ (regionAt L 0 n).roi_batch_ind < bottom0.num

instance (L : WholeImagePoolingLayer) (bottom0 : Blob Dtype) (n : Nat) :
    Decidable (ValidRoi L bottom0 n) := by
  unfold ValidRoi; exact inferInstance

/-- Every region of the list names an image of the batch. -/
def ValidRois (L : WholeImagePoolingLayer) (bottom0 : Blob Dtype) : Prop :=
  ∀ n : Nat, n < L.bboxes_.num → ValidRoi L bottom0 n

instance (L : WholeImagePoolingLayer) (bottom0 : Blob Dtype) :
    Decidable (ValidRois L bottom0) := by
  unfold ValidRois; exact inferInstance

/-- What a scan leaves in the pair `(value, argmax)`: `S` is the set of
positions `(h, w)` scanned, `F` the value at a position, `acc0` the pair
before the scan and `acc` the pair after it.  The old value is at most the new
one (so neither is a NaN) and nothing scanned is greater than the new one;
either nothing was written, or the pair is the value and flat index of a
scanned position that exceeds the old value and is at most no position scanned
before it. -/
def ScanPost (F : Int → Int → Dtype) (W : Int) (S : Int → Int → Prop)
    (acc0 acc : Dtype × Int) : Prop :=
  acc0.1 ≤ acc.1 ∧ (∀ h w, S h w → ¬ acc.1 < F h w) ∧
    (acc = acc0 ∨
      ∃ h w, S h w ∧ acc = (F h w, h * W + w) ∧ acc0.1 < F h w ∧
        ∀ h2 w2, S h2 w2 → (h2 < h ∨ (h2 = h ∧ w2 < w)) → ¬ F h w ≤ F h2 w2)

/-- Membership of `(h, w)` in a window. -/
def Bin.Mem (b : Bin) (h w : Int) : Prop :=
  b.hstart ≤ h ∧ h < b.hend ∧ b.wstart ≤ w ∧ w < b.wend

instance (b : Bin) (h w : Int) : Decidable (b.Mem h w) := by
  unfold Bin.Mem; exact inferInstance

/-- The `x2` that `Reshape` stores for region `n` (lines 75 and 78). -/
def Reshape_x2 (A : Arith) (width_ : Int) (im_info : Option (Blob Dtype)) (n : Nat) : Dtype :=
  match im_info with
  | some b1 =>
    A.sub (A.mul (b1.data (b1.offset n 0 0 0 + 1)) (b1.data (b1.offset n 0 0 0 + 3))) (A.ofInt 1)
  | none => A.ofInt (width_ - 1)

/-- The `y2` that `Reshape` stores for region `n` (lines 76 and 79). -/
def Reshape_y2 (A : Arith) (height_ : Int) (im_info : Option (Blob Dtype)) (n : Nat) : Dtype :=
  match im_info with
  | some b1 =>
    A.sub (A.mul (b1.data (b1.offset n 0 0 0 + 2)) (b1.data (b1.offset n 0 0 0 + 3))) (A.ofInt 1)
  | none => A.ofInt (height_ - 1)

/-- Every logged read satisfies `G`. -/
def ReadsOk (G : Nat × Int → Prop) (s : FwdState) : Prop :=
  ∀ r, r ∈ s.reads → G r

/-- The window of ordinary adaptive max pooling of an `H x W` map into a
`pooled_height x pooled_width` grid, in the words of the specification: rows
`[floor(ph * H / pooled_height), ceil((ph + 1) * H / pooled_height))` and
columns `[floor(pw * W / pooled_width), ceil((pw + 1) * W / pooled_width))`. -/
def adaptiveBin (H W pooled_height pooled_width : Int) (ph pw : Int) : Bin :=
  { hstart := ⌊((ph * H : Int) : ℚ) / (pooled_height : ℚ)⌋
    hend := ⌈(((ph + 1) * H : Int) : ℚ) / (pooled_height : ℚ)⌉
    wstart := ⌊((pw * W : Int) : ℚ) / (pooled_width : ℚ)⌋
    wend := ⌈(((pw + 1) * W : Int) : ℚ) / (pooled_width : ℚ)⌉ }

/-- The value `m` is a greatest element of the set `S` of values, in the
comparison of `Dtype`. -/
def IsMaxOf (S : Set Dtype) (m : Dtype) : Prop :=
  m ∈ S ∧ ∀ x, x ∈ S → x ≤ m

/-- The integers that arithmetic `A` converts to `Dtype` and back unchanged:
up to `2^24` in magnitude for `float`, all of `int` for `double`. -/
def Arith.IntExact : Arith → Int → Prop
  | .float, z => -16777216 ≤ z ∧ z ≤ 16777216
  | .double, z => INT_MIN ≤ z ∧ z ≤ INT_MAX
  | .ideal, _ => True

instance (A : Arith) (z : Int) : Decidable (A.IntExact z) := by
  cases A <;> unfold Arith.IntExact <;> exact inferInstance

/-- Arithmetic `A` computes the bins of an `H x W` map pooled to a
`PH x PW` grid without rounding: it is exact, or `H` and `W` are held exactly
and are multiples of `PH` and `PW`. -/
def Arith.ExactBins : Arith → Int → Int → Int → Int → Prop
  | .ideal, _, _, _, _ => True
  | A, H, W, PH, PW => A.IntExact H ∧ A.IntExact W ∧ H % PH = 0 ∧ W % PW = 0

instance (A : Arith) (H W PH PW : Int) : Decidable (A.ExactBins H W PH PW) := by
  cases A <;> unfold Arith.ExactBins <;> exact inferInstance

/-- The state `Forward_cpu` ends in, whether it returns or aborts. -/
def finalState (r : Except (Fatal × FwdState) FwdState) : FwdState :=
  match r with
  | .ok s => s
  | .error es => es.2

/-- The logged read `r` was made through a region that passed the two checks
of lines 110-111, in some channel `c` of the image the region names, at a flat
index inside the `height_ x width_` slice. -/
def ReadInSlice (L : WholeImagePoolingLayer) (bottom0 : Blob Dtype) (r : Nat × Int) : Prop :=
  ValidRoi L bottom0 r.1 ∧
    ∃ c : Nat, c < L.channels_.toNat ∧ ∃ idx : Int, 0 ≤ idx ∧ idx < L.height_ * L.width_ ∧
      r.2 = bottom0.offset (regionAt L 0 r.1).roi_batch_ind c 0 0 + idx

/-- The blob `b` with its buffer holding `d`. -/
def Blob.withData {α : Type} (b : Blob α) (d : Int → α) : Blob α :=
  { b with data := d }

/-- The layer `L` with the buffer of `max_idx_` holding `d`. -/
def withMaxIdx (L : WholeImagePoolingLayer) (d : Int → Int) : WholeImagePoolingLayer :=
  { L with max_idx_ := L.max_idx_.withData d }

/-! ## Reading results, and concrete inputs -/

/-- Element `x` of the buffer of `top[0]` after `LayerSetUp`, `Reshape` and
`Forward_cpu` in turn, if all three return. -/
def pooledValue (L : WholeImagePoolingLayer) (param : ROIPoolingParameter)
    (bottom0 : Blob Dtype) (bottomRest : List (Blob Dtype)) (top0 : Blob Dtype) (x : Int) :
    Option Dtype :=
  match LayerSetUp L param with
  | .ok L1 =>
    match Reshape L1 bottom0 bottomRest top0 with
    | .ok r =>
      match Forward_cpu r.1 bottom0 r.2 with
      | .ok s => some (s.top_mem x)
      | .error _ => none
    | .error _ => none
  | .error _ => none

/-- Element `x` of the buffer of `max_idx_` after `LayerSetUp`, `Reshape` and
`Forward_cpu` in turn, if all three return. -/
def pooledArgmax (L : WholeImagePoolingLayer) (param : ROIPoolingParameter)
    (bottom0 : Blob Dtype) (bottomRest : List (Blob Dtype)) (top0 : Blob Dtype) (x : Int) :
    Option Int :=
  match LayerSetUp L param with
  | .ok L1 =>
    match Reshape L1 bottom0 bottomRest top0 with
    | .ok r =>
      match Forward_cpu r.1 bottom0 r.2 with
      | .ok s => some (s.max_idx_mem x)
      | .error _ => none
    | .error _ => none
  | .error _ => none

/-- A blob with no element. -/
def blankBlob (α : Type) [Zero α] : Blob α :=
  { num := 0, channels := 0, height := 0, width := 0, data := fun _ => 0 }

/-- A layer of arithmetic `A` as constructed, before `LayerSetUp`. -/
def blankLayer (A : Arith) : WholeImagePoolingLayer :=
  { arith := A, channels_ := 0, height_ := 0, width_ := 0, pooled_height_ := 0
    pooled_width_ := 0, spatial_scale_ := 0, max_idx_ := blankBlob Int
    bboxes_ := blankBlob Dtype }

/-- The layer `blankLayer A` configured with `pooled_h`, `pooled_w` and
`spatial_scale = 1`, as `LayerSetUp` leaves it. -/
def configuredLayer (A : Arith) (pooled_h pooled_w : Int) : WholeImagePoolingLayer :=
  { blankLayer A with pooled_height_ := pooled_h, pooled_width_ := pooled_w,
                      spatial_scale_ := .fin 1 }

/-- The layer after `Reshape` from `configuredLayer A pooled_h pooled_w`, with
`im_info` the side input if any. -/
def layerFor (A : Arith) (pooled_h pooled_w : Int) (bottom0 : Blob Dtype)
    (im_info : Option (Blob Dtype)) : WholeImagePoolingLayer :=
  (Reshape_body (configuredLayer A pooled_h pooled_w) bottom0 (blankBlob Dtype) im_info).1

/-- The blob `top[0]` after that `Reshape`. -/
def topFor (A : Arith) (pooled_h pooled_w : Int) (bottom0 : Blob Dtype)
    (im_info : Option (Blob Dtype)) : Blob Dtype :=
  (Reshape_body (configuredLayer A pooled_h pooled_w) bottom0 (blankBlob Dtype) im_info).2

/-- An `ImageInfo` blob of one record `[0, 4, 4, 1, 0]`. -/
def imInfoBig : Blob Dtype :=
  { num := 1, channels := 5, height := 1, width := 1
    data := fun i => .fin (if i = 1 then 4 else if i = 2 then 4 else if i = 3 then 1 else 0) }

/-- The layer `layerFor A 2 2 bottom0 none` whose first region has had its
batch index overwritten by `-1`. -/
def badRegionLayer (A : Arith) (bottom0 : Blob Dtype) : WholeImagePoolingLayer :=
  { layerFor A 2 2 bottom0 none with
    bboxes_ := { (layerFor A 2 2 bottom0 none).bboxes_ with
                 data := Function.update (layerFor A 2 2 bottom0 none).bboxes_.data 0
                   (.fin (-1)) } }

/-- The 1 x 1 x 4 x 4 feature map holding 1..16 in row-major order. -/
def fm4x4 : Blob Dtype :=
  { num := 1, channels := 1, height := 4, width := 4, data := fun i => .fin ((i : ℚ) + 1) }

/-- A 1 x 1 x `height` x `width` feature map holding `v` everywhere. -/
def constMap (height width : Nat) (v : Dtype) : Blob Dtype :=
  { num := 1, channels := 1, height := height, width := width, data := fun _ => v }

/-- An `ImageInfo` blob of one record `[0, 10^10, 10^10, 1, 0]`, whose extents
are values of `float` beyond the range of `int`. -/
def imInfoHuge : Blob Dtype :=
  { num := 1, channels := 5, height := 1, width := 1
    data := fun i =>
      .fin (if i = 1 then 10000000000 else if i = 2 then 10000000000 else if i = 3 then 1
        else 0) }

/-- A 1 x 1 x `height` x 1 feature map holding 100 in row `r` and 0 in every
other row. -/
def spikeMap (height : Nat) (r : Int) : Blob Dtype :=
  { num := 1, channels := 1, height := height, width := 1
    data := fun i => .fin (if i = r then 100 else 0) }

/-- An `ImageInfo` blob of one record of four fields. -/
def imInfoShort : Blob Dtype :=
  { num := 1, channels := 4, height := 1, width := 1, data := fun _ => 0 }

theorem Dtype.lt_iff (x y : Dtype) : x < y ↔ Dtype.blt x y = true := Iff.rfl

theorem Dtype.le_iff (x y : Dtype) : x ≤ y ↔ (x < y ∨ (x = y ∧ x ≠ Dtype.nan)) := Iff.rfl

theorem Dtype.fin_lt_fin (a b : ℚ) : Dtype.fin a < Dtype.fin b ↔ a < b := by
  rw [Dtype.lt_iff]; simp [Dtype.blt]

theorem Dtype.fin_le_fin (a b : ℚ) : Dtype.fin a ≤ Dtype.fin b ↔ a ≤ b := by
  rw [Dtype.le_iff, Dtype.fin_lt_fin]
  simp only [Dtype.fin.injEq, ne_eq, not_false_eq_true, and_true, reduceCtorEq]
  exact le_iff_lt_or_eq.symm

theorem Dtype.lt_irrefl (x : Dtype) : ¬ x < x := by
  rw [Dtype.lt_iff]
  cases x <;> simp [Dtype.blt]

theorem Dtype.lt_trans {x y z : Dtype} (h1 : x < y) (h2 : y < z) : x < z := by
  rw [Dtype.lt_iff] at *
  cases x <;> cases y <;> cases z <;> simp_all [Dtype.blt]
  exact h1.trans h2

theorem Dtype.ne_nan_of_lt {x y : Dtype} (h : x < y) : x ≠ Dtype.nan ∧ y ≠ Dtype.nan := by
  rw [Dtype.lt_iff] at h
  cases x <;> cases y <;> simp_all [Dtype.blt]

theorem Dtype.le_of_lt {x y : Dtype} (h : x < y) : x ≤ y := Or.inl h

theorem Dtype.le_refl {x : Dtype} (h : x ≠ Dtype.nan) : x ≤ x := Or.inr ⟨rfl, h⟩

theorem Dtype.ne_nan_of_le {x y : Dtype} (h : x ≤ y) : x ≠ Dtype.nan ∧ y ≠ Dtype.nan := by
  rcases h with h | ⟨rfl, h⟩
  · exact Dtype.ne_nan_of_lt h
  · exact ⟨h, h⟩

theorem Dtype.lt_of_le_of_lt {x y z : Dtype} (h1 : x ≤ y) (h2 : y < z) : x < z := by
  rcases h1 with h1 | ⟨rfl, -⟩
  · exact Dtype.lt_trans h1 h2
  · exact h2

theorem Dtype.lt_of_lt_of_le {x y z : Dtype} (h1 : x < y) (h2 : y ≤ z) : x < z := by
  rcases h2 with h2 | ⟨rfl, -⟩
  · exact Dtype.lt_trans h1 h2
  · exact h1

theorem Dtype.le_trans {x y z : Dtype} (h1 : x ≤ y) (h2 : y ≤ z) : x ≤ z := by
  rcases h2 with h2 | ⟨rfl, -⟩
  · exact Or.inl (Dtype.lt_of_le_of_lt h1 h2)
  · exact h1

theorem Dtype.not_lt_of_le {x y : Dtype} (h : x ≤ y) : ¬ y < x := by
  intro h2
  exact Dtype.lt_irrefl x (Dtype.lt_of_le_of_lt h h2)

/-- Two values that are not NaN compare one way or the other. -/
theorem Dtype.le_of_not_lt {x y : Dtype} (hx : x ≠ Dtype.nan) (hy : y ≠ Dtype.nan)
    (h : ¬ x < y) : y ≤ x := by
  rw [Dtype.le_iff, Dtype.lt_iff]
  rw [Dtype.lt_iff] at h
  cases x <;> cases y <;> simp_all [Dtype.blt]
  · rename_i a b
    cases a <;> cases b <;> simp_all
  · rename_i a b
    exact le_iff_lt_or_eq.mp h

theorem Dtype.le_antisymm {x y : Dtype} (h1 : x ≤ y) (h2 : y ≤ x) : x = y := by
  rcases h1 with h1 | ⟨h1, -⟩
  · exact absurd h1 (Dtype.not_lt_of_le h2)
  · exact h1

theorem neg_FLT_MAX_ne_nan : (-FLT_MAX : Dtype) ≠ Dtype.nan := by
  intro h; cases h

/-! ## Integers in the arithmetic of `Dtype` -/

theorem log2Fuel_le (fuel n : Nat) (hn : 1 ≤ n) (hf : n ≤ fuel) : 2 ^ log2Fuel fuel n ≤ n := by
  induction fuel generalizing n with
  | zero => omega
  | succ fuel ih =>
    unfold log2Fuel
    by_cases h2 : n < 2
    · rw [if_pos h2]; simpa using hn
    · rw [if_neg h2]
      have h3 := ih (n / 2) (by omega) (by omega)
      rw [pow_succ]
      omega

theorem log2_le (n : Nat) (hn : 1 ≤ n) : 2 ^ log2 n ≤ n :=
  log2Fuel_le n n hn (Nat.le_refl n)

theorem log2_one : log2 1 = 0 := rfl

theorem ilog2_one_right (n : Nat) (hn : 1 ≤ n) : ilog2 n 1 = (log2 n : Int) := by
  unfold ilog2
  simp only [log2_one, Nat.cast_zero, sub_zero, Int.toNat_natCast, one_mul]
  rw [if_pos (Int.natCast_nonneg _), if_pos (log2_le n hn)]

theorem roundEven_mul (m d : Nat) (hd : 0 < d) : roundEven (m * d) d = m := by
  unfold roundEven
  rw [Nat.mul_mod_left, Nat.mul_div_cancel _ hd, if_pos (by omega)]

/-- An integer of magnitude at most `2^p` is a value of the format of precision
`p`: rounding leaves it as it is. -/
theorem roundTo_intCast (p emax : Nat) (hp : 1 ≤ p) (hpe : p ≤ emax) (z : Int)
    (hz : z.natAbs ≤ 2 ^ p) : roundTo p emax (z : ℚ) = Dtype.fin (z : ℚ) := by
  unfold roundTo
  by_cases h0 : z = 0
  · subst h0; simp
  · have hq : (z : ℚ) ≠ 0 := by exact_mod_cast h0
    rw [if_neg hq]
    simp only [Rat.num_intCast, Rat.den_intCast]
    have hn1 : 1 ≤ z.natAbs := Int.natAbs_pos.mpr h0
    have hle : 2 ^ log2 z.natAbs ≤ z.natAbs := log2_le _ hn1
    have hlp : log2 z.natAbs ≤ p := by
      by_contra hc
      have : 2 ^ (p + 1) ≤ 2 ^ log2 z.natAbs := Nat.pow_le_pow_right (by norm_num) (by omega)
      rw [pow_succ] at this
      have : 0 < 2 ^ p := pow_pos (by norm_num) _
      omega
    rw [ilog2_one_right _ hn1, max_eq_left (by omega)]
    have hbig : ¬ (((2 ^ (emax + 1) : Nat) : ℚ) ≤ ((z.natAbs : Nat) : ℚ)) := by
      rw [not_le]
      have h1 : 2 ^ p < 2 ^ (emax + 1) := Nat.pow_lt_pow_right (by norm_num) (by omega)
      exact_mod_cast lt_of_le_of_lt hz h1
    have hcast : ((z.natAbs : Nat) : ℚ) = (((z.natAbs : Nat) : Int) : ℚ) :=
      (Int.cast_natCast _).symm
    have hsign : (if (z : ℚ) < 0 then -((z.natAbs : Nat) : ℚ) else ((z.natAbs : Nat) : ℚ)) =
        (z : ℚ) := by
      by_cases hneg : z < 0
      · rw [if_pos (by exact_mod_cast hneg), hcast]
        have : ((z.natAbs : Nat) : Int) = -z := by omega
        rw [this]; push_cast; ring
      · rw [if_neg (by exact_mod_cast hneg), hcast]
        have : ((z.natAbs : Nat) : Int) = z := by omega
        rw [this]
    by_cases hk : (0 : Int) ≤ (log2 z.natAbs : Int) - (p : Int) + 1
    · simp only [hk, if_true, one_mul]
      have hdvd : ∃ m, z.natAbs =
          m * 2 ^ ((log2 z.natAbs : Int) - (p : Int) + 1).toNat := by
        by_cases hlt : log2 z.natAbs < p
        · have : ((log2 z.natAbs : Int) - (p : Int) + 1).toNat = 0 := by omega
          rw [this]
          exact ⟨z.natAbs, by simp⟩
        · have hpe2 : log2 z.natAbs = p := by omega
          have : ((log2 z.natAbs : Int) - (p : Int) + 1).toNat = 1 := by omega
          rw [this]
          rw [hpe2] at hle
          have hzp : z.natAbs = 2 ^ p := Nat.le_antisymm hz hle
          refine ⟨2 ^ (p - 1), ?_⟩
          rw [hzp, pow_one, ← pow_succ]
          congr 1
          omega
      generalize ((log2 z.natAbs : Int) - (p : Int) + 1).toNat = j at hdvd ⊢
      obtain ⟨m, hm⟩ := hdvd
      have hre : roundEven z.natAbs (2 ^ j) = m := by
        rw [hm]
        exact roundEven_mul m _ (pow_pos (by norm_num) _)
      rw [hre, ← hm, if_neg hbig, hsign]
    · simp only [hk, if_false]
      generalize (-((log2 z.natAbs : Int) - (p : Int) + 1)).toNat = j
      have hre : roundEven (z.natAbs * 2 ^ j) 1 = z.natAbs * 2 ^ j := by
        have := roundEven_mul (z.natAbs * 2 ^ j) 1 (by norm_num)
        rwa [mul_one] at this
      rw [hre]
      have hmag : ((z.natAbs * 2 ^ j : Nat) : ℚ) / ((2 ^ j : Nat) : ℚ) =
          ((z.natAbs : Nat) : ℚ) := by
        have hne : ((2 ^ j : Nat) : ℚ) ≠ 0 := by
          have : 0 < 2 ^ j := pow_pos (by norm_num) _
          exact_mod_cast this.ne'
        rw [Nat.cast_mul, mul_div_assoc, div_self hne, mul_one]
      rw [hmag, if_neg hbig, hsign]

theorem IntExact_float_natAbs (z : Int) (h : Arith.float.IntExact z) : z.natAbs ≤ 2 ^ 24 := by
  unfold Arith.IntExact at h
  norm_num
  omega

theorem IntExact_double_natAbs (z : Int) (h : Arith.double.IntExact z) : z.natAbs ≤ 2 ^ 53 := by
  unfold Arith.IntExact INT_MIN INT_MAX at h
  norm_num
  omega

/-- Conversion of an integer that the arithmetic holds exactly. -/
theorem Arith.ofInt_exact (A : Arith) (z : Int) (h : A.IntExact z) :
    A.ofInt z = Dtype.fin (z : ℚ) := by
  unfold Arith.ofInt Arith.round
  cases A
  · exact roundTo_intCast 24 127 (by norm_num) (by norm_num) z (IntExact_float_natAbs z h)
  · exact roundTo_intCast 53 1023 (by norm_num) (by norm_num) z (IntExact_double_natAbs z h)
  · rfl

theorem Arith.round_intCast (A : Arith) (z : Int) (h : A.IntExact z) :
    A.round (z : ℚ) = Dtype.fin (z : ℚ) := A.ofInt_exact z h

theorem Arith.IntExact_zero (A : Arith) : A.IntExact 0 := by
  cases A <;> unfold Arith.IntExact INT_MIN INT_MAX <;> simp

/-- An integer between 0 and one held exactly is held exactly. -/
theorem Arith.IntExact_of_le (A : Arith) {a b : Int} (ha : 0 ≤ a) (hab : a ≤ b)
    (h : A.IntExact b) : A.IntExact a := by
  cases A <;> unfold Arith.IntExact INT_MIN INT_MAX at * <;> first | trivial | omega

theorem Arith.IntExact_int (A : Arith) {z : Int} (h : A.IntExact z) :
    A = .ideal ∨ (INT_MIN ≤ z ∧ z ≤ INT_MAX) := by
  cases A
  · right; unfold Arith.IntExact at h; unfold INT_MIN INT_MAX; omega
  · right; exact h
  · left; rfl

/-- Conversion to `int` of an integer that the arithmetic holds exactly. -/
theorem toInt_intCast (A : Arith) (z : Int) (h : A.IntExact z) :
    toInt A (Dtype.fin (z : ℚ)) = z := by
  unfold toInt
  have hz : (if (0 : ℚ) ≤ (z : ℚ) then ⌊(z : ℚ)⌋ else ⌈(z : ℚ)⌉) = z := by
    split_ifs
    · exact Int.floor_intCast z
    · exact Int.ceil_intCast z
  simp only [hz]
  rcases A.IntExact_int h with rfl | hr
  · rfl
  · cases A
    · simp only [hr, and_self, if_true]
    · simp only [hr, and_self, if_true]
    · rfl

theorem Arith.wrap_exact (A : Arith) (z : Int) (h : A = .ideal ∨ (INT_MIN ≤ z ∧ z ≤ INT_MAX)) :
    A.wrap z = z := by
  cases A
  · rcases h with h | h
    · cases h
    · show (z - INT_MIN) % 4294967296 + INT_MIN = z
      unfold INT_MIN INT_MAX at *
      omega
  · rcases h with h | h
    · cases h
    · show (z - INT_MIN) % 4294967296 + INT_MIN = z
      unfold INT_MIN INT_MAX at *
      omega
  · rfl

theorem c_round_intCast (z : Int) : c_round (Dtype.fin (z : ℚ)) = Dtype.fin (z : ℚ) := by
  simp only [c_round, Dtype.fin.injEq, Int.cast_inj]
  split_ifs with h
  · rw [Int.floor_eq_iff]
    constructor <;> linarith
  · rw [Int.ceil_eq_iff]
    constructor <;> linarith

theorem c_floor_intCast (z : Int) : c_floor (Dtype.fin (z : ℚ)) = Dtype.fin (z : ℚ) := by
  simp only [c_floor, Int.floor_intCast]

theorem c_ceil_intCast (z : Int) : c_ceil (Dtype.fin (z : ℚ)) = Dtype.fin (z : ℚ) := by
  simp only [c_ceil, Int.ceil_intCast]

/-- The product of two integers, when the arithmetic holds it exactly. -/
theorem Arith.mul_intCast (A : Arith) (a b : Int) (h : A.IntExact (a * b)) :
    A.mul (Dtype.fin (a : ℚ)) (Dtype.fin (b : ℚ)) = Dtype.fin ((a * b : Int) : ℚ) := by
  simp only [Arith.mul]
  rw [← Int.cast_mul]
  exact A.round_intCast _ h

/-- The quotient of two integers, when it is an integer that the arithmetic
holds exactly. -/
theorem Arith.div_intCast (A : Arith) (a b c : Int) (hb : b ≠ 0) (hc : a = c * b)
    (h : A.IntExact c) :
    A.div (Dtype.fin (a : ℚ)) (Dtype.fin (b : ℚ)) = Dtype.fin (c : ℚ) := by
  have hbq : (b : ℚ) ≠ 0 := by exact_mod_cast hb
  simp only [Arith.div, hbq, if_false]
  have : (a : ℚ) / (b : ℚ) = (c : ℚ) := by
    rw [hc, Int.cast_mul, mul_div_assoc, div_self hbq, mul_one]
  rw [this]
  exact A.round_intCast _ h

/-! ## The error of a rounding -/

theorem log2Fuel_lt (fuel n : Nat) (hf : n ≤ fuel) : n < 2 ^ (log2Fuel fuel n + 1) := by
  induction fuel generalizing n with
  | zero =>
    have : n = 0 := by omega
    subst this
    simp
  | succ fuel ih =>
    unfold log2Fuel
    by_cases h2 : n < 2
    · rw [if_pos h2]; simpa using h2
    · rw [if_neg h2]
      have h3 := ih (n / 2) (by omega)
      rw [pow_succ] at h3 ⊢
      rw [pow_succ]
      omega

theorem log2_lt (n : Nat) : n < 2 ^ (log2 n + 1) :=
  log2Fuel_lt n n (Nat.le_refl n)

/-- The exponent `ilog2 n d` is not above the quotient: `2^e ≤ n / d`. -/
theorem ilog2_le (n d : Nat) (hn : 1 ≤ n) (hd : 1 ≤ d) :
    (2 : ℚ) ^ (ilog2 n d) ≤ (n : ℚ) / (d : ℚ) := by
  have hdq : (0 : ℚ) < (d : ℚ) := by exact_mod_cast hd
  have h2 : (0 : ℚ) < 2 := by norm_num
  have hlow : (2 : ℚ) ^ (((log2 n : Int) - (log2 d : Int)) - 1) ≤ (n : ℚ) / (d : ℚ) := by
    rw [le_div_iff₀ hdq]
    have hd2 : (d : ℚ) ≤ (2 : ℚ) ^ ((log2 d : Int) + 1) := by
      have := (log2_lt d).le
      have h3 : ((d : Nat) : ℚ) ≤ ((2 ^ (log2 d + 1) : Nat) : ℚ) := by exact_mod_cast this
      rw [Nat.cast_pow, Nat.cast_ofNat] at h3
      rw [show ((log2 d : Int) + 1) = ((log2 d + 1 : Nat) : Int) by push_cast; ring, zpow_natCast]
      exact h3
    have hn2 : (2 : ℚ) ^ ((log2 n : Int)) ≤ (n : ℚ) := by
      have := log2_le n hn
      have h3 : ((2 ^ log2 n : Nat) : ℚ) ≤ ((n : Nat) : ℚ) := by exact_mod_cast this
      rw [Nat.cast_pow, Nat.cast_ofNat] at h3
      rw [zpow_natCast]
      exact h3
    have hpos : (0 : ℚ) < (2 : ℚ) ^ (((log2 n : Int) - (log2 d : Int)) - 1) := zpow_pos h2 _
    calc (2 : ℚ) ^ (((log2 n : Int) - (log2 d : Int)) - 1) * (d : ℚ)
        ≤ (2 : ℚ) ^ (((log2 n : Int) - (log2 d : Int)) - 1) * (2 : ℚ) ^ ((log2 d : Int) + 1) :=
          mul_le_mul_of_nonneg_left hd2 hpos.le
      _ = (2 : ℚ) ^ ((log2 n : Int)) := by
          rw [← zpow_add₀ (by norm_num : (2 : ℚ) ≠ 0)]
          congr 1
          ring
      _ ≤ (n : ℚ) := hn2
  unfold ilog2
  simp only []
  by_cases h0 : (0 : Int) ≤ (log2 n : Int) - (log2 d : Int)
  · rw [if_pos h0]
    by_cases ht : d * 2 ^ ((log2 n : Int) - (log2 d : Int)).toNat ≤ n
    · rw [if_pos ht, le_div_iff₀ hdq]
      have h3 : ((d * 2 ^ ((log2 n : Int) - (log2 d : Int)).toNat : Nat) : ℚ) ≤
          ((n : Nat) : ℚ) := by
        exact_mod_cast ht
      rw [Nat.cast_mul, Nat.cast_pow, Nat.cast_ofNat] at h3
      have h4 : (2 : ℚ) ^ ((log2 n : Int) - (log2 d : Int)) =
          (2 : ℚ) ^ ((log2 n : Int) - (log2 d : Int)).toNat := by
        rw [← zpow_natCast, Int.toNat_of_nonneg h0]
      rw [h4, mul_comm]
      exact h3
    · rw [if_neg ht]
      exact hlow
  · rw [if_neg h0]
    by_cases ht : d ≤ n * 2 ^ (-((log2 n : Int) - (log2 d : Int))).toNat
    · rw [if_pos ht, le_div_iff₀ hdq]
      have h3 : ((d : Nat) : ℚ) ≤
          ((n * 2 ^ (-((log2 n : Int) - (log2 d : Int))).toNat : Nat) : ℚ) := by
        exact_mod_cast ht
      rw [Nat.cast_mul, Nat.cast_pow, Nat.cast_ofNat] at h3
      have h4 : (2 : ℚ) ^ ((log2 n : Int) - (log2 d : Int)) =
          ((2 : ℚ) ^ (-((log2 n : Int) - (log2 d : Int))).toNat)⁻¹ := by
        rw [← zpow_natCast, Int.toNat_of_nonneg (by omega), zpow_neg, inv_inv]
      rw [h4]
      have hp : (0 : ℚ) < (2 : ℚ) ^ (-((log2 n : Int) - (log2 d : Int))).toNat :=
        pow_pos h2 _
      rw [inv_mul_le_iff₀ hp, mul_comm]
      exact h3
    · rw [if_neg ht]
      exact hlow

/-- The integer `roundEven n d` is within one half of `n / d`. -/
theorem roundEven_err (n d : Nat) (hd : 1 ≤ d) :
    |((roundEven n d : Nat) : ℚ) - (n : ℚ) / (d : ℚ)| ≤ 1 / 2 := by
  have hdq : (0 : ℚ) < (d : ℚ) := by exact_mod_cast hd
  have hsplit : (n : ℚ) / (d : ℚ) = ((n / d : Nat) : ℚ) + ((n % d : Nat) : ℚ) / (d : ℚ) := by
    have h := Nat.div_add_mod n d
    have h2 : ((d * (n / d) + n % d : Nat) : ℚ) = (n : ℚ) := by rw [h]
    rw [← h2]
    push_cast
    field_simp
    ring
  have hr0 : (0 : ℚ) ≤ ((n % d : Nat) : ℚ) / (d : ℚ) := by positivity
  unfold roundEven
  rw [hsplit]
  by_cases h1 : 2 * (n % d) < d
  · rw [if_pos h1]
    have h3 : ((n % d : Nat) : ℚ) / (d : ℚ) ≤ 1 / 2 := by
      rw [div_le_iff₀ hdq]
      have : ((2 * (n % d) : Nat) : ℚ) ≤ ((d : Nat) : ℚ) := by exact_mod_cast h1.le
      push_cast at this
      linarith
    rw [abs_le]
    constructor <;> linarith
  · rw [if_neg h1]
    by_cases h2 : d < 2 * (n % d)
    · rw [if_pos h2]
      have h3 : 1 / 2 ≤ ((n % d : Nat) : ℚ) / (d : ℚ) := by
        rw [le_div_iff₀ hdq]
        have : ((d : Nat) : ℚ) ≤ ((2 * (n % d) : Nat) : ℚ) := by exact_mod_cast h2.le
        push_cast at this
        linarith
      have h4 : ((n % d : Nat) : ℚ) / (d : ℚ) ≤ 1 := by
        rw [div_le_iff₀ hdq]
        have : ((n % d : Nat) : ℚ) ≤ ((d : Nat) : ℚ) := by
          exact_mod_cast (Nat.mod_lt n hd).le
        linarith
      rw [abs_le]
      push_cast
      constructor <;> linarith
    · rw [if_neg h2]
      have he : 2 * (n % d) = d := by omega
      have h3 : ((n % d : Nat) : ℚ) / (d : ℚ) = 1 / 2 := by
        rw [div_eq_iff hdq.ne']
        have : ((2 * (n % d) : Nat) : ℚ) = ((d : Nat) : ℚ) := by exact_mod_cast he
        push_cast at this
        linarith
      rw [h3]
      split_ifs
      · rw [abs_le]
        constructor <;> linarith
      · rw [abs_le]
        push_cast
        constructor <;> linarith

/-- Rounding of a positive rational in the range of the normal numbers of a
binary format of precision `p`: the result is finite and its relative error is
at most `2^(-p)`. -/
theorem roundTo_rel (p emax : Nat) (hp : 1 ≤ p) (q : ℚ) (hq : 0 < q)
    (hlo : (2 : ℚ) ^ (1 - (emax : Int)) ≤ q) (hhi : q ≤ (2 : ℚ) ^ emax) :
    ∃ r : ℚ, roundTo p emax q = Dtype.fin r ∧ |r - q| ≤ q * (2 : ℚ) ^ (-(p : Int)) := by
  have h2 : (0 : ℚ) < 2 := by norm_num
  have h2ne : (2 : ℚ) ≠ 0 := by norm_num
  have hnum : 0 < q.num := Rat.num_pos.mpr hq
  have hn1 : 1 ≤ q.num.natAbs := by omega
  have hd1 : 1 ≤ q.den := q.den_pos
  have hqe : ((q.num.natAbs : Nat) : ℚ) / ((q.den : Nat) : ℚ) = q := by
    have h3 : ((q.num.natAbs : Nat) : ℚ) = ((q.num : Int) : ℚ) := by
      have : ((q.num.natAbs : Nat) : Int) = q.num := by omega
      calc ((q.num.natAbs : Nat) : ℚ) = (((q.num.natAbs : Nat) : Int) : ℚ) :=
            (Int.cast_natCast _).symm
        _ = ((q.num : Int) : ℚ) := by rw [this]
    rw [h3]
    exact Rat.num_div_den q
  have hlog := ilog2_le q.num.natAbs q.den hn1 hd1
  rw [hqe] at hlog
  unfold roundTo
  rw [if_neg hq.ne']
  simp only []
  generalize hk : max (ilog2 q.num.natAbs q.den) (1 - (emax : Int)) - (p : Int) + 1 = k
  have hmaxle : (2 : ℚ) ^ (max (ilog2 q.num.natAbs q.den) (1 - (emax : Int))) ≤ q := by
    rcases max_cases (ilog2 q.num.natAbs q.den) (1 - (emax : Int)) with ⟨h, -⟩ | ⟨h, -⟩
    · rw [h]; exact hlog
    · rw [h]; exact hlo
  have hks : (2 : ℚ) ^ k ≤ q * (2 : ℚ) ^ (1 - (p : Int)) := by
    have : k = max (ilog2 q.num.natAbs q.den) (1 - (emax : Int)) + (1 - (p : Int)) := by
      rw [← hk]; ring
    rw [this, zpow_add₀ h2ne]
    exact mul_le_mul_of_nonneg_right hmaxle (zpow_pos h2 _).le
  have hkpos : (0 : ℚ) < (2 : ℚ) ^ k := zpow_pos h2 _
  -- the rounded significand and the magnitude
  have key : ∀ (m : Nat) (mag : ℚ), |((m : Nat) : ℚ) - q / (2 : ℚ) ^ k| ≤ 1 / 2 →
      mag = (m : ℚ) * (2 : ℚ) ^ k →
      ∃ r : ℚ, (if ((2 ^ (emax + 1) : Nat) : ℚ) ≤ mag then Dtype.inf (decide (q < 0))
          else Dtype.fin (if q < 0 then -mag else mag)) = Dtype.fin r ∧
        |r - q| ≤ q * (2 : ℚ) ^ (-(p : Int)) := by
    intro m mag hm hmag
    have herr : |mag - q| ≤ (2 : ℚ) ^ k / 2 := by
      have : mag - q = ((m : ℚ) - q / (2 : ℚ) ^ k) * (2 : ℚ) ^ k := by
        rw [hmag]; field_simp
      rw [this, abs_mul, abs_of_pos hkpos]
      calc |(m : ℚ) - q / (2 : ℚ) ^ k| * (2 : ℚ) ^ k ≤ 1 / 2 * (2 : ℚ) ^ k :=
            mul_le_mul_of_nonneg_right hm hkpos.le
        _ = (2 : ℚ) ^ k / 2 := by ring
    have hhalf : (2 : ℚ) ^ (1 - (p : Int)) / 2 = (2 : ℚ) ^ (-(p : Int)) := by
      rw [show (1 - (p : Int)) = -(p : Int) + 1 by ring, zpow_add₀ h2ne, zpow_one]
      field_simp
      ring
    have herr2 : |mag - q| ≤ q * (2 : ℚ) ^ (-(p : Int)) := by
      calc |mag - q| ≤ (2 : ℚ) ^ k / 2 := herr
        _ ≤ q * (2 : ℚ) ^ (1 - (p : Int)) / 2 := by linarith
        _ = q * (2 : ℚ) ^ (-(p : Int)) := by rw [mul_div_assoc, hhalf]
    have hp1 : (2 : ℚ) ^ (-(p : Int)) ≤ 1 / 2 := by
      rw [zpow_neg, zpow_natCast, one_div]
      apply inv_anti₀ h2
      calc (2 : ℚ) = 2 ^ 1 := (pow_one 2).symm
        _ ≤ 2 ^ p := pow_le_pow_right₀ (by norm_num) hp
    have hmaglt : mag < ((2 ^ (emax + 1) : Nat) : ℚ) := by
      have h3 := (abs_le.mp herr2).2
      have h4 : q * (2 : ℚ) ^ (-(p : Int)) ≤ q * (1 / 2) :=
        mul_le_mul_of_nonneg_left hp1 hq.le
      rw [Nat.cast_pow, Nat.cast_ofNat, pow_succ]
      linarith
    rw [if_neg (not_le.mpr hmaglt), if_neg (not_lt.mpr hq.le)]
    exact ⟨mag, rfl, herr2⟩
  by_cases hk0 : (0 : Int) ≤ k
  · simp only [hk0, if_true]
    apply key
    · have hD : 1 ≤ q.den * 2 ^ k.toNat := Nat.one_le_iff_ne_zero.mpr
        (Nat.mul_ne_zero (by omega) (pow_pos (by norm_num) _).ne')
      have := roundEven_err q.num.natAbs (q.den * 2 ^ k.toNat) hD
      have e : ((q.num.natAbs : Nat) : ℚ) / ((q.den * 2 ^ k.toNat : Nat) : ℚ) =
          q / (2 : ℚ) ^ k := by
        rw [Nat.cast_mul, Nat.cast_pow, Nat.cast_ofNat, ← div_div, hqe, ← zpow_natCast,
          Int.toNat_of_nonneg hk0]
      rw [e] at this
      exact this
    · rw [Nat.cast_mul, Nat.cast_pow, Nat.cast_ofNat, ← zpow_natCast, Int.toNat_of_nonneg hk0]
  · simp only [hk0, if_false]
    have hpw : (2 : ℚ) ^ (-k).toNat = ((2 : ℚ) ^ k)⁻¹ := by
      rw [← zpow_natCast, Int.toNat_of_nonneg (by omega), zpow_neg]
    apply key
    · have := roundEven_err (q.num.natAbs * 2 ^ (-k).toNat) q.den hd1
      have e : ((q.num.natAbs * 2 ^ (-k).toNat : Nat) : ℚ) / ((q.den : Nat) : ℚ) =
          q / (2 : ℚ) ^ k := by
        rw [Nat.cast_mul, Nat.cast_pow, Nat.cast_ofNat, mul_div_right_comm, hqe, hpw]
        rfl
      rw [e] at this
      exact this
    · rw [Nat.cast_pow, Nat.cast_ofNat, hpw, div_eq_mul_inv, inv_inv]

/-- Rounding, in any of the three arithmetics, of a rational between `2^(-24)`
and `2^24`: the result is finite and its relative error is at most
`2^(-24)`. -/
theorem Arith.round_rel (A : Arith) (q : ℚ) (hlo : 1 / 16777216 ≤ q) (hhi : q ≤ 16777216) :
    ∃ r : ℚ, A.round q = Dtype.fin r ∧ |r - q| ≤ q / 16777216 := by
  have hq : 0 < q := lt_of_lt_of_le (by norm_num) hlo
  cases A
  · obtain ⟨r, h1, h2⟩ := roundTo_rel 24 127 (by norm_num) q hq
      (le_trans (by norm_num) hlo) (le_trans hhi (by norm_num))
    refine ⟨r, h1, le_trans h2 (le_of_eq ?_)⟩
    norm_num
    ring
  · obtain ⟨r, h1, h2⟩ := roundTo_rel 53 1023 (by norm_num) q hq
      (le_trans (by norm_num) hlo) (le_trans hhi (by norm_num))
    refine ⟨r, h1, le_trans h2 ?_⟩
    have : (2 : ℚ) ^ (-((53 : Nat) : Int)) ≤ 1 / 16777216 := by norm_num
    calc q * (2 : ℚ) ^ (-((53 : Nat) : Int)) ≤ q * (1 / 16777216) :=
          mul_le_mul_of_nonneg_left this hq.le
      _ = q / 16777216 := by ring
  · refine ⟨q, rfl, ?_⟩
    rw [sub_self, abs_zero]
    positivity

/-- An integer of magnitude at most `2^22` is held exactly by every
arithmetic. -/
theorem Arith.IntExact_small (A : Arith) (z : Int) (h0 : 0 ≤ z) (h1 : z ≤ 8388608) :
    A.IntExact z := by
  cases A <;> unfold Arith.IntExact INT_MIN INT_MAX <;> first | trivial | omega

/-- The bin size and the products of lines 115-135 for an extent `X` pooled to
`P` units, both at most `2^22`: the bin size `b` and each product `p * b` are
finite, each within a relative error of `2^(-24)` of the exact value. -/
theorem bin_products (A : Arith) (X P : Int) (hX1 : 1 ≤ X) (hX : X ≤ 4194304) (hP1 : 1 ≤ P)
    (hP : P ≤ 4194304) :
    ∃ b : ℚ, A.div (A.ofInt X) (A.ofInt P) = Dtype.fin b ∧
      (X : ℚ) / (P : ℚ) * (1 - 1 / 16777216) ≤ b ∧ b ≤ (X : ℚ) / (P : ℚ) * (1 + 1 / 16777216) ∧
      ∀ p : Int, 0 ≤ p → p ≤ P →
        ∃ x : ℚ, A.mul (A.ofInt p) (Dtype.fin b) = Dtype.fin x ∧
          (p : ℚ) * b * (1 - 1 / 16777216) ≤ x ∧ x ≤ (p : ℚ) * b * (1 + 1 / 16777216) := by
  have hXq1 : (1 : ℚ) ≤ (X : ℚ) := by exact_mod_cast hX1
  have hXq : (X : ℚ) ≤ 4194304 := by exact_mod_cast hX
  have hPq1 : (1 : ℚ) ≤ (P : ℚ) := by exact_mod_cast hP1
  have hPq : (P : ℚ) ≤ 4194304 := by exact_mod_cast hP
  have hP0 : (0 : ℚ) < (P : ℚ) := by linarith
  have ha0 : (0 : ℚ) < (X : ℚ) / (P : ℚ) := div_pos (by linarith) hP0
  have halo : 1 / 4194304 ≤ (X : ℚ) / (P : ℚ) := by
    rw [le_div_iff₀ hP0]; linarith
  have hahi : (X : ℚ) / (P : ℚ) ≤ 4194304 := by
    rw [div_le_iff₀ hP0]; nlinarith
  obtain ⟨b, hb, hbe⟩ := A.round_rel ((X : ℚ) / (P : ℚ)) (by linarith) (by linarith)
  have hdiv : A.div (A.ofInt X) (A.ofInt P) = Dtype.fin b := by
    rw [A.ofInt_exact X (A.IntExact_small X (by omega) (by omega)),
      A.ofInt_exact P (A.IntExact_small P (by omega) (by omega))]
    have hPne : (P : ℚ) ≠ 0 := hP0.ne'
    simp only [Arith.div, hPne, if_false]
    exact hb
  obtain ⟨hb1, hb2⟩ := abs_le.mp hbe
  have hblo : (X : ℚ) / (P : ℚ) * (1 - 1 / 16777216) ≤ b := by linarith
  have hbhi : b ≤ (X : ℚ) / (P : ℚ) * (1 + 1 / 16777216) := by linarith
  refine ⟨b, hdiv, hblo, hbhi, fun p hp0 hp => ?_⟩
  have hpq0 : (0 : ℚ) ≤ (p : ℚ) := by exact_mod_cast hp0
  have hpq : (p : ℚ) ≤ (P : ℚ) := by exact_mod_cast hp
  rw [A.ofInt_exact p (A.IntExact_small p hp0 (by omega))]
  by_cases hz : p = 0
  · subst hz
    refine ⟨0, ?_, by simp, by simp⟩
    simp only [Arith.mul, Int.cast_zero, zero_mul]
    cases A
    · show roundTo 24 127 0 = Dtype.fin 0
      unfold roundTo; rw [if_pos rfl]
    · show roundTo 53 1023 0 = Dtype.fin 0
      unfold roundTo; rw [if_pos rfl]
    · rfl
  · have hp1 : (1 : ℚ) ≤ (p : ℚ) := by exact_mod_cast (by omega : (1 : Int) ≤ p)
    have hb0 : 0 < b := by nlinarith
    have hylo : 1 / 16777216 ≤ (p : ℚ) * b := by nlinarith
    have hyhi : (p : ℚ) * b ≤ 16777216 := by
      have h1 : (p : ℚ) * b ≤ (P : ℚ) * b := mul_le_mul_of_nonneg_right hpq hb0.le
      have h2 : (P : ℚ) * b ≤ (P : ℚ) * ((X : ℚ) / (P : ℚ) * (1 + 1 / 16777216)) :=
        mul_le_mul_of_nonneg_left hbhi hP0.le
      have h3 : (P : ℚ) * ((X : ℚ) / (P : ℚ) * (1 + 1 / 16777216)) =
          (X : ℚ) * (1 + 1 / 16777216) := by
        field_simp
        ring
      linarith
    obtain ⟨x, hx, hxe⟩ := A.round_rel ((p : ℚ) * b) hylo hyhi
    obtain ⟨hx1, hx2⟩ := abs_le.mp hxe
    refine ⟨x, ?_, by linarith, by linarith⟩
    simp only [Arith.mul]
    exact hx

/-- The products `p * (X / P)` of lines 128-135 for an extent `X` pooled to
`P` units, both at most `2^22`, in any arithmetic: they are finite, start at
0, increase strictly, stay below `X` before the last and end above `X - 1`. -/
theorem small_products (A : Arith) (X P : Int) (hX1 : 1 ≤ X) (hX : X ≤ 4194304) (hP1 : 1 ≤ P)
    (hP : P ≤ 4194304) :
    ∃ x : Int → ℚ,
      (∀ p : Int, 0 ≤ p → p ≤ P →
        A.mul (A.ofInt p) (A.div (A.ofInt X) (A.ofInt P)) = Dtype.fin (x p)) ∧
      x 0 = 0 ∧ (∀ p : Int, 0 ≤ p → p ≤ P → 0 ≤ x p ∧ x p ≤ (X : ℚ) + 1) ∧
      (X : ℚ) - 1 < x P ∧
      ∀ p : Int, 0 ≤ p → p < P → x p < (X : ℚ) ∧ x p < x (p + 1) := by
  obtain ⟨b, hb, hblo, hbhi, hall⟩ := bin_products A X P hX1 hX hP1 hP
  choose! x hx using hall
  have hXq1 : (1 : ℚ) ≤ (X : ℚ) := by exact_mod_cast hX1
  have hXq : (X : ℚ) ≤ 4194304 := by exact_mod_cast hX
  have hPq1 : (1 : ℚ) ≤ (P : ℚ) := by exact_mod_cast hP1
  have hPq : (P : ℚ) ≤ 4194304 := by exact_mod_cast hP
  have hP0 : (0 : ℚ) < (P : ℚ) := by linarith
  have ha0 : (0 : ℚ) < (X : ℚ) / (P : ℚ) := div_pos (by linarith) hP0
  have hXa : (X : ℚ) = (X : ℚ) / (P : ℚ) * (P : ℚ) := by field_simp
  have hXle : (X : ℚ) ≤ 4194304 * ((X : ℚ) / (P : ℚ)) := by
    have := mul_le_mul_of_nonneg_left hPq ha0.le
    linarith
  have hb0 : 0 < b := by
    have : (0 : ℚ) < (X : ℚ) / (P : ℚ) * (1 - 1 / 16777216) := mul_pos ha0 (by norm_num)
    linarith
  have hPb1 : (X : ℚ) * (1 - 1 / 16777216) ≤ (P : ℚ) * b := by
    have h := mul_le_mul_of_nonneg_left hblo hP0.le
    have e : (P : ℚ) * ((X : ℚ) / (P : ℚ) * (1 - 1 / 16777216)) =
        (X : ℚ) * (1 - 1 / 16777216) := by
      field_simp
      ring
    linarith
  have hPb2 : (P : ℚ) * b ≤ (X : ℚ) * (1 + 1 / 16777216) := by
    have h := mul_le_mul_of_nonneg_left hbhi hP0.le
    have e : (P : ℚ) * ((X : ℚ) / (P : ℚ) * (1 + 1 / 16777216)) =
        (X : ℚ) * (1 + 1 / 16777216) := by
      field_simp
      ring
    linarith
  have hPb3 : (P : ℚ) * b ≤ 4194304 * b := mul_le_mul_of_nonneg_right hPq hb0.le
  have hpb : ∀ p : Int, 0 ≤ p → p ≤ P → 0 ≤ (p : ℚ) * b ∧ (p : ℚ) * b ≤ (P : ℚ) * b := by
    intro p hp0 hp
    have h0 : (0 : ℚ) ≤ (p : ℚ) := by exact_mod_cast hp0
    have h1 : (p : ℚ) ≤ (P : ℚ) := by exact_mod_cast hp
    exact ⟨mul_nonneg h0 hb0.le, mul_le_mul_of_nonneg_right h1 hb0.le⟩
  refine ⟨x, fun p hp0 hp => ?_, ?_, fun p hp0 hp => ?_, ?_, fun p hp0 hp => ?_⟩
  · rw [hb]
    exact (hx p hp0 hp).1
  · obtain ⟨-, h1, h2⟩ := hx 0 le_rfl (by omega)
    simp only [Int.cast_zero, zero_mul] at h1 h2
    exact le_antisymm h2 h1
  · obtain ⟨-, h1, h2⟩ := hx p hp0 hp
    obtain ⟨h3, h4⟩ := hpb p hp0 hp
    constructor
    · have : 0 ≤ (p : ℚ) * b * (1 - 1 / 16777216) := mul_nonneg h3 (by norm_num)
      linarith
    · linarith
  · obtain ⟨-, h1, -⟩ := hx P (by omega) le_rfl
    linarith
  · obtain ⟨-, -, h2⟩ := hx p hp0 hp.le
    obtain ⟨-, h1, -⟩ := hx (p + 1) (by omega) (by omega)
    obtain ⟨h3, -⟩ := hpb p hp0 hp.le
    have h5 : ((p + 1 : Int) : ℚ) * b = (p : ℚ) * b + b := by push_cast; ring
    have h6 : (p : ℚ) * b + b ≤ (P : ℚ) * b := by
      have := (hpb (p + 1) (by omega) (by omega)).2
      rw [h5] at this
      exact this
    rw [h5] at h1
    constructor
    · linarith
    · linarith

/-- Among the starts `S 0 = 0, S 1, ...` of `P` windows, the last start not
above `x` belongs to a window holding `x`, when each window ends no earlier
than the next starts and the last ends at `X` or later. -/
theorem side_cover (S E : Int → Int) (X P : Int) (hP1 : 1 ≤ P) (h0 : S 0 = 0)
    (hlast : X ≤ E (P - 1)) (hstep : ∀ p : Int, 0 ≤ p → p + 1 < P → S (p + 1) ≤ E p)
    (x : Int) (hx0 : 0 ≤ x) (hx1 : x < X) :
    ∃ p : Nat, (p : Int) < P ∧ S p ≤ x ∧ x < E p := by
  have key : ∀ k : Nat, (k : Int) < P →
      ∃ p : Nat, p ≤ k ∧ S p ≤ x ∧ (p < k → x < S ((p : Int) + 1)) := by
    intro k
    induction k with
    | zero =>
      intro _
      exact ⟨0, le_rfl, by rw [Nat.cast_zero, h0]; exact hx0, fun h => absurd h (lt_irrefl 0)⟩
    | succ k ih =>
      intro hk
      by_cases hS : S ((k + 1 : Nat) : Int) ≤ x
      · exact ⟨k + 1, le_rfl, hS, fun h => absurd h (lt_irrefl _)⟩
      · obtain ⟨p, hpk, hp, hnext⟩ := ih (by push_cast at hk ⊢; omega)
        refine ⟨p, by omega, hp, fun _ => ?_⟩
        rcases Nat.lt_or_eq_of_le hpk with h | h
        · exact hnext h
        · subst h
          push_cast at hS
          omega
  obtain ⟨p, hpk, hp, hnext⟩ := key (P - 1).toNat (by omega)
  refine ⟨p, by omega, hp, ?_⟩
  rcases Nat.lt_or_eq_of_le hpk with h | h
  · have h1 := hnext h
    have h2 := hstep p (Int.natCast_nonneg p) (by omega)
    omega
  · have e : (p : Int) = P - 1 := by omega
    rw [e]
    omega

/-! ## Loops -/

theorem forLoop_zero {σ : Type} (body : Nat → σ → σ) (s : σ) :
    forLoop body 0 s = s := rfl

theorem forLoop_succ {σ : Type} (body : Nat → σ → σ) (k : Nat) (s : σ) :
    forLoop body (k + 1) s = body k (forLoop body k s) := rfl

/-- Invariant rule for a counted loop. -/
theorem forLoop_inv {σ : Type} (body : Nat → σ → σ) (I : Nat → σ → Prop) (k : Nat)
    (s : σ) (h0 : I 0 s) (hstep : ∀ i, i < k → ∀ t, I i t → I (i + 1) (body i t)) :
    I k (forLoop body k s) := by
  induction k with
  | zero => exact h0
  | succ k ih =>
    rw [forLoop_succ]
    exact hstep k (Nat.lt_succ_self k) _
      (ih (fun i hi t ht => hstep i (Nat.lt_succ_of_lt hi) t ht))

/-- A loop whose passes leave the state alone leaves the state alone. -/
theorem forLoop_id {σ : Type} (body : Nat → σ → σ) (k : Nat) (s : σ)
    (h : ∀ i, i < k → ∀ t, body i t = t) : forLoop body k s = s := by
  induction k with
  | zero => rfl
  | succ k ih =>
    rw [forLoop_succ, ih (fun i hi t => h i (Nat.lt_succ_of_lt hi) t)]
    exact h k (Nat.lt_succ_self k) s

/-- Simulation: when every pass acts on an observation `f` of the state as
`pbody` does, the loop acts on it as the loop of `pbody`. -/
theorem forLoop_sim {σ β : Type} (body : Nat → σ → σ) (pbody : Nat → β → β)
    (f : σ → β) (Q : σ → Prop) (k : Nat) (s : σ) (hQ0 : Q s)
    (hQ : ∀ i, i < k → ∀ t, Q t → Q (body i t))
    (hf : ∀ i, i < k → ∀ t, Q t → f (body i t) = pbody i (f t)) :
    Q (forLoop body k s) ∧ f (forLoop body k s) = forLoop pbody k (f s) := by
  induction k with
  | zero => exact ⟨hQ0, rfl⟩
  | succ k ih =>
    have ih1 := ih (fun i hi t ht => hQ i (Nat.lt_succ_of_lt hi) t ht)
      (fun i hi t ht => hf i (Nat.lt_succ_of_lt hi) t ht)
    rw [forLoop_succ, forLoop_succ]
    refine ⟨hQ k (Nat.lt_succ_self k) _ ih1.1, ?_⟩
    rw [hf k (Nat.lt_succ_self k) _ ih1.1, ih1.2]

/-- Frame rule: what no pass owns is left as it was.  `Q i` is what is known
of the state on entry to pass `i`, `own i` the places pass `i` may write. -/
theorem forLoop_frame {σ β : Type} (body : Nat → σ → σ) (view : σ → Int → β)
    (Q : Nat → σ → Prop) (own : Nat → Int → Prop) (k : Nat) (s : σ) (hQ0 : Q 0 s)
    (hQ : ∀ i, i < k → ∀ t, Q i t → Q (i + 1) (body i t))
    (hframe : ∀ i, i < k → ∀ t, Q i t → ∀ x, ¬ own i x → view (body i t) x = view t x) :
    Q k (forLoop body k s) ∧
      ∀ x, (∀ i, i < k → ¬ own i x) → view (forLoop body k s) x = view s x := by
  induction k with
  | zero => exact ⟨hQ0, fun _ _ => rfl⟩
  | succ k ih =>
    have ih1 := ih (fun i hi t ht => hQ i (Nat.lt_succ_of_lt hi) t ht)
      (fun i hi t ht => hframe i (Nat.lt_succ_of_lt hi) t ht)
    rw [forLoop_succ]
    refine ⟨hQ k (Nat.lt_succ_self k) _ ih1.1, fun x hx => ?_⟩
    rw [hframe k (Nat.lt_succ_self k) _ ih1.1 x (hx k (Nat.lt_succ_self k))]
    exact ih1.2 x (fun i hi => hx i (Nat.lt_succ_of_lt hi))

/-- Ownership rule: when the passes own disjoint places, a place owned by
pass `i` holds at the end what pass `i` left there, and pass `i` found there
what the loop started with. -/
theorem forLoop_owned {σ β : Type} (body : Nat → σ → σ) (view : σ → Int → β)
    (Q : Nat → σ → Prop) (own : Nat → Int → Prop) (k : Nat) (s : σ) (hQ0 : Q 0 s)
    (hQ : ∀ i, i < k → ∀ t, Q i t → Q (i + 1) (body i t))
    (hframe : ∀ i, i < k → ∀ t, Q i t → ∀ x, ¬ own i x → view (body i t) x = view t x)
    (hdisj : ∀ i j x, i < k → j < k → i ≠ j → own i x → ¬ own j x)
    (i : Nat) (hi : i < k) (x : Int) (hx : own i x) :
    Q i (forLoop body i s) ∧ view (forLoop body i s) x = view s x ∧
      view (forLoop body k s) x = view (body i (forLoop body i s)) x := by
  induction k with
  | zero => exact absurd hi (Nat.not_lt_zero i)
  | succ k ih =>
    have hQ1 : ∀ j, j < k → ∀ t, Q j t → Q (j + 1) (body j t) :=
      fun j hj t ht => hQ j (Nat.lt_succ_of_lt hj) t ht
    have hframe1 : ∀ j, j < k → ∀ t, Q j t → ∀ y, ¬ own j y →
        view (body j t) y = view t y :=
      fun j hj t ht => hframe j (Nat.lt_succ_of_lt hj) t ht
    have hfr := forLoop_frame body view Q own k s hQ0 hQ1 hframe1
    rcases Nat.lt_succ_iff_lt_or_eq.mp hi with hlt | heq
    · have ih1 := ih hQ1 hframe1
        (fun a b y ha hb => hdisj a b y (Nat.lt_succ_of_lt ha) (Nat.lt_succ_of_lt hb)) hlt
      refine ⟨ih1.1, ih1.2.1, ?_⟩
      rw [forLoop_succ, hframe k (Nat.lt_succ_self k) _ hfr.1 x
        (hdisj i k x hi (Nat.lt_succ_self k) (Nat.ne_of_lt hlt) hx)]
      exact ih1.2.2
    · subst heq
      refine ⟨hfr.1, hfr.2 x (fun j hj => ?_), rfl⟩
      exact fun hjx => hdisj j i x (Nat.lt_succ_of_lt hj) hi (Nat.ne_of_lt hj) hjx hx

/-- A loop that rewrites one place of a map is one rewrite of that place. -/
theorem forLoop_update {β : Type} (g : Nat → β → β) (p : Int) (k : Nat) (m : Int → β) :
    forLoop (fun i m => Function.update m p (g i (m p))) k m =
      Function.update m p (forLoop g k (m p)) := by
  induction k with
  | zero => simp [forLoop_zero]
  | succ k ih => simp [forLoop_succ, ih]

/-! ## One output unit -/

theorem scanElem_view (width_ : Int) (bottom_data : Int → Dtype) (n : Nat)
    (batch_data pool_index h w br tp ap : Int) (s : FwdState) (hP : Ptrs br tp ap s) :
    Ptrs br tp ap (scanElem width_ bottom_data n batch_data pool_index h w s) ∧
      viewAt tp ap (scanElem width_ bottom_data n batch_data pool_index h w s) =
        Function.update (viewAt tp ap s) pool_index
          (scanAcc width_ bottom_data batch_data h w (viewAt tp ap s pool_index)) := by
  obtain ⟨rfl, rfl, rfl⟩ := hP
  unfold scanElem scanAcc
  by_cases hc : bottom_data (batch_data + (h * width_ + w)) >
      s.top_mem (s.top_data + pool_index)
  · refine ⟨by simp [hc, Ptrs], ?_⟩
    funext x
    by_cases hx : x = pool_index
    · subst hx; simp [hc, viewAt]
    · have e1 : s.top_data + x ≠ s.top_data + pool_index := fun e => hx (add_left_cancel e)
      have e2 : s.argmax_data + x ≠ s.argmax_data + pool_index :=
        fun e => hx (add_left_cancel e)
      simp [hc, viewAt, Function.update, hx, e1, e2]
  · refine ⟨by simp [hc, Ptrs], ?_⟩
    funext x
    by_cases hx : x = pool_index
    · subst hx; simp [hc, viewAt]
    · simp [hc, viewAt, Function.update, hx]

theorem scanRow_view (width_ : Int) (bottom_data : Int → Dtype) (n : Nat)
    (batch_data pool_index h lo hi br tp ap : Int) (s : FwdState) (hP : Ptrs br tp ap s) :
    Ptrs br tp ap
        (forRange lo hi (fun w => scanElem width_ bottom_data n batch_data pool_index h w) s) ∧
      viewAt tp ap
        (forRange lo hi (fun w => scanElem width_ bottom_data n batch_data pool_index h w) s) =
        Function.update (viewAt tp ap s) pool_index
          (forRange lo hi (fun w => scanAcc width_ bottom_data batch_data h w)
            (viewAt tp ap s pool_index)) := by
  unfold forRange
  have hs := forLoop_sim
    (fun i => scanElem width_ bottom_data n batch_data pool_index h (lo + (i : Int)))
    (fun i m => Function.update m pool_index
      (scanAcc width_ bottom_data batch_data h (lo + (i : Int)) (m pool_index)))
    (viewAt tp ap) (Ptrs br tp ap) (hi - lo).toNat s hP
    (fun i _ t ht => (scanElem_view width_ bottom_data n batch_data pool_index h _ br tp ap t ht).1)
    (fun i _ t ht => (scanElem_view width_ bottom_data n batch_data pool_index h _ br tp ap t ht).2)
  refine ⟨hs.1, ?_⟩
  rw [hs.2]
  exact forLoop_update
    (fun i => scanAcc width_ bottom_data batch_data h (lo + (i : Int))) pool_index _ _

theorem scanBin_view (width_ : Int) (bottom_data : Int → Dtype) (n : Nat)
    (batch_data pool_index br tp ap : Int) (b : Bin) (s : FwdState) (hP : Ptrs br tp ap s) :
    Ptrs br tp ap
        (forRange b.hstart b.hend
          (fun h => forRange b.wstart b.wend
            (fun w => scanElem width_ bottom_data n batch_data pool_index h w)) s) ∧
      viewAt tp ap
        (forRange b.hstart b.hend
          (fun h => forRange b.wstart b.wend
            (fun w => scanElem width_ bottom_data n batch_data pool_index h w)) s) =
        Function.update (viewAt tp ap s) pool_index
          (scanBin width_ bottom_data batch_data b (viewAt tp ap s pool_index)) := by
  unfold scanBin
  rw [forRange, forRange]
  have hs := forLoop_sim
    (fun i => forRange b.wstart b.wend
      (fun w => scanElem width_ bottom_data n batch_data pool_index (b.hstart + (i : Int)) w))
    (fun i m => Function.update m pool_index
      (forRange b.wstart b.wend
        (fun w => scanAcc width_ bottom_data batch_data (b.hstart + (i : Int)) w)
        (m pool_index)))
    (viewAt tp ap) (Ptrs br tp ap) (b.hend - b.hstart).toNat s hP
    (fun i _ t ht =>
      (scanRow_view width_ bottom_data n batch_data pool_index _ _ _ br tp ap t ht).1)
    (fun i _ t ht =>
      (scanRow_view width_ bottom_data n batch_data pool_index _ _ _ br tp ap t ht).2)
  refine ⟨hs.1, ?_⟩
  rw [hs.2]
  exact forLoop_update
    (fun i => forRange b.wstart b.wend
      (fun w => scanAcc width_ bottom_data batch_data (b.hstart + (i : Int)) w)) pool_index _ _

/-- The pass for output unit `(ph, pw)` rewrites the unit at `pool_index`, with
`cellValue` of what it found there, and nothing else. -/
theorem poolCell_view (L : WholeImagePoolingLayer) (bottom_data : Int → Dtype) (n : Nat)
    (batch_data roi_start_h roi_start_w : Int) (bin_size_h bin_size_w : Dtype)
    (ph pw br tp ap : Int) (s : FwdState) (hP : Ptrs br tp ap s) :
    Ptrs br tp ap
        (poolCell L bottom_data n batch_data roi_start_h roi_start_w bin_size_h bin_size_w
          ph pw s) ∧
      viewAt tp ap
        (poolCell L bottom_data n batch_data roi_start_h roi_start_w bin_size_h bin_size_w
          ph pw s) =
        Function.update (viewAt tp ap s) (ph * L.pooled_width_ + pw)
          (cellValue L bottom_data batch_data roi_start_h roi_start_w bin_size_h bin_size_w
            ph pw (viewAt tp ap s (ph * L.pooled_width_ + pw))) := by
  unfold poolCell cellValue
  simp only []
  split_ifs with he
  · have hP2 : Ptrs br tp ap
        { s with
          top_mem := Function.update s.top_mem (s.top_data + (ph * L.pooled_width_ + pw)) 0
          max_idx_mem :=
            Function.update s.max_idx_mem (s.argmax_data + (ph * L.pooled_width_ + pw)) (-1) } :=
      hP
    have hv := scanBin_view L.width_ bottom_data n batch_data (ph * L.pooled_width_ + pw)
      br tp ap (clampBin L.height_ L.width_
        (rawBin L.arith roi_start_h roi_start_w bin_size_h bin_size_w ph pw)) _ hP2
    refine ⟨hv.1, ?_⟩
    rw [hv.2]
    obtain ⟨rfl, rfl, rfl⟩ := hP
    funext x
    by_cases hx : x = ph * L.pooled_width_ + pw
    · subst hx; simp [viewAt]
    · have e1 : s.top_data + x ≠ s.top_data + (ph * L.pooled_width_ + pw) :=
        fun e => hx (add_left_cancel e)
      have e2 : s.argmax_data + x ≠ s.argmax_data + (ph * L.pooled_width_ + pw) :=
        fun e => hx (add_left_cancel e)
      simp [viewAt, Function.update, hx, e1, e2]
  · exact scanBin_view L.width_ bottom_data n batch_data (ph * L.pooled_width_ + pw)
      br tp ap _ s hP

/-! ## The `pw` and `ph` loops -/

/-- The `pw` loop for row `ph` of the pooled grid: unit `(ph, pw)` gets
`cellValue` of what it held, every other place is kept. -/
theorem pwLoop_view (L : WholeImagePoolingLayer) (bottom_data : Int → Dtype) (n : Nat)
    (batch_data roi_start_h roi_start_w : Int) (bin_size_h bin_size_w : Dtype)
    (ph : Nat) (br tp ap : Int) (s : FwdState) (hP : Ptrs br tp ap s) :
    Ptrs br tp ap
        (forLoop (fun pw => poolCell L bottom_data n batch_data roi_start_h roi_start_w
          bin_size_h bin_size_w ph pw) L.pooled_width_.toNat s) ∧
      (∀ x, (∀ pw, pw < L.pooled_width_.toNat → x ≠ (ph : Int) * L.pooled_width_ + pw) →
        viewAt tp ap
          (forLoop (fun pw => poolCell L bottom_data n batch_data roi_start_h roi_start_w
            bin_size_h bin_size_w ph pw) L.pooled_width_.toNat s) x = viewAt tp ap s x) ∧
      (∀ pw, pw < L.pooled_width_.toNat →
        viewAt tp ap
          (forLoop (fun pw => poolCell L bottom_data n batch_data roi_start_h roi_start_w
            bin_size_h bin_size_w ph pw) L.pooled_width_.toNat s)
          ((ph : Int) * L.pooled_width_ + pw) =
        cellValue L bottom_data batch_data roi_start_h roi_start_w bin_size_h bin_size_w
          ph pw (viewAt tp ap s ((ph : Int) * L.pooled_width_ + pw))) := by
  have hQ : ∀ i, i < L.pooled_width_.toNat → ∀ t, Ptrs br tp ap t →
      Ptrs br tp ap (poolCell L bottom_data n batch_data roi_start_h roi_start_w
        bin_size_h bin_size_w ph i t) :=
    fun i _ t ht => (poolCell_view L bottom_data n batch_data roi_start_h roi_start_w
      bin_size_h bin_size_w ph i br tp ap t ht).1
  have hframe : ∀ i, i < L.pooled_width_.toNat → ∀ t, Ptrs br tp ap t → ∀ x,
      ¬ (x = (ph : Int) * L.pooled_width_ + i) →
      viewAt tp ap (poolCell L bottom_data n batch_data roi_start_h roi_start_w
        bin_size_h bin_size_w ph i t) x = viewAt tp ap t x := by
    intro i _ t ht x hx
    rw [(poolCell_view L bottom_data n batch_data roi_start_h roi_start_w
      bin_size_h bin_size_w ph i br tp ap t ht).2, Function.update_noteq hx]
  have hfr := forLoop_frame _ (viewAt tp ap) (fun _ => Ptrs br tp ap)
    (fun (i : Nat) (x : Int) => x = (ph : Int) * L.pooled_width_ + i)
    L.pooled_width_.toNat s hP hQ hframe
  refine ⟨hfr.1, hfr.2, fun pw hpw => ?_⟩
  have hdisj : ∀ (i j : Nat) (x : Int), i < L.pooled_width_.toNat → j < L.pooled_width_.toNat →
      i ≠ j → x = (ph : Int) * L.pooled_width_ + i → ¬ x = (ph : Int) * L.pooled_width_ + j := by
    intro i j x _ _ hij hi hj
    apply hij
    have : ((i : Nat) : Int) = j := by linarith
    exact_mod_cast this
  have how := forLoop_owned _ (viewAt tp ap) (fun _ => Ptrs br tp ap)
    (fun (i : Nat) (x : Int) => x = (ph : Int) * L.pooled_width_ + i)
    L.pooled_width_.toNat s hP hQ hframe hdisj pw hpw _ rfl
  rw [how.2.2, (poolCell_view L bottom_data n batch_data roi_start_h roi_start_w
      bin_size_h bin_size_w ph pw br tp ap _ how.1).2, Function.update_same, how.2.1]

theorem toNat_cast_of_lt {z : Int} {i : Nat} (h : i < z.toNat) : (z.toNat : Int) = z := by
  omega

theorem row_lt_gridSize (L : WholeImagePoolingLayer) (ph pw : Nat)
    (hph : ph < L.pooled_height_.toNat) (hpw : pw < L.pooled_width_.toNat) :
    0 ≤ (ph : Int) * L.pooled_width_ + pw ∧
      (ph : Int) * L.pooled_width_ + pw < gridSize L := by
  have hw : (L.pooled_width_.toNat : Int) = L.pooled_width_ := toNat_cast_of_lt hpw
  have h1 : (0 : Int) ≤ (ph : Int) * L.pooled_width_ := by
    rw [← hw]; positivity
  have h2 : ((ph : Int) + 1) * L.pooled_width_ ≤
      (L.pooled_height_.toNat : Int) * L.pooled_width_ := by
    apply mul_le_mul_of_nonneg_right
    · exact_mod_cast hph
    · rw [← hw]; positivity
  have h3 : (pw : Int) < L.pooled_width_ := by rw [← hw]; exact_mod_cast hpw
  unfold gridSize
  rw [hw]
  constructor
  · have : (0 : Int) ≤ pw := Int.natCast_nonneg pw
    linarith
  · linarith

/-- The `ph` and `pw` loops: unit `(ph, pw)` gets `cellValue` of what it held,
and nothing outside the `gridSize` units at the pointers is written. -/
theorem poolGrid_view (L : WholeImagePoolingLayer) (bottom_data : Int → Dtype) (n : Nat)
    (batch_data roi_start_h roi_start_w : Int) (bin_size_h bin_size_w : Dtype)
    (br tp ap : Int) (s : FwdState) (hP : Ptrs br tp ap s) :
    Ptrs br tp ap
        (poolGrid L bottom_data n batch_data roi_start_h roi_start_w
          bin_size_h bin_size_w s) ∧
      (∀ x, (x < 0 ∨ gridSize L ≤ x) →
        viewAt tp ap
          (poolGrid L bottom_data n batch_data roi_start_h roi_start_w
            bin_size_h bin_size_w s) x = viewAt tp ap s x) ∧
      (∀ ph pw : Nat, ph < L.pooled_height_.toNat → pw < L.pooled_width_.toNat →
        viewAt tp ap
          (poolGrid L bottom_data n batch_data roi_start_h roi_start_w
            bin_size_h bin_size_w s)
          ((ph : Int) * L.pooled_width_ + pw) =
        cellValue L bottom_data batch_data roi_start_h roi_start_w bin_size_h bin_size_w
          ph pw (viewAt tp ap s ((ph : Int) * L.pooled_width_ + pw))) := by
  unfold poolGrid
  have hQ : ∀ i, i < L.pooled_height_.toNat → ∀ t, Ptrs br tp ap t →
      Ptrs br tp ap (forLoop (fun pw => poolCell L bottom_data n batch_data roi_start_h
        roi_start_w bin_size_h bin_size_w i pw) L.pooled_width_.toNat t) :=
    fun i _ t ht => (pwLoop_view L bottom_data n batch_data roi_start_h roi_start_w
      bin_size_h bin_size_w i br tp ap t ht).1
  have hframe : ∀ i, i < L.pooled_height_.toNat → ∀ t, Ptrs br tp ap t → ∀ x,
      ¬ ((i : Int) * (L.pooled_width_.toNat : Int) ≤ x ∧
          x < ((i : Int) + 1) * (L.pooled_width_.toNat : Int)) →
      viewAt tp ap (forLoop (fun pw => poolCell L bottom_data n batch_data roi_start_h
        roi_start_w bin_size_h bin_size_w i pw) L.pooled_width_.toNat t) x =
        viewAt tp ap t x := by
    intro i _ t ht x hx
    apply (pwLoop_view L bottom_data n batch_data roi_start_h roi_start_w
      bin_size_h bin_size_w i br tp ap t ht).2.1
    intro pw hpw hxe
    apply hx
    have hw : (L.pooled_width_.toNat : Int) = L.pooled_width_ := toNat_cast_of_lt hpw
    have h3 : (pw : Int) < L.pooled_width_ := by rw [← hw]; exact_mod_cast hpw
    have h4 : (0 : Int) ≤ pw := Int.natCast_nonneg pw
    rw [hw, hxe]
    constructor <;> linarith
  have hdisj : ∀ (i j : Nat) (x : Int), i < L.pooled_height_.toNat →
      j < L.pooled_height_.toNat → i ≠ j →
      ((i : Int) * (L.pooled_width_.toNat : Int) ≤ x ∧
          x < ((i : Int) + 1) * (L.pooled_width_.toNat : Int)) →
      ¬ ((j : Int) * (L.pooled_width_.toNat : Int) ≤ x ∧
          x < ((j : Int) + 1) * (L.pooled_width_.toNat : Int)) := by
    intro i j x _ _ hij hi hj
    have hW : (0 : Int) ≤ (L.pooled_width_.toNat : Int) := Int.natCast_nonneg _
    rcases Nat.lt_or_gt_of_ne hij with hlt | hgt
    · have h1 : ((i : Int) + 1) ≤ j := by exact_mod_cast hlt
      have := mul_le_mul_of_nonneg_right h1 hW
      linarith [hi.2, hj.1]
    · have h1 : ((j : Int) + 1) ≤ i := by exact_mod_cast hgt
      have := mul_le_mul_of_nonneg_right h1 hW
      linarith [hi.1, hj.2]
  have hfr := forLoop_frame _ (viewAt tp ap) (fun _ => Ptrs br tp ap)
    (fun (i : Nat) (x : Int) => (i : Int) * (L.pooled_width_.toNat : Int) ≤ x ∧
          x < ((i : Int) + 1) * (L.pooled_width_.toNat : Int))
    L.pooled_height_.toNat s hP hQ hframe
  refine ⟨hfr.1, fun x hx => hfr.2 x (fun i hi hown => ?_), fun ph pw hph hpw => ?_⟩
  · have hW : (0 : Int) ≤ (L.pooled_width_.toNat : Int) := Int.natCast_nonneg _
    have h1 : ((i : Int) + 1) ≤ (L.pooled_height_.toNat : Int) := by exact_mod_cast hi
    have h2 := mul_le_mul_of_nonneg_right h1 hW
    have h3 : (0 : Int) ≤ (i : Int) * (L.pooled_width_.toNat : Int) := by positivity
    unfold gridSize at hx
    rcases hx with hx | hx
    · linarith [hown.1]
    · linarith [hown.2]
  · have hw : (L.pooled_width_.toNat : Int) = L.pooled_width_ := toNat_cast_of_lt hpw
    have h3 : (pw : Int) < L.pooled_width_ := by rw [← hw]; exact_mod_cast hpw
    have h4 : (0 : Int) ≤ pw := Int.natCast_nonneg pw
    have hown : (ph : Int) * (L.pooled_width_.toNat : Int) ≤ (ph : Int) * L.pooled_width_ + pw ∧
        (ph : Int) * L.pooled_width_ + pw < ((ph : Int) + 1) * (L.pooled_width_.toNat : Int) := by
      rw [hw]; constructor <;> linarith
    have how := forLoop_owned _ (viewAt tp ap) (fun _ => Ptrs br tp ap)
      (fun (i : Nat) (x : Int) => (i : Int) * (L.pooled_width_.toNat : Int) ≤ x ∧
            x < ((i : Int) + 1) * (L.pooled_width_.toNat : Int))
      L.pooled_height_.toNat s hP hQ hframe hdisj ph hph _ hown
    rw [how.2.2, (pwLoop_view L bottom_data n batch_data roi_start_h roi_start_w
      bin_size_h bin_size_w ph br tp ap _ how.1).2.2 pw hpw, how.2.1]

/-! ## The channel loop -/

theorem viewAt_shift (tp ap d : Int) (s : FwdState) (x : Int) :
    viewAt (tp + d) (ap + d) s (x - d) = viewAt tp ap s x := by
  unfold viewAt
  rw [show tp + d + (x - d) = tp + x by ring, show ap + d + (x - d) = ap + x by ring]

/-- The channel loop, run `k` times from pointers `tp`, `ap` and `batch0`: the
unit `(c, ph, pw)` gets `cellValue` over channel `c` of what it held, and
nothing outside the first `k * gridSize` units is written. -/
theorem chanLoop_view (L : WholeImagePoolingLayer) (bottom0 top0 : Blob Dtype) (n : Nat)
    (roi_start_h roi_start_w : Int) (bin_size_h bin_size_w : Dtype)
    (hSt : top0.offset 0 1 0 0 = gridSize L) (hSa : L.max_idx_.offset 0 1 0 0 = gridSize L)
    (k : Nat) (batch0 br tp ap : Int) (s : FwdState) (hP : Ptrs br tp ap s) :
    ((forLoop (poolChannel L bottom0 top0 n roi_start_h roi_start_w bin_size_h bin_size_w)
        k (batch0, s)).1 = batch0 + (k : Int) * bottom0.offset 0 1 0 0 ∧
      Ptrs br (tp + (k : Int) * gridSize L) (ap + (k : Int) * gridSize L)
        (forLoop (poolChannel L bottom0 top0 n roi_start_h roi_start_w bin_size_h bin_size_w)
          k (batch0, s)).2) ∧
      (∀ x, (x < 0 ∨ (k : Int) * gridSize L ≤ x) →
        viewAt tp ap
          (forLoop (poolChannel L bottom0 top0 n roi_start_h roi_start_w bin_size_h bin_size_w)
            k (batch0, s)).2 x = viewAt tp ap s x) ∧
      (∀ c ph pw : Nat, c < k → ph < L.pooled_height_.toNat → pw < L.pooled_width_.toNat →
        viewAt tp ap
          (forLoop (poolChannel L bottom0 top0 n roi_start_h roi_start_w bin_size_h bin_size_w)
            k (batch0, s)).2
          ((c : Int) * gridSize L + ((ph : Int) * L.pooled_width_ + pw)) =
        cellValue L bottom0.data (batch0 + (c : Int) * bottom0.offset 0 1 0 0)
          roi_start_h roi_start_w bin_size_h bin_size_w ph pw
          (viewAt tp ap s ((c : Int) * gridSize L + ((ph : Int) * L.pooled_width_ + pw)))) := by
  have hG : (0 : Int) ≤ gridSize L := by unfold gridSize; positivity
  have hQ : ∀ i, i < k → ∀ t : Int × FwdState,
      (t.1 = batch0 + (i : Int) * bottom0.offset 0 1 0 0 ∧
        Ptrs br (tp + (i : Int) * gridSize L) (ap + (i : Int) * gridSize L) t.2) →
      ((poolChannel L bottom0 top0 n roi_start_h roi_start_w bin_size_h bin_size_w i t).1 =
          batch0 + ((i + 1 : Nat) : Int) * bottom0.offset 0 1 0 0 ∧
        Ptrs br (tp + ((i + 1 : Nat) : Int) * gridSize L)
          (ap + ((i + 1 : Nat) : Int) * gridSize L)
          (poolChannel L bottom0 top0 n roi_start_h roi_start_w bin_size_h bin_size_w i t).2) := by
    intro i _ t ht
    have hg := (poolGrid_view L bottom0.data n t.1 roi_start_h roi_start_w
      bin_size_h bin_size_w br _ _ t.2 ht.2).1
    obtain ⟨g1, g2, g3⟩ := hg
    unfold poolChannel
    refine ⟨?_, ?_, ?_, ?_⟩
    · simp only [ht.1]; push_cast; ring
    · exact g1
    · simp only [g2, hSt]; push_cast; ring
    · simp only [g3, hSa]; push_cast; ring
  have hframe : ∀ i, i < k → ∀ t : Int × FwdState,
      (t.1 = batch0 + (i : Int) * bottom0.offset 0 1 0 0 ∧
        Ptrs br (tp + (i : Int) * gridSize L) (ap + (i : Int) * gridSize L) t.2) →
      ∀ x, ¬ ((i : Int) * gridSize L ≤ x ∧ x < ((i : Int) + 1) * gridSize L) →
      viewAt tp ap
        (poolChannel L bottom0 top0 n roi_start_h roi_start_w bin_size_h bin_size_w i t).2 x =
        viewAt tp ap t.2 x := by
    intro i _ t ht x hx
    have hg := (poolGrid_view L bottom0.data n t.1 roi_start_h roi_start_w
      bin_size_h bin_size_w br _ _ t.2 ht.2).2.1 (x - (i : Int) * gridSize L) (by
        by_contra hcon
        push_neg at hcon
        exact hx ⟨by linarith [hcon.1], by linarith [hcon.2]⟩)
    rw [viewAt_shift, viewAt_shift] at hg
    exact hg
  have hdisj : ∀ (i j : Nat) (x : Int), i < k → j < k → i ≠ j →
      ((i : Int) * gridSize L ≤ x ∧ x < ((i : Int) + 1) * gridSize L) →
      ¬ ((j : Int) * gridSize L ≤ x ∧ x < ((j : Int) + 1) * gridSize L) := by
    intro i j x _ _ hij hi hj
    rcases Nat.lt_or_gt_of_ne hij with hlt | hgt
    · have h1 : ((i : Int) + 1) ≤ j := by exact_mod_cast hlt
      have := mul_le_mul_of_nonneg_right h1 hG
      linarith [hi.2, hj.1]
    · have h1 : ((j : Int) + 1) ≤ i := by exact_mod_cast hgt
      have := mul_le_mul_of_nonneg_right h1 hG
      linarith [hi.1, hj.2]
  have hQ0 : (batch0, s).1 = batch0 + ((0 : Nat) : Int) * bottom0.offset 0 1 0 0 ∧
      Ptrs br (tp + ((0 : Nat) : Int) * gridSize L) (ap + ((0 : Nat) : Int) * gridSize L)
        (batch0, s).2 := by
    simpa using hP
  have hfr := forLoop_frame _ (fun (t : Int × FwdState) => viewAt tp ap t.2)
    (fun (i : Nat) (t : Int × FwdState) =>
      t.1 = batch0 + (i : Int) * bottom0.offset 0 1 0 0 ∧
        Ptrs br (tp + (i : Int) * gridSize L) (ap + (i : Int) * gridSize L) t.2)
    (fun (i : Nat) (x : Int) => (i : Int) * gridSize L ≤ x ∧ x < ((i : Int) + 1) * gridSize L)
    k (batch0, s) hQ0 hQ hframe
  refine ⟨hfr.1, fun x hx => hfr.2 x (fun i hi hown => ?_), fun c ph pw hc hph hpw => ?_⟩
  · have h1 : ((i : Int) + 1) ≤ (k : Int) := by exact_mod_cast hi
    have h2 := mul_le_mul_of_nonneg_right h1 hG
    have h3 : (0 : Int) ≤ (i : Int) * gridSize L := by positivity
    rcases hx with hx | hx
    · linarith [hown.1]
    · linarith [hown.2]
  · have hr := row_lt_gridSize L ph pw hph hpw
    have hown : (c : Int) * gridSize L ≤
          (c : Int) * gridSize L + ((ph : Int) * L.pooled_width_ + pw) ∧
        (c : Int) * gridSize L + ((ph : Int) * L.pooled_width_ + pw) <
          ((c : Int) + 1) * gridSize L := by
      constructor <;> linarith [hr.1, hr.2]
    have how := forLoop_owned _ (fun (t : Int × FwdState) => viewAt tp ap t.2)
      (fun (i : Nat) (t : Int × FwdState) =>
        t.1 = batch0 + (i : Int) * bottom0.offset 0 1 0 0 ∧
          Ptrs br (tp + (i : Int) * gridSize L) (ap + (i : Int) * gridSize L) t.2)
      (fun (i : Nat) (x : Int) => (i : Int) * gridSize L ≤ x ∧ x < ((i : Int) + 1) * gridSize L)
      k (batch0, s) hQ0 hQ hframe hdisj c hc _ hown
    obtain ⟨⟨hb, hp⟩, hkeep, hfin⟩ := how
    simp only [] at hfin hkeep
    rw [hfin, ← hkeep, ← hb]
    have hg := (poolGrid_view L bottom0.data n
      (forLoop (poolChannel L bottom0 top0 n roi_start_h roi_start_w bin_size_h bin_size_w)
        c (batch0, s)).1 roi_start_h roi_start_w
      bin_size_h bin_size_w br _ _ _ hp).2.2 ph pw hph hpw
    have e : ∀ t : FwdState, viewAt tp ap t
        ((c : Int) * gridSize L + ((ph : Int) * L.pooled_width_ + pw)) =
        viewAt (tp + (c : Int) * gridSize L) (ap + (c : Int) * gridSize L) t
          ((ph : Int) * L.pooled_width_ + pw) := by
      intro t
      rw [← viewAt_shift tp ap ((c : Int) * gridSize L)]
      congr 1
      ring
    rw [e, e]
    exact hg

/-! ## The region loop -/

/-- The region loop past its checks, run `k` times: the unit `(n, c, ph, pw)`
gets `cellValue` over channel `c` of the image that region `n` names, applied
to what the unit held, and nothing outside the first `k * roiSize` units is
written. -/
theorem roiLoop_view (L : WholeImagePoolingLayer) (bottom0 top0 : Blob Dtype)
    (hSt : top0.offset 0 1 0 0 = gridSize L) (hSa : L.max_idx_.offset 0 1 0 0 = gridSize L)
    (k : Nat) (br tp ap : Int) (s : FwdState) (hP : Ptrs br tp ap s) :
    Ptrs (br + (k : Int) * L.bboxes_.offset 1 0 0 0) (tp + (k : Int) * roiSize L)
        (ap + (k : Int) * roiSize L) (forLoop (poolRoiBody L bottom0 top0) k s) ∧
      (∀ x, (x < 0 ∨ (k : Int) * roiSize L ≤ x) →
        viewAt tp ap (forLoop (poolRoiBody L bottom0 top0) k s) x = viewAt tp ap s x) ∧
      (∀ n c ph pw : Nat, n < k → c < L.channels_.toNat → ph < L.pooled_height_.toNat →
        pw < L.pooled_width_.toNat →
        viewAt tp ap (forLoop (poolRoiBody L bottom0 top0) k s)
          ((n : Int) * roiSize L + ((c : Int) * gridSize L +
            ((ph : Int) * L.pooled_width_ + pw))) =
        cellValue L bottom0.data
          (bottom0.offset (regionAt L br n).roi_batch_ind 0 0 0 +
            (c : Int) * bottom0.offset 0 1 0 0)
          (regionAt L br n).roi_start_h (regionAt L br n).roi_start_w
          (bin_size_h L (regionAt L br n)) (bin_size_w L (regionAt L br n)) ph pw
          (viewAt tp ap s ((n : Int) * roiSize L + ((c : Int) * gridSize L +
            ((ph : Int) * L.pooled_width_ + pw))))) := by
  have hG : (0 : Int) ≤ gridSize L := by unfold gridSize; positivity
  have hR : (0 : Int) ≤ roiSize L := by unfold roiSize; positivity
  have hQ : ∀ i, i < k → ∀ t : FwdState,
      Ptrs (br + (i : Int) * L.bboxes_.offset 1 0 0 0) (tp + (i : Int) * roiSize L)
        (ap + (i : Int) * roiSize L) t →
      Ptrs (br + ((i + 1 : Nat) : Int) * L.bboxes_.offset 1 0 0 0)
        (tp + ((i + 1 : Nat) : Int) * roiSize L)
        (ap + ((i + 1 : Nat) : Int) * roiSize L) (poolRoiBody L bottom0 top0 i t) := by
    intro i _ t ht
    have hc := (chanLoop_view L bottom0 top0 i
      (readRoi L t.bottom_rois).roi_start_h (readRoi L t.bottom_rois).roi_start_w
      (bin_size_h L (readRoi L t.bottom_rois)) (bin_size_w L (readRoi L t.bottom_rois))
      hSt hSa L.channels_.toNat
      (bottom0.offset (readRoi L t.bottom_rois).roi_batch_ind 0 0 0) _ _ _ t ht).1.2
    obtain ⟨g1, g2, g3⟩ := hc
    unfold poolRoiBody
    refine ⟨?_, ?_, ?_⟩
    · simp only [g1]; push_cast; ring
    · simp only [g2]; unfold roiSize; push_cast; ring
    · simp only [g3]; unfold roiSize; push_cast; ring
  have hframe : ∀ i, i < k → ∀ t : FwdState,
      Ptrs (br + (i : Int) * L.bboxes_.offset 1 0 0 0) (tp + (i : Int) * roiSize L)
        (ap + (i : Int) * roiSize L) t →
      ∀ x, ¬ ((i : Int) * roiSize L ≤ x ∧ x < ((i : Int) + 1) * roiSize L) →
      viewAt tp ap (poolRoiBody L bottom0 top0 i t) x = viewAt tp ap t x := by
    intro i _ t ht x hx
    have hc := (chanLoop_view L bottom0 top0 i
      (readRoi L t.bottom_rois).roi_start_h (readRoi L t.bottom_rois).roi_start_w
      (bin_size_h L (readRoi L t.bottom_rois)) (bin_size_w L (readRoi L t.bottom_rois))
      hSt hSa L.channels_.toNat
      (bottom0.offset (readRoi L t.bottom_rois).roi_batch_ind 0 0 0) _ _ _ t ht).2.1
      (x - (i : Int) * roiSize L) (by
        by_contra hcon
        push_neg at hcon
        unfold roiSize at hx hcon
        exact hx ⟨by linarith [hcon.1], by linarith [hcon.2]⟩)
    rw [viewAt_shift, viewAt_shift] at hc
    exact hc
  have hdisj : ∀ (i j : Nat) (x : Int), i < k → j < k → i ≠ j →
      ((i : Int) * roiSize L ≤ x ∧ x < ((i : Int) + 1) * roiSize L) →
      ¬ ((j : Int) * roiSize L ≤ x ∧ x < ((j : Int) + 1) * roiSize L) := by
    intro i j x _ _ hij hi hj
    rcases Nat.lt_or_gt_of_ne hij with hlt | hgt
    · have h1 : ((i : Int) + 1) ≤ j := by exact_mod_cast hlt
      have := mul_le_mul_of_nonneg_right h1 hR
      linarith [hi.2, hj.1]
    · have h1 : ((j : Int) + 1) ≤ i := by exact_mod_cast hgt
      have := mul_le_mul_of_nonneg_right h1 hR
      linarith [hi.1, hj.2]
  have hQ0 : Ptrs (br + ((0 : Nat) : Int) * L.bboxes_.offset 1 0 0 0)
      (tp + ((0 : Nat) : Int) * roiSize L) (ap + ((0 : Nat) : Int) * roiSize L) s := by
    simpa using hP
  have hfr := forLoop_frame _ (viewAt tp ap)
    (fun (i : Nat) (t : FwdState) =>
      Ptrs (br + (i : Int) * L.bboxes_.offset 1 0 0 0) (tp + (i : Int) * roiSize L)
        (ap + (i : Int) * roiSize L) t)
    (fun (i : Nat) (x : Int) => (i : Int) * roiSize L ≤ x ∧ x < ((i : Int) + 1) * roiSize L)
    k s hQ0 hQ hframe
  refine ⟨hfr.1, fun x hx => hfr.2 x (fun i hi hown => ?_),
    fun n c ph pw hn hc hph hpw => ?_⟩
  · have h1 : ((i : Int) + 1) ≤ (k : Int) := by exact_mod_cast hi
    have h2 := mul_le_mul_of_nonneg_right h1 hR
    have h3 : (0 : Int) ≤ (i : Int) * roiSize L := by positivity
    rcases hx with hx | hx
    · linarith [hown.1]
    · linarith [hown.2]
  · have hr := row_lt_gridSize L ph pw hph hpw
    have hc1 : ((c : Int) + 1) ≤ (L.channels_.toNat : Int) := by exact_mod_cast hc
    have hc2 := mul_le_mul_of_nonneg_right hc1 hG
    have hc3 : (0 : Int) ≤ (c : Int) * gridSize L := by positivity
    have hown : (n : Int) * roiSize L ≤ (n : Int) * roiSize L + ((c : Int) * gridSize L +
          ((ph : Int) * L.pooled_width_ + pw)) ∧
        (n : Int) * roiSize L + ((c : Int) * gridSize L +
          ((ph : Int) * L.pooled_width_ + pw)) < ((n : Int) + 1) * roiSize L := by
      unfold roiSize
      constructor <;> linarith [hr.1, hr.2]
    have how := forLoop_owned _ (viewAt tp ap)
      (fun (i : Nat) (t : FwdState) =>
        Ptrs (br + (i : Int) * L.bboxes_.offset 1 0 0 0) (tp + (i : Int) * roiSize L)
          (ap + (i : Int) * roiSize L) t)
      (fun (i : Nat) (x : Int) => (i : Int) * roiSize L ≤ x ∧ x < ((i : Int) + 1) * roiSize L)
      k s hQ0 hQ hframe hdisj n hn _ hown
    obtain ⟨hp, hkeep, hfin⟩ := how
    rw [hfin, ← hkeep]
    have hbr : (forLoop (poolRoiBody L bottom0 top0) n s).bottom_rois =
        br + (n : Int) * L.bboxes_.offset 1 0 0 0 := hp.1
    have hcv := (chanLoop_view L bottom0 top0 n
      (regionAt L br n).roi_start_h (regionAt L br n).roi_start_w
      (bin_size_h L (regionAt L br n)) (bin_size_w L (regionAt L br n))
      hSt hSa L.channels_.toNat
      (bottom0.offset (regionAt L br n).roi_batch_ind 0 0 0) _ _ _
      (forLoop (poolRoiBody L bottom0 top0) n s) hp).2.2 c ph pw hc hph hpw
    have e : ∀ t : FwdState, viewAt tp ap t
        ((n : Int) * roiSize L + ((c : Int) * gridSize L +
          ((ph : Int) * L.pooled_width_ + pw))) =
        viewAt (tp + (n : Int) * roiSize L) (ap + (n : Int) * roiSize L) t
          ((c : Int) * gridSize L + ((ph : Int) * L.pooled_width_ + pw)) := by
      intro t
      rw [← viewAt_shift tp ap ((n : Int) * roiSize L)]
      congr 1
      ring
    rw [e, e, ← hcv]
    generalize forLoop (poolRoiBody L bottom0 top0) n s = t at hbr
    unfold poolRoiBody regionAt
    rw [hbr]
    rfl

/-! ## `Forward_cpu` as a whole -/

theorem forLoopM_ok {σ ε : Type} (body : Nat → σ → Except ε σ) (pbody : Nat → σ → σ)
    (k : Nat) (s : σ)
    (hb : ∀ i, i < k → body i (forLoop pbody i s) = .ok (pbody i (forLoop pbody i s))) :
    forLoopM body k s = .ok (forLoop pbody k s) := by
  induction k with
  | zero => rfl
  | succ k ih =>
    rw [forLoopM, ih (fun i hi => hb i (Nat.lt_succ_of_lt hi))]
    exact hb k (Nat.lt_succ_self k)

theorem seedState_ptrs (L : WholeImagePoolingLayer) (top0 : Blob Dtype) :
    Ptrs 0 0 0 (seedState L top0) := ⟨rfl, rfl, rfl⟩

theorem Shaped.top_stride {L : WholeImagePoolingLayer} {bottom0 top0 : Blob Dtype}
    (h : Shaped L bottom0 top0) : top0.offset 0 1 0 0 = gridSize L := by
  obtain ⟨-, ⟨-, -, h3, h4⟩, -, -⟩ := h
  unfold Blob.offset gridSize
  rw [h3, h4]; ring

theorem Shaped.argmax_stride {L : WholeImagePoolingLayer} {bottom0 top0 : Blob Dtype}
    (h : Shaped L bottom0 top0) : L.max_idx_.offset 0 1 0 0 = gridSize L := by
  obtain ⟨-, -, ⟨-, -, h3, h4⟩, -⟩ := h
  unfold Blob.offset gridSize
  rw [h3, h4]; ring

theorem poolRoi_ok (L : WholeImagePoolingLayer) (bottom0 top0 : Blob Dtype) (n : Nat)
    (t : FwdState) (h0 : 0 ≤ (readRoi L t.bottom_rois).roi_batch_ind)
    (h1 : (readRoi L t.bottom_rois).roi_batch_ind < bottom0.num) :
    poolRoi L bottom0 top0 n t = .ok (poolRoiBody L bottom0 top0 n t) := by
  unfold poolRoi
  simp only []
  rw [if_neg (not_not.mpr h0), if_neg (not_not.mpr h1)]

/-- With valid regions the checks of `Forward_cpu` all pass: it returns the
state the region loop reaches from the seeds. -/
theorem Forward_cpu_eq_ok (L : WholeImagePoolingLayer) (bottom0 top0 : Blob Dtype)
    (hS : Shaped L bottom0 top0) (hV : ValidRois L bottom0) :
    Forward_cpu L bottom0 top0 =
      .ok (forLoop (poolRoiBody L bottom0 top0) L.bboxes_.num (seedState L top0)) := by
  have hnum : L.bboxes_.num = bottom0.num := hS.2.2.2.1
  unfold Forward_cpu
  have hne : ¬ ((L.bboxes_.num : Int) ≠ (bottom0.num : Int)) := by
    rw [hnum]; simp
  simp only [hne, if_false]
  change forLoopM (poolRoi L bottom0 top0) L.bboxes_.num (seedState L top0) = _
  apply forLoopM_ok
  intro i hi
  have hp := (roiLoop_view L bottom0 top0 hS.top_stride hS.argmax_stride i 0 0 0
    (seedState L top0) (seedState_ptrs L top0)).1
  have hv := hV i hi
  unfold regionAt at hv
  have hbr : (forLoop (poolRoiBody L bottom0 top0) i (seedState L top0)).bottom_rois =
      0 + (i : Int) * L.bboxes_.offset 1 0 0 0 := hp.1
  apply poolRoi_ok
  · rw [hbr]; exact hv.1
  · rw [hbr]; exact hv.2

theorem Shaped.channels_toNat {L : WholeImagePoolingLayer} {bottom0 top0 : Blob Dtype}
    (h : Shaped L bottom0 top0) : L.channels_.toNat = bottom0.channels := by
  rw [h.1.1]; exact Int.toNat_natCast _

/-- The offset of unit `(n, c, ph, pw)` in `top[0]` and in `max_idx_`, split
along the three pointer advances, and its place inside the seeded range. -/
theorem Shaped.offset_eq {L : WholeImagePoolingLayer} {bottom0 top0 : Blob Dtype}
    (h : Shaped L bottom0 top0) (n c ph pw : Nat) (hn : n < bottom0.num)
    (hc : c < bottom0.channels) (hph : ph < L.pooled_height_.toNat)
    (hpw : pw < L.pooled_width_.toNat) :
    top0.offset n c ph pw = (n : Int) * roiSize L + ((c : Int) * gridSize L +
        ((ph : Int) * L.pooled_width_ + pw)) ∧
      L.max_idx_.offset n c ph pw = (n : Int) * roiSize L + ((c : Int) * gridSize L +
        ((ph : Int) * L.pooled_width_ + pw)) ∧
      0 ≤ top0.offset n c ph pw ∧ top0.offset n c ph pw < top0.count := by
  have hC := h.channels_toNat
  obtain ⟨-, ⟨t1, t2, t3, t4⟩, ⟨m1, m2, m3, m4⟩, -⟩ := h
  have hw : (L.pooled_width_.toNat : Int) = L.pooled_width_ := toNat_cast_of_lt hpw
  have e1 : top0.offset n c ph pw = (n : Int) * roiSize L + ((c : Int) * gridSize L +
        ((ph : Int) * L.pooled_width_ + pw)) := by
    unfold Blob.offset roiSize gridSize
    rw [t2, t3, t4, hC, hw]; ring
  have e2 : L.max_idx_.offset n c ph pw = (n : Int) * roiSize L + ((c : Int) * gridSize L +
        ((ph : Int) * L.pooled_width_ + pw)) := by
    unfold Blob.offset roiSize gridSize
    rw [m2, m3, m4, hC, hw]; ring
  refine ⟨e1, e2, ?_⟩
  have hr := row_lt_gridSize L ph pw hph hpw
  have hG : (0 : Int) ≤ gridSize L := by unfold gridSize; positivity
  have hR : (0 : Int) ≤ roiSize L := by unfold roiSize; positivity
  have hc1 : ((c : Int) + 1) ≤ (L.channels_.toNat : Int) := by rw [hC]; exact_mod_cast hc
  have hc2 := mul_le_mul_of_nonneg_right hc1 hG
  have hc3 : (0 : Int) ≤ (c : Int) * gridSize L := by positivity
  have hn1 : ((n : Int) + 1) ≤ (bottom0.num : Int) := by exact_mod_cast hn
  have hn2 := mul_le_mul_of_nonneg_right hn1 hR
  have hn3 : (0 : Int) ≤ (n : Int) * roiSize L := by positivity
  have hcount : top0.count = (bottom0.num : Int) * roiSize L := by
    unfold Blob.count roiSize gridSize
    rw [t1, t2, t3, t4, hC]; ring
  rw [hcount, e1]
  unfold roiSize at hn2 hn3 ⊢
  constructor <;> linarith [hr.1, hr.2]

/-- The state the region loop reaches from the seeds holds, at every unit
`(n, c, ph, pw)`, the value and argmax `outCell`. -/
theorem forward_cell (L : WholeImagePoolingLayer) (bottom0 top0 : Blob Dtype)
    (hS : Shaped L bottom0 top0) (n c ph pw : Nat) (hn : n < bottom0.num)
    (hc : c < bottom0.channels) (hph : ph < L.pooled_height_.toNat)
    (hpw : pw < L.pooled_width_.toNat) :
    ((forLoop (poolRoiBody L bottom0 top0) L.bboxes_.num (seedState L top0)).top_mem
        (top0.offset n c ph pw),
      (forLoop (poolRoiBody L bottom0 top0) L.bboxes_.num (seedState L top0)).max_idx_mem
        (L.max_idx_.offset n c ph pw)) = outCell L bottom0 n c ph pw := by
  have hnum : L.bboxes_.num = bottom0.num := hS.2.2.2.1
  obtain ⟨e1, e2, e3, e4⟩ := hS.offset_eq n c ph pw hn hc hph hpw
  have hv := (roiLoop_view L bottom0 top0 hS.top_stride hS.argmax_stride L.bboxes_.num 0 0 0
    (seedState L top0) (seedState_ptrs L top0)).2.2 n c ph pw (by omega)
    (by rw [hS.channels_toNat]; exact hc) hph hpw
  simp only [viewAt, zero_add] at hv
  rw [e1] at e3 e4
  rw [e2, e1, hv]
  unfold outCell seedState caffe_set
  simp only [e3, e4, and_self, if_true]

/-! ## The scan of a window -/

theorem ScanPost.congr {F : Int → Int → Dtype} {W : Int} {S S2 : Int → Int → Prop}
    {acc0 acc : Dtype × Int} (hS : ∀ h w, S h w ↔ S2 h w) (h : ScanPost F W S acc0 acc) :
    ScanPost F W S2 acc0 acc := by
  obtain ⟨h1, h2, h3⟩ := h
  refine ⟨h1, fun h w hw => h2 h w ((hS h w).mpr hw), ?_⟩
  rcases h3 with h3 | ⟨h, w, hm, he, hlt, hfirst⟩
  · exact Or.inl h3
  · exact Or.inr ⟨h, w, (hS h w).mp hm, he, hlt,
      fun h2 w2 hm2 hord => hfirst h2 w2 ((hS h2 w2).mpr hm2) hord⟩

theorem ScanPost.init (F : Int → Int → Dtype) (W : Int) (S : Int → Int → Prop)
    (acc0 : Dtype × Int) (hnan : acc0.1 ≠ Dtype.nan) (hS : ∀ h w, ¬ S h w) :
    ScanPost F W S acc0 acc0 :=
  ⟨Dtype.le_refl hnan, fun h w hw => absurd hw (hS h w), Or.inl rfl⟩

/-- One step of the scan, at a position that comes after all those scanned. -/
theorem scanAcc_post (width_ : Int) (bottom_data : Int → Dtype) (batch_data : Int)
    (S : Int → Int → Prop) (acc0 acc : Dtype × Int) (h w : Int)
    (hpost : ScanPost (fun h w => bottom_data (batch_data + (h * width_ + w))) width_ S acc0 acc)
    (hlast : ∀ h2 w2, S h2 w2 → (h2 < h ∨ (h2 = h ∧ w2 < w))) :
    ScanPost (fun h w => bottom_data (batch_data + (h * width_ + w))) width_
      (fun h2 w2 => S h2 w2 ∨ (h2 = h ∧ w2 = w)) acc0
      (scanAcc width_ bottom_data batch_data h w acc) := by
  obtain ⟨h1, h2, h3⟩ := hpost
  unfold scanAcc
  by_cases hc : bottom_data (batch_data + (h * width_ + w)) > acc.1
  · simp only [hc, if_true]
    refine ⟨Dtype.le_of_lt (Dtype.lt_of_le_of_lt h1 hc), ?_, Or.inr ⟨h, w, Or.inr ⟨rfl, rfl⟩, rfl,
      Dtype.lt_of_le_of_lt h1 hc, ?_⟩⟩
    · rintro a b (hab | ⟨rfl, rfl⟩)
      · exact fun hlt => h2 a b hab (Dtype.lt_trans hc hlt)
      · exact Dtype.lt_irrefl _
    · rintro a b (hab | ⟨rfl, rfl⟩) hord
      · exact fun hle => h2 a b hab (Dtype.lt_of_lt_of_le hc hle)
      · omega
  · simp only [hc, if_false]
    refine ⟨h1, ?_, ?_⟩
    · rintro a b (hab | ⟨rfl, rfl⟩)
      · exact h2 a b hab
      · exact hc
    · rcases h3 with h3 | ⟨a, b, hm, he, hlt, hfirst⟩
      · exact Or.inl h3
      · refine Or.inr ⟨a, b, Or.inl hm, he, hlt, ?_⟩
        rintro a2 b2 (hab | ⟨rfl, rfl⟩) hord
        · exact hfirst a2 b2 hab hord
        · have := hlast a b hm
          omega

/-- The scan of a window, from the pair `acc0`. -/
theorem scanBin_post (width_ : Int) (bottom_data : Int → Dtype) (batch_data : Int)
    (b : Bin) (acc0 : Dtype × Int) (hnan : acc0.1 ≠ Dtype.nan) :
    ScanPost (fun h w => bottom_data (batch_data + (h * width_ + w))) width_ b.Mem acc0
      (scanBin width_ bottom_data batch_data b acc0) := by
  unfold scanBin forRange
  have hrow : ∀ (i : Nat) (acc : Dtype × Int),
      ScanPost (fun h w => bottom_data (batch_data + (h * width_ + w))) width_
        (fun h w => b.hstart ≤ h ∧ h < b.hstart + i ∧ b.wstart ≤ w ∧ w < b.wend) acc0 acc →
      ScanPost (fun h w => bottom_data (batch_data + (h * width_ + w))) width_
        (fun h w => b.hstart ≤ h ∧ h < b.hstart + (i + 1 : Nat) ∧ b.wstart ≤ w ∧ w < b.wend)
        acc0
        (forLoop (fun j => scanAcc width_ bottom_data batch_data (b.hstart + (i : Int))
          (b.wstart + (j : Int))) (b.wend - b.wstart).toNat acc) := by
    intro i acc hacc
    have hin := forLoop_inv
      (fun j => scanAcc width_ bottom_data batch_data (b.hstart + (i : Int))
        (b.wstart + (j : Int)))
      (fun (j : Nat) (a : Dtype × Int) =>
        ScanPost (fun h w => bottom_data (batch_data + (h * width_ + w))) width_
          (fun h w => (b.hstart ≤ h ∧ h < b.hstart + i ∧ b.wstart ≤ w ∧ w < b.wend) ∨
            (h = b.hstart + i ∧ b.wstart ≤ w ∧ w < b.wstart + j)) acc0 a)
      (b.wend - b.wstart).toNat acc
      (hacc.congr (fun h w => by constructor <;> intro hh <;> omega))
      (fun j hj a ha => by
        have hstep := scanAcc_post width_ bottom_data batch_data _ acc0 a
          (b.hstart + (i : Int)) (b.wstart + (j : Int)) ha
          (fun h2 w2 hh => by omega)
        exact hstep.congr (fun h w => by constructor <;> intro hh <;> omega))
    exact hin.congr (fun h w => by constructor <;> intro hh <;> omega)
  have hout := forLoop_inv
    (fun i => forLoop (fun j => scanAcc width_ bottom_data batch_data (b.hstart + (i : Int))
      (b.wstart + (j : Int))) (b.wend - b.wstart).toNat)
    (fun (i : Nat) (a : Dtype × Int) =>
      ScanPost (fun h w => bottom_data (batch_data + (h * width_ + w))) width_
        (fun h w => b.hstart ≤ h ∧ h < b.hstart + i ∧ b.wstart ≤ w ∧ w < b.wend) acc0 a)
    (b.hend - b.hstart).toNat acc0
    (ScanPost.init _ _ _ _ hnan (fun h w hh => by omega))
    (fun i _ a ha => hrow i a ha)
  exact hout.congr (fun h w => by unfold Bin.Mem; constructor <;> intro hh <;> omega)

theorem scanBin_empty (width_ : Int) (bottom_data : Int → Dtype) (batch_data : Int)
    (b : Bin) (acc : Dtype × Int) (hE : b.hend ≤ b.hstart ∨ b.wend ≤ b.wstart) :
    scanBin width_ bottom_data batch_data b acc = acc := by
  unfold scanBin forRange
  rcases hE with hE | hE
  · have : (b.hend - b.hstart).toNat = 0 := by omega
    rw [this]
    rfl
  · have : (b.wend - b.wstart).toNat = 0 := by omega
    rw [this]
    exact forLoop_id _ _ _ (fun i _ t => rfl)

theorem cellValue_empty (L : WholeImagePoolingLayer) (bottom_data : Int → Dtype)
    (batch_data roi_start_h roi_start_w : Int) (bin_size_h bin_size_w : Dtype)
    (ph pw : Int) (acc : Dtype × Int)
    (hE : (clampBin L.height_ L.width_
          (rawBin L.arith roi_start_h roi_start_w bin_size_h bin_size_w ph pw)).hend ≤
        (clampBin L.height_ L.width_
          (rawBin L.arith roi_start_h roi_start_w bin_size_h bin_size_w ph pw)).hstart ∨
      (clampBin L.height_ L.width_
          (rawBin L.arith roi_start_h roi_start_w bin_size_h bin_size_w ph pw)).wend ≤
        (clampBin L.height_ L.width_
          (rawBin L.arith roi_start_h roi_start_w bin_size_h bin_size_w ph pw)).wstart) :
    cellValue L bottom_data batch_data roi_start_h roi_start_w bin_size_h bin_size_w
      ph pw acc = (0, -1) := by
  unfold cellValue
  simp only []
  rw [scanBin_empty _ _ _ _ _ hE]
  have : (decide ((clampBin L.height_ L.width_
          (rawBin L.arith roi_start_h roi_start_w bin_size_h bin_size_w ph pw)).hend ≤
        (clampBin L.height_ L.width_
          (rawBin L.arith roi_start_h roi_start_w bin_size_h bin_size_w ph pw)).hstart) ||
      decide ((clampBin L.height_ L.width_
          (rawBin L.arith roi_start_h roi_start_w bin_size_h bin_size_w ph pw)).wend ≤
        (clampBin L.height_ L.width_
          (rawBin L.arith roi_start_h roi_start_w bin_size_h bin_size_w ph pw)).wstart)) =
        true := by
    simpa using hE
  rw [if_pos this]

theorem cellValue_nonempty (L : WholeImagePoolingLayer) (bottom_data : Int → Dtype)
    (batch_data roi_start_h roi_start_w : Int) (bin_size_h bin_size_w : Dtype)
    (ph pw : Int) (acc : Dtype × Int)
    (hN : (clampBin L.height_ L.width_
          (rawBin L.arith roi_start_h roi_start_w bin_size_h bin_size_w ph pw)).hstart <
        (clampBin L.height_ L.width_
          (rawBin L.arith roi_start_h roi_start_w bin_size_h bin_size_w ph pw)).hend ∧
      (clampBin L.height_ L.width_
          (rawBin L.arith roi_start_h roi_start_w bin_size_h bin_size_w ph pw)).wstart <
        (clampBin L.height_ L.width_
          (rawBin L.arith roi_start_h roi_start_w bin_size_h bin_size_w ph pw)).wend) :
    cellValue L bottom_data batch_data roi_start_h roi_start_w bin_size_h bin_size_w
      ph pw acc =
    scanBin L.width_ bottom_data batch_data
      (clampBin L.height_ L.width_
        (rawBin L.arith roi_start_h roi_start_w bin_size_h bin_size_w ph pw)) acc := by
  unfold cellValue
  simp only []
  have : ¬ ((decide ((clampBin L.height_ L.width_
          (rawBin L.arith roi_start_h roi_start_w bin_size_h bin_size_w ph pw)).hend ≤
        (clampBin L.height_ L.width_
          (rawBin L.arith roi_start_h roi_start_w bin_size_h bin_size_w ph pw)).hstart) ||
      decide ((clampBin L.height_ L.width_
          (rawBin L.arith roi_start_h roi_start_w bin_size_h bin_size_w ph pw)).wend ≤
        (clampBin L.height_ L.width_
          (rawBin L.arith roi_start_h roi_start_w bin_size_h bin_size_w ph pw)).wstart)) =
        true) := by
    simp only [Bool.or_eq_true, decide_eq_true_eq]
    omega
  rw [if_neg this]

/-- The element the scan reads at `(h, w)` of channel `c` of image `b` is
element `(b, c, h, w)` of the feature map. -/
theorem offset_split (bottom0 : Blob Dtype) (b c h w : Int) :
    bottom0.offset b 0 0 0 + c * bottom0.offset 0 1 0 0 + (h * bottom0.width + w) =
      bottom0.offset b c h w := by
  unfold Blob.offset; ring

/-- The pair a unit with a non-empty window ends with, against the feature
map: `ScanPost` over the window, from the seeds. -/
theorem outCell_post (L : WholeImagePoolingLayer) (bottom0 top0 : Blob Dtype)
    (hS : Shaped L bottom0 top0) (n c ph pw : Nat)
    (hN : (cellBin L n ph pw).hstart < (cellBin L n ph pw).hend ∧
      (cellBin L n ph pw).wstart < (cellBin L n ph pw).wend) :
    ScanPost
      (fun h w => bottom0.data (bottom0.offset (regionAt L 0 n).roi_batch_ind c h w))
      bottom0.width (cellBin L n ph pw).Mem (-FLT_MAX, -1) (outCell L bottom0 n c ph pw) := by
  have hW : L.width_ = bottom0.width := hS.1.2.2
  unfold outCell
  rw [cellValue_nonempty L _ _ _ _ _ _ _ _ _ hN]
  have hp := scanBin_post L.width_ bottom0.data
    (bottom0.offset (regionAt L 0 n).roi_batch_ind 0 0 0 + (c : Int) * bottom0.offset 0 1 0 0)
    (cellBin L n ph pw) (-FLT_MAX, -1) neg_FLT_MAX_ne_nan
  have hF : (fun h w => bottom0.data
      (bottom0.offset (regionAt L 0 n).roi_batch_ind 0 0 0 + (c : Int) * bottom0.offset 0 1 0 0 +
        (h * L.width_ + w))) =
      (fun h w => bottom0.data (bottom0.offset (regionAt L 0 n).roi_batch_ind c h w)) := by
    funext h w
    rw [hW, offset_split]
  rw [hF] at hp
  rw [← hW]
  exact hp

/-! ## `Reshape` -/

theorem Reshape_roi_fst (A : Arith) (width_ height_ : Int) (im_info : Option (Blob Dtype))
    (stride : Int) (n : Nat) (st : Int × (Int → Dtype)) :
    (Reshape_roi A width_ height_ im_info stride n st).1 = st.1 + stride := rfl

/-- One pass of the region loop of `Reshape` writes the five fields at the
pointer and nothing else. -/
theorem Reshape_roi_snd (A : Arith) (width_ height_ : Int) (im_info : Option (Blob Dtype))
    (stride : Int) (n : Nat) (st : Int × (Int → Dtype)) (x : Int) :
    (Reshape_roi A width_ height_ im_info stride n st).2 x =
      if x = st.1 + 4 then Reshape_y2 A height_ im_info n
      else if x = st.1 + 3 then Reshape_x2 A width_ im_info n
      else if x = st.1 + 2 then A.ofInt 0
      else if x = st.1 + 1 then A.ofInt 0
      else if x = st.1 + 0 then A.ofInt n
      else st.2 x := by
  unfold Reshape_roi Reshape_x2 Reshape_y2
  cases im_info <;> simp only [Function.update_apply]

/-- The region loop of `Reshape` with stride 5, run `k` times from offset 0:
region `n` holds `(n, 0, 0, x2, y2)` and nothing past the `k` regions is
written. -/
theorem Reshape_loop (A : Arith) (width_ height_ : Int) (im_info : Option (Blob Dtype))
    (k : Nat) (data0 : Int → Dtype) :
    (forLoop (Reshape_roi A width_ height_ im_info 5) k (0, data0)).1 = 5 * (k : Int) ∧
      (∀ x, (x < 0 ∨ 5 * (k : Int) ≤ x) →
        (forLoop (Reshape_roi A width_ height_ im_info 5) k (0, data0)).2 x = data0 x) ∧
      (∀ n : Nat, n < k →
        (forLoop (Reshape_roi A width_ height_ im_info 5) k (0, data0)).2 (5 * (n : Int) + 0) =
          A.ofInt n ∧
        (forLoop (Reshape_roi A width_ height_ im_info 5) k (0, data0)).2 (5 * (n : Int) + 1) =
          A.ofInt 0 ∧
        (forLoop (Reshape_roi A width_ height_ im_info 5) k (0, data0)).2 (5 * (n : Int) + 2) =
          A.ofInt 0 ∧
        (forLoop (Reshape_roi A width_ height_ im_info 5) k (0, data0)).2 (5 * (n : Int) + 3) =
          Reshape_x2 A width_ im_info n ∧
        (forLoop (Reshape_roi A width_ height_ im_info 5) k (0, data0)).2 (5 * (n : Int) + 4) =
          Reshape_y2 A height_ im_info n) := by
  have hQ : ∀ i, i < k → ∀ t : Int × (Int → Dtype), t.1 = 5 * (i : Int) →
      (Reshape_roi A width_ height_ im_info 5 i t).1 = 5 * ((i + 1 : Nat) : Int) := by
    intro i _ t ht
    rw [Reshape_roi_fst, ht]; push_cast; ring
  have hframe : ∀ i, i < k → ∀ t : Int × (Int → Dtype), t.1 = 5 * (i : Int) → ∀ x,
      ¬ (5 * (i : Int) ≤ x ∧ x < 5 * (i : Int) + 5) →
      (Reshape_roi A width_ height_ im_info 5 i t).2 x = t.2 x := by
    intro i _ t ht x hx
    rw [Reshape_roi_snd, ht]
    rw [if_neg (by omega), if_neg (by omega), if_neg (by omega), if_neg (by omega),
      if_neg (by omega)]
  have hdisj : ∀ (i j : Nat) (x : Int), i < k → j < k → i ≠ j →
      (5 * (i : Int) ≤ x ∧ x < 5 * (i : Int) + 5) →
      ¬ (5 * (j : Int) ≤ x ∧ x < 5 * (j : Int) + 5) := by
    intro i j x _ _ hij hi hj
    omega
  have hfr := forLoop_frame (Reshape_roi A width_ height_ im_info 5)
    (fun (t : Int × (Int → Dtype)) x => t.2 x)
    (fun (i : Nat) (t : Int × (Int → Dtype)) => t.1 = 5 * (i : Int))
    (fun (i : Nat) (x : Int) => 5 * (i : Int) ≤ x ∧ x < 5 * (i : Int) + 5)
    k (0, data0) (by simp) hQ hframe
  refine ⟨hfr.1, fun x hx => hfr.2 x (fun i hi hown => by omega), fun n hn => ?_⟩
  have key : ∀ x, (5 * (n : Int) ≤ x ∧ x < 5 * (n : Int) + 5) →
      (forLoop (Reshape_roi A width_ height_ im_info 5) k (0, data0)).2 x =
        (Reshape_roi A width_ height_ im_info 5 n
          (forLoop (Reshape_roi A width_ height_ im_info 5) n (0, data0))).2 x ∧
      (forLoop (Reshape_roi A width_ height_ im_info 5) n (0, data0)).1 = 5 * (n : Int) := by
    intro x hx
    have how := forLoop_owned (Reshape_roi A width_ height_ im_info 5)
      (fun (t : Int × (Int → Dtype)) x => t.2 x)
      (fun (i : Nat) (t : Int × (Int → Dtype)) => t.1 = 5 * (i : Int))
      (fun (i : Nat) (x : Int) => 5 * (i : Int) ≤ x ∧ x < 5 * (i : Int) + 5)
      k (0, data0) (by simp) hQ hframe hdisj n hn x hx
    exact ⟨how.2.2, how.1⟩
  refine ⟨?_, ?_, ?_, ?_, ?_⟩
  · obtain ⟨e, hp⟩ := key (5 * (n : Int) + 0) (by omega)
    rw [e, Reshape_roi_snd, hp]
    rw [if_neg (by omega), if_neg (by omega), if_neg (by omega), if_neg (by omega), if_pos rfl]
  · obtain ⟨e, hp⟩ := key (5 * (n : Int) + 1) (by omega)
    rw [e, Reshape_roi_snd, hp]
    rw [if_neg (by omega), if_neg (by omega), if_neg (by omega), if_pos rfl]
  · obtain ⟨e, hp⟩ := key (5 * (n : Int) + 2) (by omega)
    rw [e, Reshape_roi_snd, hp]
    rw [if_neg (by omega), if_neg (by omega), if_pos rfl]
  · obtain ⟨e, hp⟩ := key (5 * (n : Int) + 3) (by omega)
    rw [e, Reshape_roi_snd, hp]
    rw [if_neg (by omega), if_pos rfl]
  · obtain ⟨e, hp⟩ := key (5 * (n : Int) + 4) (by omega)
    rw [e, Reshape_roi_snd, hp]
    rw [if_pos rfl]

theorem Reshape_body_stride (L : WholeImagePoolingLayer) (bottom0 top0 : Blob Dtype)
    (im_info : Option (Blob Dtype)) :
    (Reshape_body L bottom0 top0 im_info).1.bboxes_.offset 1 0 0 0 = 5 := by
  unfold Reshape_body Blob.offset Blob.Reshape
  simp

/-- After `Reshape` the layer, `bottom[0]` and `top[0]` are in the relation
`Shaped`, and the configuration is kept. -/
theorem Reshape_body_shaped (L : WholeImagePoolingLayer) (bottom0 top0 : Blob Dtype)
    (im_info : Option (Blob Dtype)) :
    Shaped (Reshape_body L bottom0 top0 im_info).1 bottom0
        (Reshape_body L bottom0 top0 im_info).2 ∧
      (Reshape_body L bottom0 top0 im_info).1.pooled_height_ = L.pooled_height_ ∧
      (Reshape_body L bottom0 top0 im_info).1.pooled_width_ = L.pooled_width_ ∧
      (Reshape_body L bottom0 top0 im_info).1.spatial_scale_ = L.spatial_scale_ := by
  unfold Shaped Reshape_body Blob.Reshape
  simp

theorem Reshape_body_arith (L : WholeImagePoolingLayer) (bottom0 top0 : Blob Dtype)
    (im_info : Option (Blob Dtype)) :
    (Reshape_body L bottom0 top0 im_info).1.arith = L.arith := rfl

/-- The five fields `Reshape` stores for region `n`. -/
theorem Reshape_body_region (L : WholeImagePoolingLayer) (bottom0 top0 : Blob Dtype)
    (im_info : Option (Blob Dtype)) (n : Nat) (hn : n < bottom0.num) :
    (Reshape_body L bottom0 top0 im_info).1.bboxes_.data (5 * (n : Int) + 0) =
        L.arith.ofInt n ∧
      (Reshape_body L bottom0 top0 im_info).1.bboxes_.data (5 * (n : Int) + 1) =
        L.arith.ofInt 0 ∧
      (Reshape_body L bottom0 top0 im_info).1.bboxes_.data (5 * (n : Int) + 2) =
        L.arith.ofInt 0 ∧
      (Reshape_body L bottom0 top0 im_info).1.bboxes_.data (5 * (n : Int) + 3) =
        Reshape_x2 L.arith bottom0.width im_info n ∧
      (Reshape_body L bottom0 top0 im_info).1.bboxes_.data (5 * (n : Int) + 4) =
        Reshape_y2 L.arith bottom0.height im_info n := by
  have h5 : (L.bboxes_.Reshape (bottom0.num : Int) 5 1 1).offset 1 0 0 0 = 5 := by
    unfold Blob.offset Blob.Reshape; simp
  have hl := (Reshape_loop L.arith bottom0.width bottom0.height im_info bottom0.num
    (L.bboxes_.Reshape (bottom0.num : Int) 5 1 1).data).2.2 n hn
  unfold Reshape_body
  simp only [h5, Int.toNat_natCast]
  exact hl

theorem scanElem_reads (G : Nat × Int → Prop) (width_ : Int) (bottom_data : Int → Dtype)
    (n : Nat) (batch_data pool_index h w : Int) (s : FwdState) (hG : ∀ x, G (n, x))
    (hs : ReadsOk G s) :
    ReadsOk G (scanElem width_ bottom_data n batch_data pool_index h w s) := by
  intro r hr
  unfold scanElem at hr
  simp only [] at hr
  split_ifs at hr
  all_goals
    simp only [List.mem_cons] at hr
    rcases hr with rfl | hr
    · exact hG _
    · exact hs r hr

theorem poolCell_reads (G : Nat × Int → Prop) (L : WholeImagePoolingLayer)
    (bottom_data : Int → Dtype) (n : Nat) (batch_data roi_start_h roi_start_w : Int)
    (bin_size_h bin_size_w : Dtype) (ph pw : Int) (s : FwdState) (hG : ∀ x, G (n, x))
    (hs : ReadsOk G s) :
    ReadsOk G (poolCell L bottom_data n batch_data roi_start_h roi_start_w
      bin_size_h bin_size_w ph pw s) := by
  unfold poolCell forRange
  simp only []
  apply forLoop_inv _ (fun _ t => ReadsOk G t)
  · split_ifs
    · exact hs
    · exact hs
  · intro i _ t ht
    apply forLoop_inv _ (fun _ t => ReadsOk G t) _ _ ht
    intro j _ u hu
    exact scanElem_reads G _ _ _ _ _ _ _ _ hG hu

theorem poolGrid_reads (G : Nat × Int → Prop) (L : WholeImagePoolingLayer)
    (bottom_data : Int → Dtype) (n : Nat) (batch_data roi_start_h roi_start_w : Int)
    (bin_size_h bin_size_w : Dtype) (s : FwdState) (hG : ∀ x, G (n, x))
    (hs : ReadsOk G s) :
    ReadsOk G (poolGrid L bottom_data n batch_data roi_start_h roi_start_w
      bin_size_h bin_size_w s) := by
  unfold poolGrid
  apply forLoop_inv _ (fun _ t => ReadsOk G t) _ _ hs
  intro i _ t ht
  apply forLoop_inv _ (fun _ t => ReadsOk G t) _ _ ht
  intro j _ u hu
  exact poolCell_reads G L _ _ _ _ _ _ _ _ _ _ hG hu

/-- The region loop body past its checks logs reads of region `n` only, and
advances `bottom_rois` by one region. -/
theorem poolRoiBody_reads (G : Nat × Int → Prop) (L : WholeImagePoolingLayer)
    (bottom0 top0 : Blob Dtype) (n : Nat) (s : FwdState) (hG : ∀ x, G (n, x))
    (hs : ReadsOk G s) :
    ReadsOk G (poolRoiBody L bottom0 top0 n s) ∧
      (poolRoiBody L bottom0 top0 n s).bottom_rois =
        s.bottom_rois + L.bboxes_.offset 1 0 0 0 := by
  have hinv := forLoop_inv
    (poolChannel L bottom0 top0 n (readRoi L s.bottom_rois).roi_start_h
      (readRoi L s.bottom_rois).roi_start_w (bin_size_h L (readRoi L s.bottom_rois))
      (bin_size_w L (readRoi L s.bottom_rois)))
    (fun _ (t : Int × FwdState) => ReadsOk G t.2 ∧ t.2.bottom_rois = s.bottom_rois)
    L.channels_.toNat
    (bottom0.offset (readRoi L s.bottom_rois).roi_batch_ind 0 0 0, s) ⟨hs, rfl⟩
    (fun i _ t ht => by
      have hr := poolGrid_reads G L bottom0.data n t.1
        (readRoi L s.bottom_rois).roi_start_h (readRoi L s.bottom_rois).roi_start_w
        (bin_size_h L (readRoi L s.bottom_rois)) (bin_size_w L (readRoi L s.bottom_rois))
        t.2 hG ht.1
      have hp := (poolGrid_view L bottom0.data n t.1
        (readRoi L s.bottom_rois).roi_start_h (readRoi L s.bottom_rois).roi_start_w
        (bin_size_h L (readRoi L s.bottom_rois)) (bin_size_w L (readRoi L s.bottom_rois))
        t.2.bottom_rois t.2.top_data t.2.argmax_data t.2 ⟨rfl, rfl, rfl⟩).1.1
      exact ⟨hr, hp.trans ht.2⟩)
  unfold poolRoiBody
  exact ⟨hinv.1, by simp only [hinv.2]⟩

/-- The region loop with its checks, run `i` times from the seeds: if it
returns, all `i` regions are valid; if it aborts, the abort is one of the two
batch-index checks; either way `bottom_rois` has advanced with the regions and
every logged read was made through a valid region. -/
theorem roiLoopM_reads (L : WholeImagePoolingLayer) (bottom0 top0 : Blob Dtype) (i : Nat) :
    (∀ s, forLoopM (poolRoi L bottom0 top0) i (seedState L top0) = .ok s →
      s.bottom_rois = 0 + (i : Int) * L.bboxes_.offset 1 0 0 0 ∧
        ReadsOk (fun r => ValidRoi L bottom0 r.1) s ∧ ∀ j, j < i → ValidRoi L bottom0 j) ∧
    (∀ e s, forLoopM (poolRoi L bottom0 top0) i (seedState L top0) = .error (e, s) →
      (e = .check_ge_roi_batch_ind_0 ∨ e = .check_lt_roi_batch_ind_batch_size) ∧
        ReadsOk (fun r => ValidRoi L bottom0 r.1) s) := by
  induction i with
  | zero =>
    refine ⟨fun s hs => ?_, fun e s hs => by cases hs⟩
    cases hs
    refine ⟨by simp [seedState], ?_, fun j hj => absurd hj (Nat.not_lt_zero j)⟩
    intro r hr
    simp [seedState] at hr
  | succ i ih =>
    rw [forLoopM]
    cases hprev : forLoopM (poolRoi L bottom0 top0) i (seedState L top0) with
    | error es =>
      obtain ⟨e0, s0⟩ := es
      refine ⟨fun s hs => (by cases hs), fun e s hs => ?_⟩
      simp only [Except.error.injEq, Prod.mk.injEq] at hs
      obtain ⟨rfl, rfl⟩ := hs
      exact ih.2 e0 s0 hprev
    | ok s1 =>
      obtain ⟨hbr, hreads, hval⟩ := ih.1 s1 hprev
      have hreg : readRoi L s1.bottom_rois = regionAt L 0 i := by
        unfold regionAt; rw [hbr]
      simp only []
      unfold poolRoi
      simp only [hreg]
      by_cases h0 : (regionAt L 0 i).roi_batch_ind ≥ 0
      · by_cases h1 : (regionAt L 0 i).roi_batch_ind < (bottom0.num : Int)
        · simp only [h0, h1, not_true_eq_false, if_false]
          refine ⟨fun s hs => ?_, fun e s hs => by cases hs⟩
          cases hs
          have hb := poolRoiBody_reads (fun r => ValidRoi L bottom0 r.1) L bottom0 top0 i s1
            (fun _ => ⟨h0, h1⟩) hreads
          refine ⟨?_, hb.1, fun j hj => ?_⟩
          · rw [hb.2, hbr]; push_cast; ring
          · rcases Nat.lt_succ_iff_lt_or_eq.mp hj with hlt | rfl
            · exact hval j hlt
            · exact ⟨h0, h1⟩
        · simp only [h0, h1, not_true_eq_false, not_false_eq_true, if_false, if_true]
          refine ⟨fun s hs => (by cases hs), fun e s hs => ?_⟩
          simp only [Except.error.injEq, Prod.mk.injEq] at hs
          obtain ⟨rfl, rfl⟩ := hs
          exact ⟨Or.inr rfl, hreads⟩
      · simp only [h0, not_false_eq_true, if_true]
        refine ⟨fun s hs => (by cases hs), fun e s hs => ?_⟩
        simp only [Except.error.injEq, Prod.mk.injEq] at hs
        obtain ⟨rfl, rfl⟩ := hs
        exact ⟨Or.inl rfl, hreads⟩

/-- The pair a unit ends with, when its window holds a value: `Forward_cpu`
returns, and the pair is in `ScanPost` over the window, from the seeds. -/
theorem forward_post (L : WholeImagePoolingLayer) (bottom0 top0 : Blob Dtype)
    (hS : Shaped L bottom0 top0) (hV : ValidRois L bottom0) (n c ph pw : Nat)
    (hn : n < bottom0.num) (hc : c < bottom0.channels)
    (hph : ph < L.pooled_height_.toNat) (hpw : pw < L.pooled_width_.toNat)
    (hN : (cellBin L n ph pw).hstart < (cellBin L n ph pw).hend ∧
      (cellBin L n ph pw).wstart < (cellBin L n ph pw).wend) :
    ∃ s, Forward_cpu L bottom0 top0 = .ok s ∧
      ScanPost
        (fun h w => bottom0.data (bottom0.offset (regionAt L 0 n).roi_batch_ind c h w))
        bottom0.width (cellBin L n ph pw).Mem (-FLT_MAX, -1)
        (s.top_mem (top0.offset n c ph pw), s.max_idx_mem (L.max_idx_.offset n c ph pw)) := by
  refine ⟨_, Forward_cpu_eq_ok L bottom0 top0 hS hV, ?_⟩
  rw [forward_cell L bottom0 top0 hS n c ph pw hn hc hph hpw]
  exact outCell_post L bottom0 top0 hS n c ph pw hN

/-- A pair in `ScanPost` from the seeds over a window holding a value that is
at least `-FLT_MAX`: the value is a value of the window, no value of the window
is greater, and every value of the window that is not a NaN is at most it. -/
theorem ScanPost.isMax {F : Int → Int → Dtype} {W : Int} {b : Bin} {v : Dtype} {a : Int}
    (hp : ScanPost F W b.Mem (-FLT_MAX, -1) (v, a))
    (hseed : ∃ h w, b.Mem h w ∧ -FLT_MAX ≤ F h w) :
    (∃ h w, b.Mem h w ∧ v = F h w) ∧ (∀ h w, b.Mem h w → ¬ v < F h w) ∧
      (∀ h w, b.Mem h w → F h w ≠ Dtype.nan → F h w ≤ v) := by
  obtain ⟨h0, w0, hm0, hv0⟩ := hseed
  obtain ⟨h1, h2, h3⟩ := hp
  have hv : v ≠ Dtype.nan := (Dtype.ne_nan_of_le h1).2
  refine ⟨?_, h2, fun h w hm hn => Dtype.le_of_not_lt hv hn (h2 h w hm)⟩
  rcases h3 with h3 | ⟨h, w, hm, he, -⟩
  · have hve : v = -FLT_MAX := congrArg Prod.fst h3
    refine ⟨h0, w0, hm0, ?_⟩
    rcases hv0 with hlt | ⟨heq, -⟩
    · rw [← hve] at hlt
      exact absurd hlt (h2 h0 w0 hm0)
    · rw [hve]; exact heq
  · exact ⟨h, w, hm, congrArg Prod.fst he⟩

/-- A pair in `ScanPost` from the seeds over a window holding a value above
`-FLT_MAX` names the first position of the window, in scan order, that holds
the greatest value of the window. -/
theorem ScanPost.first_max {F : Int → Int → Dtype} {W : Int} {b : Bin} {v : Dtype} {a : Int}
    (hp : ScanPost F W b.Mem (-FLT_MAX, -1) (v, a))
    (hseed : ∃ h w, b.Mem h w ∧ -FLT_MAX < F h w) :
    ∃ h w, b.Mem h w ∧ a = h * W + w ∧ v = F h w ∧
      (∀ h2 w2, b.Mem h2 w2 → ¬ F h w < F h2 w2) ∧
      (∀ h2 w2, b.Mem h2 w2 → F h2 w2 ≠ Dtype.nan → F h2 w2 ≤ F h w) ∧
      (∀ h2 w2, b.Mem h2 w2 → F h2 w2 = F h w → h < h2 ∨ (h = h2 ∧ w ≤ w2)) := by
  obtain ⟨h0, w0, hm0, hv0⟩ := hseed
  obtain ⟨h1, h2, h3⟩ := hp
  have hvn : v ≠ Dtype.nan := (Dtype.ne_nan_of_le h1).2
  rcases h3 with h3 | ⟨h, w, hm, he, -, hfirst⟩
  · have hv : v = -FLT_MAX := congrArg Prod.fst h3
    have := h2 h0 w0 hm0
    rw [hv] at this
    exact absurd hv0 this
  · have hv : v = F h w := congrArg Prod.fst he
    rw [hv] at h2 hvn
    refine ⟨h, w, hm, congrArg Prod.snd he, hv, h2,
      fun h2' w2 hm2 hn => Dtype.le_of_not_lt hvn hn (h2 h2' w2 hm2), fun h2' w2 hm2 heq => ?_⟩
    by_contra hcon
    have hord : h2' < h ∨ (h2' = h ∧ w2 < w) := by omega
    have := hfirst h2' w2 hm2 hord
    rw [heq] at this
    exact this (Dtype.le_refl hvn)

/-! ## The regions of `Reshape` in `Forward_cpu` -/

/-- Region `n` as `Forward_cpu` reads it after `Reshape`: the batch index is
the conversion of `Dtype(n)`, the start is the rounding of `0 * spatial_scale_`
and the end the rounding of the stored `x2`, `y2` times `spatial_scale_`. -/
theorem Reshape_regionAt (L : WholeImagePoolingLayer) (bottom0 top0 : Blob Dtype)
    (im_info : Option (Blob Dtype)) (n : Nat) (hn : n < bottom0.num) :
    regionAt (Reshape_body L bottom0 top0 im_info).1 0 n =
      { roi_batch_ind := toInt L.arith (L.arith.ofInt n)
        roi_start_w := toInt L.arith (c_round (L.arith.mul (L.arith.ofInt 0) L.spatial_scale_))
        roi_start_h := toInt L.arith (c_round (L.arith.mul (L.arith.ofInt 0) L.spatial_scale_))
        roi_end_w := toInt L.arith (c_round
          (L.arith.mul (Reshape_x2 L.arith bottom0.width im_info n) L.spatial_scale_))
        roi_end_h := toInt L.arith (c_round
          (L.arith.mul (Reshape_y2 L.arith bottom0.height im_info n) L.spatial_scale_)) } := by
  obtain ⟨r0, r1, r2, r3, r4⟩ := Reshape_body_region L bottom0 top0 im_info n hn
  have hsc := (Reshape_body_shaped L bottom0 top0 im_info).2.2.2
  unfold regionAt readRoi
  rw [Reshape_body_stride, show (0 : Int) + (n : Int) * 5 = 5 * (n : Int) by ring,
    r0, r1, r2, r3, r4, hsc, Reshape_body_arith]

/-- Region `n` of `Reshape` names image `n`, when the arithmetic holds the
batch size exactly. -/
theorem Reshape_batch_ind (L : WholeImagePoolingLayer) (bottom0 top0 : Blob Dtype)
    (im_info : Option (Blob Dtype)) (hN : L.arith.IntExact bottom0.num)
    (n : Nat) (hn : n < bottom0.num) :
    (regionAt (Reshape_body L bottom0 top0 im_info).1 0 n).roi_batch_ind = n := by
  rw [Reshape_regionAt L bottom0 top0 im_info n hn]
  have hx : L.arith.IntExact (n : Int) :=
    L.arith.IntExact_of_le (Int.natCast_nonneg n) (by exact_mod_cast hn.le) hN
  show toInt L.arith (L.arith.ofInt n) = n
  rw [L.arith.ofInt_exact _ hx, toInt_intCast _ _ hx]

theorem Reshape_validRois (L : WholeImagePoolingLayer) (bottom0 top0 : Blob Dtype)
    (im_info : Option (Blob Dtype)) (hN : L.arith.IntExact bottom0.num) :
    ValidRois (Reshape_body L bottom0 top0 im_info).1 bottom0 := by
  intro n hn
  have hnum : (Reshape_body L bottom0 top0 im_info).1.bboxes_.num = bottom0.num :=
    (Reshape_body_shaped L bottom0 top0 im_info).1.2.2.2.1
  rw [hnum] at hn
  unfold ValidRoi
  rw [Reshape_batch_ind L bottom0 top0 im_info hN n hn]
  constructor
  · exact Int.natCast_nonneg n
  · exact_mod_cast hn

theorem Arith.mul_one_exact (A : Arith) (z : Int) (h : A.IntExact z) :
    A.mul (Dtype.fin (z : ℚ)) (Dtype.fin 1) = Dtype.fin (z : ℚ) := by
  have := A.mul_intCast z 1 (by rw [mul_one]; exact h)
  rw [mul_one, Int.cast_one] at this
  exact this

/-- With no side input and `spatial_scale_ = 1` region `n` is read as
`(n, 0, 0, W - 1, H - 1)`, when the arithmetic holds the batch size and the
extents exactly. -/
theorem Reshape_default_regionAt (L : WholeImagePoolingLayer) (bottom0 top0 : Blob Dtype)
    (hscale : L.spatial_scale_ = Dtype.fin 1) (hH : 1 ≤ bottom0.height)
    (hW : 1 ≤ bottom0.width) (hN : L.arith.IntExact bottom0.num)
    (hEH : L.arith.IntExact bottom0.height) (hEW : L.arith.IntExact bottom0.width)
    (n : Nat) (hn : n < bottom0.num) :
    regionAt (Reshape_body L bottom0 top0 none).1 0 n =
      { roi_batch_ind := n, roi_start_w := 0, roi_start_h := 0
        roi_end_w := (bottom0.width : Int) - 1, roi_end_h := (bottom0.height : Int) - 1 } := by
  have hb := Reshape_batch_ind L bottom0 top0 none hN n hn
  rw [Reshape_regionAt L bottom0 top0 none n hn] at hb ⊢
  simp only [] at hb
  rw [hb, hscale]
  unfold Reshape_x2 Reshape_y2
  simp only []
  have h1 : L.arith.IntExact ((bottom0.width : Int) - 1) :=
    L.arith.IntExact_of_le (by omega) (by omega) hEW
  have h2 : L.arith.IntExact ((bottom0.height : Int) - 1) :=
    L.arith.IntExact_of_le (by omega) (by omega) hEH
  have h0 := L.arith.mul_one_exact 0 L.arith.IntExact_zero
  have h0c := c_round_intCast 0
  have h0t := toInt_intCast L.arith 0 L.arith.IntExact_zero
  rw [L.arith.ofInt_exact _ L.arith.IntExact_zero, h0, h0c, h0t,
    L.arith.ofInt_exact _ h1, L.arith.ofInt_exact _ h2, L.arith.mul_one_exact _ h1,
    L.arith.mul_one_exact _ h2, c_round_intCast, c_round_intCast, toInt_intCast _ _ h1,
    toInt_intCast _ _ h2]

theorem floor_lt_ceil_of_lt {a b : ℚ} (h : a < b) : ⌊a⌋ < ⌈b⌉ := by
  have h1 : ((⌊a⌋ : Int) : ℚ) ≤ a := Int.floor_le a
  have h2 : b ≤ ((⌈b⌉ : Int) : ℚ) := Int.le_ceil b
  have h3 : ((⌊a⌋ : Int) : ℚ) < ((⌈b⌉ : Int) : ℚ) := by linarith
  exact_mod_cast h3

/-- The adaptive window of unit `(ph, pw)` lies inside the map and is not
empty. -/
theorem adaptiveBin_bounds (H W PH PW : Int) (ph pw : Int) (hH : 1 ≤ H) (hW : 1 ≤ W)
    (hph0 : 0 ≤ ph) (hph : ph < PH) (hpw0 : 0 ≤ pw) (hpw : pw < PW) :
    (0 ≤ (adaptiveBin H W PH PW ph pw).hstart ∧
        (adaptiveBin H W PH PW ph pw).hstart < (adaptiveBin H W PH PW ph pw).hend ∧
        (adaptiveBin H W PH PW ph pw).hend ≤ H) ∧
      (0 ≤ (adaptiveBin H W PH PW ph pw).wstart ∧
        (adaptiveBin H W PH PW ph pw).wstart < (adaptiveBin H W PH PW ph pw).wend ∧
        (adaptiveBin H W PH PW ph pw).wend ≤ W) := by
  have key : ∀ (X P p : Int), 1 ≤ X → 0 ≤ p → p < P →
      0 ≤ ⌊((p * X : Int) : ℚ) / (P : ℚ)⌋ ∧
        ⌊((p * X : Int) : ℚ) / (P : ℚ)⌋ < ⌈(((p + 1) * X : Int) : ℚ) / (P : ℚ)⌉ ∧
        ⌈(((p + 1) * X : Int) : ℚ) / (P : ℚ)⌉ ≤ X := by
    intro X P p hX hp0 hp
    have hP : (0 : ℚ) < (P : ℚ) := by exact_mod_cast (by omega : (0 : Int) < P)
    have hXq : (1 : ℚ) ≤ (X : ℚ) := by exact_mod_cast hX
    have hpq : (0 : ℚ) ≤ (p : ℚ) := by exact_mod_cast hp0
    have hpP : (p : ℚ) + 1 ≤ (P : ℚ) := by exact_mod_cast (by omega : p + 1 ≤ P)
    refine ⟨?_, ?_, ?_⟩
    · apply Int.floor_nonneg.mpr
      apply div_nonneg _ hP.le
      push_cast
      nlinarith
    · apply floor_lt_ceil_of_lt
      apply div_lt_div_of_pos_right _ hP
      push_cast
      nlinarith
    · apply Int.ceil_le.mpr
      rw [div_le_iff₀ hP]
      push_cast
      nlinarith
  unfold adaptiveBin
  exact ⟨key H PH ph hH hph0 hph, key W PW pw hW hpw0 hpw⟩

theorem Arith.ExactBins.intExact {A : Arith} {H W PH PW : Int}
    (h : A.ExactBins H W PH PW) : A.IntExact H ∧ A.IntExact W := by
  cases A
  · exact ⟨h.1, h.2.1⟩
  · exact ⟨h.1, h.2.1⟩
  · exact ⟨trivial, trivial⟩

theorem Arith.ExactBins.dvd {A : Arith} {H W PH PW : Int}
    (h : A.ExactBins H W PH PW) : A = .ideal ∨ (H % PH = 0 ∧ W % PW = 0) := by
  cases A
  · exact Or.inr h.2.2
  · exact Or.inr h.2.2
  · exact Or.inl rfl

/-- The product `p * (X / P)` of lines 128-135, for an extent `X` pooled to
`P` units, when the arithmetic is exact or `P` divides `X`: no rounding takes
place. -/
theorem bin_product_exact (A : Arith) (X P p : Int) (hX : 1 ≤ X) (hp0 : 0 ≤ p) (hp : p ≤ P)
    (hP : 1 ≤ P) (hE : A.IntExact X) (hd : A = .ideal ∨ X % P = 0) :
    A.mul (A.ofInt p) (A.div (A.ofInt X) (A.ofInt P)) =
      Dtype.fin ((p : ℚ) * ((X : ℚ) / (P : ℚ))) := by
  have hPq : (P : ℚ) ≠ 0 := by exact_mod_cast (by omega : P ≠ 0)
  rcases hd with rfl | hd
  · simp only [Arith.ofInt, Arith.round, Arith.div, Arith.mul, hPq, if_false]
  · obtain ⟨c, hc⟩ : ∃ c, X = c * P := ⟨X / P, by
      have := Int.ediv_add_emod X P
      rw [hd, add_zero] at this
      rw [mul_comm]; exact this.symm⟩
    have hc1 : 1 ≤ c := by
      by_contra hcon
      have : c * P ≤ 0 := mul_nonpos_of_nonpos_of_nonneg (by omega) (by omega)
      omega
    have hPX : P ≤ X := by
      rw [hc]
      nlinarith
    have hcX : c ≤ X := by
      rw [hc]
      nlinarith
    have hpc : p * c ≤ X := by
      rw [hc]
      nlinarith
    have e1 := A.ofInt_exact p (A.IntExact_of_le hp0 (le_trans hp hPX) hE)
    have e2 := A.ofInt_exact X hE
    have e3 := A.ofInt_exact P (A.IntExact_of_le (by omega) hPX hE)
    have e4 := A.div_intCast X P c (by omega) hc (A.IntExact_of_le (by omega) hcX hE)
    have e5 := A.mul_intCast p c (A.IntExact_of_le (mul_nonneg hp0 (by omega)) hpc hE)
    rw [e1, e2, e3, e4, e5]
    congr 1
    rw [hc]
    push_cast
    field_simp

/-- Conversion to `int` of the floor of a value whose floor the arithmetic
holds exactly. -/
theorem toInt_c_floor (A : Arith) (q : ℚ) (h : A.IntExact ⌊q⌋) :
    toInt A (c_floor (Dtype.fin q)) = ⌊q⌋ := by
  show toInt A (Dtype.fin ((⌊q⌋ : Int) : ℚ)) = ⌊q⌋
  exact toInt_intCast A _ h

theorem toInt_c_ceil (A : Arith) (q : ℚ) (h : A.IntExact ⌈q⌉) :
    toInt A (c_ceil (Dtype.fin q)) = ⌈q⌉ := by
  show toInt A (Dtype.fin ((⌈q⌉ : Int) : ℚ)) = ⌈q⌉
  exact toInt_intCast A _ h

/-- One side of the window of lines 128-140 for the default region, when the
arithmetic is exact or `P` divides `X`: the bounds of the adaptive window. -/
theorem default_side (A : Arith) (X P p : Int) (hX : 1 ≤ X) (hp0 : 0 ≤ p) (hp : p < P)
    (hE : A.IntExact X) (hd : A = .ideal ∨ X % P = 0) :
    A.wrap (toInt A (c_floor (A.mul (A.ofInt p)
        (A.div (A.ofInt (max (A.wrap (A.wrap (X - 1 - 0) + 1)) 1)) (A.ofInt P)))) + 0) =
      ⌊((p * X : Int) : ℚ) / (P : ℚ)⌋ ∧
    A.wrap (toInt A (c_ceil (A.mul (A.ofInt (p + 1))
        (A.div (A.ofInt (max (A.wrap (A.wrap (X - 1 - 0) + 1)) 1)) (A.ofInt P)))) + 0) =
      ⌈(((p + 1) * X : Int) : ℚ) / (P : ℚ)⌉ := by
  have hPq : (0 : ℚ) < (P : ℚ) := by exact_mod_cast (by omega : (0 : Int) < P)
  have hXq : (1 : ℚ) ≤ (X : ℚ) := by exact_mod_cast hX
  have hpq : (0 : ℚ) ≤ (p : ℚ) := by exact_mod_cast hp0
  have hpP : (p : ℚ) + 1 ≤ (P : ℚ) := by exact_mod_cast (by omega : p + 1 ≤ P)
  have hr := A.IntExact_int hE
  have hr1 : A = .ideal ∨ (INT_MIN ≤ X - 1 - 0 ∧ X - 1 - 0 ≤ INT_MAX) := by
    rcases hr with h | h
    · exact Or.inl h
    · right; unfold INT_MIN INT_MAX at *; omega
  rw [A.wrap_exact _ hr1, show X - 1 - 0 + 1 = X by ring, A.wrap_exact _ hr, max_eq_left hX,
    bin_product_exact A X P p hX hp0 hp.le (by omega) hE hd,
    bin_product_exact A X P (p + 1) hX (by omega) (by omega) (by omega) hE hd]
  have ef : (p : ℚ) * ((X : ℚ) / (P : ℚ)) = ((p * X : Int) : ℚ) / (P : ℚ) := by
    push_cast; ring
  have ec : ((p + 1 : Int) : ℚ) * ((X : ℚ) / (P : ℚ)) = (((p + 1) * X : Int) : ℚ) / (P : ℚ) := by
    push_cast; ring
  rw [ef, ec]
  have f0 : 0 ≤ ⌊((p * X : Int) : ℚ) / (P : ℚ)⌋ := by
    apply Int.floor_nonneg.mpr
    apply div_nonneg _ hPq.le
    push_cast
    nlinarith
  have f1 : ⌊((p * X : Int) : ℚ) / (P : ℚ)⌋ ≤ X := by
    have h1 : ((⌊((p * X : Int) : ℚ) / (P : ℚ)⌋ : Int) : ℚ) ≤ ((p * X : Int) : ℚ) / (P : ℚ) :=
      Int.floor_le _
    have h2 : ((p * X : Int) : ℚ) / (P : ℚ) ≤ (X : ℚ) := by
      rw [div_le_iff₀ hPq]
      push_cast
      nlinarith
    exact_mod_cast le_trans h1 h2
  have c0 : 0 ≤ ⌈(((p + 1) * X : Int) : ℚ) / (P : ℚ)⌉ := by
    apply Int.ceil_nonneg
    apply div_nonneg _ hPq.le
    push_cast
    nlinarith
  have c1 : ⌈(((p + 1) * X : Int) : ℚ) / (P : ℚ)⌉ ≤ X := by
    apply Int.ceil_le.mpr
    rw [div_le_iff₀ hPq]
    push_cast
    nlinarith
  have ge1 := A.IntExact_of_le f0 f1 hE
  have ge2 := A.IntExact_of_le c0 c1 hE
  rw [toInt_c_floor A _ ge1, toInt_c_ceil A _ ge2, add_zero, add_zero,
    A.wrap_exact _ (A.IntExact_int ge1), A.wrap_exact _ (A.IntExact_int ge2)]
  exact ⟨rfl, rfl⟩

/-- With no side input and `spatial_scale_ = 1`, the window `Forward_cpu`
computes for a unit is the adaptive window, before clamping and after it, when
the arithmetic computes the bins exactly. -/
theorem default_cellBin (L : WholeImagePoolingLayer) (bottom0 top0 : Blob Dtype)
    (hscale : L.spatial_scale_ = Dtype.fin 1) (hH : 1 ≤ bottom0.height)
    (hW : 1 ≤ bottom0.width) (hN : L.arith.IntExact bottom0.num)
    (hA : L.arith.ExactBins bottom0.height bottom0.width L.pooled_height_ L.pooled_width_)
    (n ph pw : Nat) (hn : n < bottom0.num)
    (hph : (ph : Int) < L.pooled_height_) (hpw : (pw : Int) < L.pooled_width_) :
    rawBin L.arith (regionAt (Reshape_body L bottom0 top0 none).1 0 n).roi_start_h
        (regionAt (Reshape_body L bottom0 top0 none).1 0 n).roi_start_w
        (bin_size_h (Reshape_body L bottom0 top0 none).1
          (regionAt (Reshape_body L bottom0 top0 none).1 0 n))
        (bin_size_w (Reshape_body L bottom0 top0 none).1
          (regionAt (Reshape_body L bottom0 top0 none).1 0 n)) ph pw =
      adaptiveBin bottom0.height bottom0.width L.pooled_height_ L.pooled_width_ ph pw ∧
    cellBin (Reshape_body L bottom0 top0 none).1 n ph pw =
      adaptiveBin bottom0.height bottom0.width L.pooled_height_ L.pooled_width_ ph pw := by
  obtain ⟨hEH, hEW⟩ := hA.intExact
  have hraw : rawBin L.arith (regionAt (Reshape_body L bottom0 top0 none).1 0 n).roi_start_h
        (regionAt (Reshape_body L bottom0 top0 none).1 0 n).roi_start_w
        (bin_size_h (Reshape_body L bottom0 top0 none).1
          (regionAt (Reshape_body L bottom0 top0 none).1 0 n))
        (bin_size_w (Reshape_body L bottom0 top0 none).1
          (regionAt (Reshape_body L bottom0 top0 none).1 0 n)) ph pw =
      adaptiveBin bottom0.height bottom0.width L.pooled_height_ L.pooled_width_ ph pw := by
    obtain ⟨-, hp1, hp2, -⟩ := Reshape_body_shaped L bottom0 top0 none
    rw [Reshape_default_regionAt L bottom0 top0 hscale hH hW hN hEH hEW n hn]
    unfold rawBin adaptiveBin bin_size_h bin_size_w
    simp only [hp1, hp2, Reshape_body_arith]
    have hdh : L.arith = .ideal ∨ (bottom0.height : Int) % L.pooled_height_ = 0 := by
      rcases hA.dvd with h | h
      · exact Or.inl h
      · exact Or.inr h.1
    have hdw : L.arith = .ideal ∨ (bottom0.width : Int) % L.pooled_width_ = 0 := by
      rcases hA.dvd with h | h
      · exact Or.inl h
      · exact Or.inr h.2
    obtain ⟨s1, s2⟩ := default_side L.arith bottom0.height L.pooled_height_ ph
      (by exact_mod_cast hH) (Int.natCast_nonneg ph) hph hEH hdh
    obtain ⟨s3, s4⟩ := default_side L.arith bottom0.width L.pooled_width_ pw
      (by exact_mod_cast hW) (Int.natCast_nonneg pw) hpw hEW hdw
    rw [s1, s2, s3, s4]
  refine ⟨hraw, ?_⟩
  unfold cellBin
  rw [Reshape_body_arith, hraw]
  obtain ⟨⟨a1, a2, a3⟩, ⟨b1, b2, b3⟩⟩ := adaptiveBin_bounds bottom0.height bottom0.width
    L.pooled_height_ L.pooled_width_ ph pw (by exact_mod_cast hH) (by exact_mod_cast hW)
    (Int.natCast_nonneg ph) hph (Int.natCast_nonneg pw) hpw
  have hsh := (Reshape_body_shaped L bottom0 top0 none).1.1
  unfold clampBin
  rw [hsh.2.1, hsh.2.2]
  have c1 : (0 : Int) ≤ (adaptiveBin bottom0.height bottom0.width L.pooled_height_
      L.pooled_width_ ph pw).hend := by omega
  have c2 : (0 : Int) ≤ (adaptiveBin bottom0.height bottom0.width L.pooled_height_
      L.pooled_width_ ph pw).wend := by omega
  rw [max_eq_left a1, max_eq_left c1, max_eq_left b1, max_eq_left c2,
    min_eq_left (by omega), min_eq_left a3, min_eq_left (by omega), min_eq_left b3]

/-- A return of `Reshape` is the work of `Reshape_body`, on the side input
if there is one. -/
theorem Reshape_ok_body (L : WholeImagePoolingLayer) (bottom0 top0 : Blob Dtype)
    (bottomRest : List (Blob Dtype)) (r : WholeImagePoolingLayer × Blob Dtype)
    (hR : Reshape L bottom0 bottomRest top0 = .ok r) :
    ∃ im_info, r = Reshape_body L bottom0 top0 im_info := by
  unfold Reshape at hR
  split at hR
  · split_ifs at hR
    exact ⟨_, (Except.ok.inj hR).symm⟩
  · exact ⟨none, (Except.ok.inj hR).symm⟩

/-! ## Clamped windows lie inside the map -/

/-- The clamping of lines 137-140 puts all four bounds inside the map. -/
theorem clampBin_bounds (height_ width_ : Int) (hH : 0 ≤ height_) (hW : 0 ≤ width_) (b : Bin) :
    (0 ≤ (clampBin height_ width_ b).hstart ∧ (clampBin height_ width_ b).hstart ≤ height_) ∧
      (0 ≤ (clampBin height_ width_ b).hend ∧ (clampBin height_ width_ b).hend ≤ height_) ∧
      (0 ≤ (clampBin height_ width_ b).wstart ∧ (clampBin height_ width_ b).wstart ≤ width_) ∧
      (0 ≤ (clampBin height_ width_ b).wend ∧ (clampBin height_ width_ b).wend ≤ width_) := by
  unfold clampBin
  simp only []
  refine ⟨⟨?_, ?_⟩, ⟨?_, ?_⟩, ⟨?_, ?_⟩, ⟨?_, ?_⟩⟩
  · exact le_min (le_max_right _ _) hH
  · exact min_le_right _ _
  · exact le_min (le_max_right _ _) hH
  · exact min_le_right _ _
  · exact le_min (le_max_right _ _) hW
  · exact min_le_right _ _
  · exact le_min (le_max_right _ _) hW
  · exact min_le_right _ _

/-- A position of a clamped window has its coordinates and its flat index
inside the map. -/
theorem clampBin_mem (height_ width_ : Int) (hH : 0 ≤ height_) (hW : 0 ≤ width_) (b : Bin)
    (h w : Int) (hm : (clampBin height_ width_ b).Mem h w) :
    (0 ≤ h ∧ h < height_) ∧ (0 ≤ w ∧ w < width_) ∧
      0 ≤ h * width_ + w ∧ h * width_ + w < height_ * width_ := by
  obtain ⟨⟨a1, -⟩, ⟨-, a2⟩, ⟨b1, -⟩, ⟨-, b2⟩⟩ := clampBin_bounds height_ width_ hH hW b
  unfold Bin.Mem at hm
  have h0 : 0 ≤ h := by omega
  have h1 : h < height_ := by omega
  have w0 : 0 ≤ w := by omega
  have w1 : w < width_ := by omega
  refine ⟨⟨h0, h1⟩, ⟨w0, w1⟩, ?_, ?_⟩
  · have := mul_nonneg h0 hW
    omega
  · have h2 : (h + 1) * width_ ≤ height_ * width_ :=
      mul_le_mul_of_nonneg_right (by omega) hW
    have h3 : (h + 1) * width_ = h * width_ + width_ := by ring
    omega

/-- The window of a unit lies inside the map the layer was shaped for. -/
theorem cellBin_mem (L : WholeImagePoolingLayer) (bottom0 top0 : Blob Dtype)
    (hS : Shaped L bottom0 top0) (n ph pw : Nat) (h w : Int)
    (hm : (cellBin L n ph pw).Mem h w) :
    (0 ≤ h ∧ h < bottom0.height) ∧ (0 ≤ w ∧ w < bottom0.width) ∧
      0 ≤ h * bottom0.width + w ∧
      h * bottom0.width + w < (bottom0.height : Int) * bottom0.width := by
  obtain ⟨⟨-, e1, e2⟩, -⟩ := hS
  unfold cellBin at hm
  rw [e1, e2] at hm
  exact clampBin_mem _ _ (Int.natCast_nonneg _) (Int.natCast_nonneg _) _ h w hm

theorem offset_add (bottom0 : Blob Dtype) (n c h w : Int) :
    bottom0.offset n c 0 0 + (h * bottom0.width + w) = bottom0.offset n c h w := by
  unfold Blob.offset; ring

/-- The pair every unit ends with: `Forward_cpu` returns, and the pair is
`(0, -1)` on an empty window and in `ScanPost` from the seeds otherwise. -/
theorem forward_pair (L : WholeImagePoolingLayer) (bottom0 top0 : Blob Dtype)
    (hS : Shaped L bottom0 top0) (hV : ValidRois L bottom0) (n c ph pw : Nat)
    (hn : n < bottom0.num) (hc : c < bottom0.channels)
    (hph : ph < L.pooled_height_.toNat) (hpw : pw < L.pooled_width_.toNat) :
    ∃ s, Forward_cpu L bottom0 top0 = .ok s ∧
      (((cellBin L n ph pw).hend ≤ (cellBin L n ph pw).hstart ∨
          (cellBin L n ph pw).wend ≤ (cellBin L n ph pw).wstart) →
        (s.top_mem (top0.offset n c ph pw), s.max_idx_mem (L.max_idx_.offset n c ph pw)) =
          (0, -1)) ∧
      (((cellBin L n ph pw).hstart < (cellBin L n ph pw).hend ∧
          (cellBin L n ph pw).wstart < (cellBin L n ph pw).wend) →
        ScanPost
          (fun h w => bottom0.data (bottom0.offset (regionAt L 0 n).roi_batch_ind c h w))
          bottom0.width (cellBin L n ph pw).Mem (-FLT_MAX, -1)
          (s.top_mem (top0.offset n c ph pw),
            s.max_idx_mem (L.max_idx_.offset n c ph pw))) := by
  refine ⟨_, Forward_cpu_eq_ok L bottom0 top0 hS hV, fun hE => ?_, fun hN => ?_⟩
  · rw [forward_cell L bottom0 top0 hS n c ph pw hn hc hph hpw]
    unfold outCell
    exact cellValue_empty L _ _ _ _ _ _ _ _ _ hE
  · rw [forward_cell L bottom0 top0 hS n c ph pw hn hc hph hpw]
    exact outCell_post L bottom0 top0 hS n c ph pw hN

/-- A pair in `ScanPost` from the seeds over a window of non-negative
coordinates, with `W >= 0`: the argmax is the seed -1 exactly when no value of
the window is above `-FLT_MAX`, and then the value is the seed `-FLT_MAX`;
otherwise the argmax is the flat index of a position of the window that holds
the value. -/
theorem ScanPost.seed_cases {F : Int → Int → Dtype} {W : Int} {b : Bin} {v : Dtype} {a : Int}
    (hp : ScanPost F W b.Mem (-FLT_MAX, -1) (v, a)) (hW : 0 ≤ W)
    (hpos : ∀ h w, b.Mem h w → 0 ≤ h ∧ 0 ≤ w) :
    (a = -1 ↔ ¬ ∃ h w, b.Mem h w ∧ -FLT_MAX < F h w) ∧
      (a = -1 → v = -FLT_MAX) ∧
      (a ≠ -1 → ∃ h w, b.Mem h w ∧ a = h * W + w ∧ F h w = v) := by
  obtain ⟨-, h2, h3⟩ := hp
  rcases h3 with h3 | ⟨h, w, hm, he, hlt, -⟩
  · have hv : v = -FLT_MAX := congrArg Prod.fst h3
    have ha : a = -1 := congrArg Prod.snd h3
    refine ⟨⟨fun _ => ?_, fun _ => ha⟩, fun _ => hv, fun hne => absurd ha hne⟩
    rintro ⟨h, w, hm, hlt⟩
    have := h2 h w hm
    rw [hv] at this
    exact absurd hlt this
  · have hv : v = F h w := congrArg Prod.fst he
    have ha : a = h * W + w := congrArg Prod.snd he
    have hne : a ≠ -1 := by
      obtain ⟨p1, p2⟩ := hpos h w hm
      have := mul_nonneg p1 hW
      omega
    refine ⟨⟨fun h1 => absurd h1 hne, fun hno => absurd ⟨h, w, hm, hlt⟩ hno⟩,
      fun h1 => absurd h1 hne, fun _ => ⟨h, w, hm, ha, hv.symm⟩⟩

/-! ## Where the reads fall -/

theorem scanElem_reads_at (G : Nat × Int → Prop) (width_ : Int) (bottom_data : Int → Dtype)
    (n : Nat) (batch_data pool_index h w : Int) (s : FwdState)
    (hG : G (n, batch_data + (h * width_ + w))) (hs : ReadsOk G s) :
    ReadsOk G (scanElem width_ bottom_data n batch_data pool_index h w s) := by
  intro r hr
  unfold scanElem at hr
  simp only [] at hr
  split_ifs at hr
  all_goals
    simp only [List.mem_cons] at hr
    rcases hr with rfl | hr
    · exact hG
    · exact hs r hr

/-- The pass for one output unit logs reads at positions of its clamped
window only. -/
theorem poolCell_reads_in (G : Nat × Int → Prop) (L : WholeImagePoolingLayer)
    (bottom_data : Int → Dtype) (n : Nat) (batch_data roi_start_h roi_start_w : Int)
    (bin_size_h bin_size_w : Dtype) (ph pw : Int) (s : FwdState)
    (hG : ∀ h w, (clampBin L.height_ L.width_
        (rawBin L.arith roi_start_h roi_start_w bin_size_h bin_size_w ph pw)).Mem h w →
      G (n, batch_data + (h * L.width_ + w)))
    (hs : ReadsOk G s) :
    ReadsOk G (poolCell L bottom_data n batch_data roi_start_h roi_start_w
      bin_size_h bin_size_w ph pw s) := by
  unfold poolCell forRange
  simp only []
  apply forLoop_inv _ (fun _ t => ReadsOk G t)
  · split_ifs
    · exact hs
    · exact hs
  · intro i hi t ht
    apply forLoop_inv _ (fun _ t => ReadsOk G t) _ _ ht
    intro j hj u hu
    apply scanElem_reads_at G _ _ _ _ _ _ _ _ _ hu
    apply hG
    unfold Bin.Mem
    omega

/-- The `ph` and `pw` loops log reads at flat indices inside the slice only. -/
theorem poolGrid_reads_in (G : Nat × Int → Prop) (L : WholeImagePoolingLayer)
    (hH : 0 ≤ L.height_) (hW : 0 ≤ L.width_)
    (bottom_data : Int → Dtype) (n : Nat) (batch_data roi_start_h roi_start_w : Int)
    (bin_size_h bin_size_w : Dtype) (s : FwdState)
    (hG : ∀ idx : Int, 0 ≤ idx → idx < L.height_ * L.width_ → G (n, batch_data + idx))
    (hs : ReadsOk G s) :
    ReadsOk G (poolGrid L bottom_data n batch_data roi_start_h roi_start_w
      bin_size_h bin_size_w s) := by
  unfold poolGrid
  apply forLoop_inv _ (fun _ t => ReadsOk G t) _ _ hs
  intro i _ t ht
  apply forLoop_inv _ (fun _ t => ReadsOk G t) _ _ ht
  intro j _ u hu
  apply poolCell_reads_in G L _ _ _ _ _ _ _ _ _ _ _ hu
  intro h w hm
  obtain ⟨-, -, i0, i1⟩ := clampBin_mem L.height_ L.width_ hH hW _ h w hm
  exact hG _ i0 i1

/-- The region loop body past its checks logs reads inside the slices of the
image its region names, one slice per channel. -/
theorem poolRoiBody_reads_in (G : Nat × Int → Prop) (L : WholeImagePoolingLayer)
    (hH : 0 ≤ L.height_) (hW : 0 ≤ L.width_)
    (bottom0 top0 : Blob Dtype) (n : Nat) (s : FwdState)
    (hG : ∀ c : Nat, c < L.channels_.toNat → ∀ idx : Int, 0 ≤ idx →
      idx < L.height_ * L.width_ →
      G (n, bottom0.offset (readRoi L s.bottom_rois).roi_batch_ind 0 0 0 +
        (c : Int) * bottom0.offset 0 1 0 0 + idx))
    (hs : ReadsOk G s) :
    ReadsOk G (poolRoiBody L bottom0 top0 n s) := by
  have hinv := forLoop_inv
    (poolChannel L bottom0 top0 n (readRoi L s.bottom_rois).roi_start_h
      (readRoi L s.bottom_rois).roi_start_w (bin_size_h L (readRoi L s.bottom_rois))
      (bin_size_w L (readRoi L s.bottom_rois)))
    (fun i (t : Int × FwdState) => ReadsOk G t.2 ∧
      t.1 = bottom0.offset (readRoi L s.bottom_rois).roi_batch_ind 0 0 0 +
        (i : Int) * bottom0.offset 0 1 0 0)
    L.channels_.toNat
    (bottom0.offset (readRoi L s.bottom_rois).roi_batch_ind 0 0 0, s)
    ⟨hs, by simp⟩
    (fun i hi t ht => by
      refine ⟨?_, ?_⟩
      · exact poolGrid_reads_in G L hH hW bottom0.data n t.1
          (readRoi L s.bottom_rois).roi_start_h (readRoi L s.bottom_rois).roi_start_w
          (bin_size_h L (readRoi L s.bottom_rois)) (bin_size_w L (readRoi L s.bottom_rois))
          t.2 (fun idx i0 i1 => by rw [ht.2]; exact hG i hi idx i0 i1) ht.1
      · unfold poolChannel
        simp only [ht.2]
        push_cast
        ring)
  unfold poolRoiBody
  exact hinv.1

/-- The region loop with its checks, run `i` times from the seeds: every
logged read is in `ReadInSlice`, whether the loop returns or aborts. -/
theorem roiLoopM_reads_in (L : WholeImagePoolingLayer) (hH : 0 ≤ L.height_)
    (hW : 0 ≤ L.width_) (bottom0 top0 : Blob Dtype) (i : Nat) :
    (∀ s, forLoopM (poolRoi L bottom0 top0) i (seedState L top0) = .ok s →
      s.bottom_rois = 0 + (i : Int) * L.bboxes_.offset 1 0 0 0 ∧
        ReadsOk (ReadInSlice L bottom0) s) ∧
    (∀ e s, forLoopM (poolRoi L bottom0 top0) i (seedState L top0) = .error (e, s) →
      ReadsOk (ReadInSlice L bottom0) s) := by
  induction i with
  | zero =>
    refine ⟨fun s hs => ?_, fun e s hs => by cases hs⟩
    cases hs
    refine ⟨by simp [seedState], ?_⟩
    intro r hr
    simp [seedState] at hr
  | succ i ih =>
    rw [forLoopM]
    cases hprev : forLoopM (poolRoi L bottom0 top0) i (seedState L top0) with
    | error es =>
      obtain ⟨e0, s0⟩ := es
      refine ⟨fun s hs => (by cases hs), fun e s hs => ?_⟩
      simp only [Except.error.injEq, Prod.mk.injEq] at hs
      obtain ⟨rfl, rfl⟩ := hs
      exact ih.2 e0 s0 hprev
    | ok s1 =>
      obtain ⟨hbr, hreads⟩ := ih.1 s1 hprev
      have hreg : readRoi L s1.bottom_rois = regionAt L 0 i := by
        unfold regionAt; rw [hbr]
      simp only []
      unfold poolRoi
      simp only [hreg]
      by_cases h0 : (regionAt L 0 i).roi_batch_ind ≥ 0
      · by_cases h1 : (regionAt L 0 i).roi_batch_ind < (bottom0.num : Int)
        · simp only [h0, h1, not_true_eq_false, if_false]
          refine ⟨fun s hs => ?_, fun e s hs => by cases hs⟩
          cases hs
          have hb := poolRoiBody_reads_in (ReadInSlice L bottom0) L hH hW bottom0 top0 i s1
            (fun c hc idx i0 i1 => by
              rw [hreg]
              refine ⟨⟨h0, h1⟩, c, hc, idx, i0, i1, ?_⟩
              unfold Blob.offset
              ring) hreads
          have hp := (poolRoiBody_reads (fun _ => True) L bottom0 top0 i s1
            (fun _ => trivial) (fun _ _ => trivial)).2
          refine ⟨?_, hb⟩
          rw [hp, hbr]; push_cast; ring
        · simp only [h0, h1, not_true_eq_false, not_false_eq_true, if_false, if_true]
          refine ⟨fun s hs => (by cases hs), fun e s hs => ?_⟩
          simp only [Except.error.injEq, Prod.mk.injEq] at hs
          obtain ⟨rfl, rfl⟩ := hs
          exact hreads
      · simp only [h0, not_false_eq_true, if_true]
        refine ⟨fun s hs => (by cases hs), fun e s hs => ?_⟩
        simp only [Except.error.injEq, Prod.mk.injEq] at hs
        obtain ⟨rfl, rfl⟩ := hs
        exact hreads

/-- Every read `Forward_cpu` logs, whether it returns or aborts, is in
`ReadInSlice`. -/
theorem Forward_cpu_reads_in (L : WholeImagePoolingLayer) (hH : 0 ≤ L.height_)
    (hW : 0 ≤ L.width_) (bottom0 top0 : Blob Dtype) :
    ReadsOk (ReadInSlice L bottom0) (finalState (Forward_cpu L bottom0 top0)) := by
  unfold Forward_cpu
  by_cases hne : (L.bboxes_.num : Int) ≠ (bottom0.num : Int)
  · rw [if_pos hne]
    intro r hr
    simp [finalState] at hr
  · rw [if_neg hne]
    change ReadsOk _ (finalState
      (forLoopM (poolRoi L bottom0 top0) L.bboxes_.num (seedState L top0)))
    have hl := roiLoopM_reads_in L hH hW bottom0 top0 L.bboxes_.num
    cases hres : forLoopM (poolRoi L bottom0 top0) L.bboxes_.num (seedState L top0) with
    | ok s => exact (hl.1 s hres).2
    | error es =>
      obtain ⟨e, s⟩ := es
      exact hl.2 e s hres

/-- An index inside slice `(b, c)` is an offset inside the buffer of the
feature map. -/
theorem slice_in_count (bottom0 : Blob Dtype) (b : Int) (c : Nat) (idx : Int)
    (hb0 : 0 ≤ b) (hb1 : b < bottom0.num) (hc : c < bottom0.channels)
    (i0 : 0 ≤ idx) (i1 : idx < (bottom0.height : Int) * bottom0.width) :
    0 ≤ bottom0.offset b c 0 0 + idx ∧ bottom0.offset b c 0 0 + idx < bottom0.count := by
  have hC : (0 : Int) ≤ (bottom0.channels : Int) := Int.natCast_nonneg _
  have hHW : (0 : Int) ≤ (bottom0.height : Int) * bottom0.width := by positivity
  have hc' : (c : Int) + 1 ≤ (bottom0.channels : Int) := by exact_mod_cast hc
  have hK0 : (0 : Int) ≤ b * bottom0.channels + c := by
    have := mul_nonneg hb0 hC
    have : (0 : Int) ≤ (c : Int) := Int.natCast_nonneg _
    omega
  have hK1 : b * bottom0.channels + c + 1 ≤ (bottom0.num : Int) * bottom0.channels := by
    have h1 : (b + 1) * (bottom0.channels : Int) ≤ (bottom0.num : Int) * bottom0.channels :=
      mul_le_mul_of_nonneg_right (by omega) hC
    have h2 : (b + 1) * (bottom0.channels : Int) = b * bottom0.channels + bottom0.channels := by
      ring
    omega
  have e1 : bottom0.offset b c 0 0 =
      (b * bottom0.channels + c) * ((bottom0.height : Int) * bottom0.width) := by
    unfold Blob.offset; ring
  have e2 : bottom0.count =
      ((bottom0.num : Int) * bottom0.channels) * ((bottom0.height : Int) * bottom0.width) := by
    unfold Blob.count; ring
  have h3 := mul_nonneg hK0 hHW
  have h4 := mul_le_mul_of_nonneg_right hK1 hHW
  have h5 : (b * bottom0.channels + c + 1) * ((bottom0.height : Int) * bottom0.width) =
      (b * bottom0.channels + c) * ((bottom0.height : Int) * bottom0.width) +
        (bottom0.height : Int) * bottom0.width := by ring
  rw [e1, e2]
  constructor <;> omega

/-! ## What a pass depends on, and where it writes -/

/-- An offset below `K * S` is `i * S + r` with `i < K` and `r < S`. -/
theorem split_index (x S K : Int) (hS : 0 < S) (h0 : 0 ≤ x) (h1 : x < K * S) :
    ∃ i r : Nat, (i : Int) < K ∧ (r : Int) < S ∧ x = (i : Int) * S + r := by
  have hq0 : 0 ≤ x / S := Int.ediv_nonneg h0 hS.le
  have hq1 : x / S < K := Int.ediv_lt_of_lt_mul hS h1
  have hr0 : 0 ≤ x % S := Int.emod_nonneg x hS.ne'
  have hr1 : x % S < S := Int.emod_lt_of_pos x hS
  have hx : S * (x / S) + x % S = x := Int.ediv_add_emod x S
  refine ⟨(x / S).toNat, (x % S).toNat, ?_, ?_, ?_⟩
  · rw [Int.toNat_of_nonneg hq0]; exact hq1
  · rw [Int.toNat_of_nonneg hr0]; exact hr1
  · rw [Int.toNat_of_nonneg hq0, Int.toNat_of_nonneg hr0]
    linarith [mul_comm S (x / S)]

/-- Every offset inside `top[0]` is the offset of a unit `(n, c, ph, pw)`. -/
theorem Shaped.unit_of_offset {L : WholeImagePoolingLayer} {bottom0 top0 : Blob Dtype}
    (h : Shaped L bottom0 top0) (x : Int) (h0 : 0 ≤ x) (h1 : x < top0.count) :
    ∃ n c ph pw : Nat, n < bottom0.num ∧ c < bottom0.channels ∧
      ph < L.pooled_height_.toNat ∧ pw < L.pooled_width_.toNat ∧
      x = top0.offset n c ph pw := by
  obtain ⟨-, ⟨t1, t2, t3, t4⟩, -, -⟩ := h
  have hcount : top0.count = (bottom0.num : Int) *
      ((bottom0.channels : Int) * ((L.pooled_height_.toNat : Int) *
        (L.pooled_width_.toNat : Int))) := by
    unfold Blob.count; rw [t1, t2, t3, t4]; ring
  rw [hcount] at h1
  have hN : (0 : Int) ≤ (bottom0.num : Int) := Int.natCast_nonneg _
  have hC : (0 : Int) ≤ (bottom0.channels : Int) := Int.natCast_nonneg _
  have hPH : (0 : Int) ≤ (L.pooled_height_.toNat : Int) := Int.natCast_nonneg _
  have hPW : (0 : Int) ≤ (L.pooled_width_.toNat : Int) := Int.natCast_nonneg _
  have hG0 : (0 : Int) ≤ (L.pooled_height_.toNat : Int) * (L.pooled_width_.toNat : Int) :=
    mul_nonneg hPH hPW
  have hR0 : (0 : Int) ≤ (bottom0.channels : Int) * ((L.pooled_height_.toNat : Int) *
      (L.pooled_width_.toNat : Int)) := mul_nonneg hC hG0
  have hR : (0 : Int) < (bottom0.channels : Int) * ((L.pooled_height_.toNat : Int) *
      (L.pooled_width_.toNat : Int)) := by
    rcases hR0.lt_or_eq with hlt | heq
    · exact hlt
    · rw [← heq, mul_zero] at h1; omega
  have hG : (0 : Int) < (L.pooled_height_.toNat : Int) * (L.pooled_width_.toNat : Int) := by
    rcases hG0.lt_or_eq with hlt | heq
    · exact hlt
    · rw [← heq, mul_zero] at hR; omega
  have hW : (0 : Int) < (L.pooled_width_.toNat : Int) := by
    rcases hPW.lt_or_eq with hlt | heq
    · exact hlt
    · rw [← heq, mul_zero] at hG; omega
  obtain ⟨n, r1, hn, hr1, e1⟩ := split_index x _ _ hR h0 h1
  obtain ⟨c, r2, hc, hr2, e2⟩ := split_index r1 _ _ hG (Int.natCast_nonneg _) hr1
  obtain ⟨ph, pw, hph, hpw, e3⟩ := split_index r2 _ _ hW (Int.natCast_nonneg _) hr2
  refine ⟨n, c, ph, pw, by exact_mod_cast hn, by exact_mod_cast hc, by exact_mod_cast hph,
    by exact_mod_cast hpw, ?_⟩
  unfold Blob.offset
  rw [t2, t3, t4, e1, e2, e3]
  ring

/-- The buffers of `top[0]` and `max_idx_` after the region loop, place by
place: outside `top[0]` they are as before the call; inside, each place is a
unit `(n, c, ph, pw)` and holds `outCell` of it. -/
theorem forward_mem (L : WholeImagePoolingLayer) (bottom0 top0 : Blob Dtype)
    (hS : Shaped L bottom0 top0) :
    (∀ x : Int, (x < 0 ∨ top0.count ≤ x) →
      (forLoop (poolRoiBody L bottom0 top0) L.bboxes_.num (seedState L top0)).top_mem x =
          top0.data x ∧
        (forLoop (poolRoiBody L bottom0 top0) L.bboxes_.num (seedState L top0)).max_idx_mem x =
          L.max_idx_.data x) ∧
    (∀ x : Int, 0 ≤ x → x < top0.count →
      ∃ n c ph pw : Nat, n < bottom0.num ∧ c < bottom0.channels ∧
        ph < L.pooled_height_.toNat ∧ pw < L.pooled_width_.toNat ∧
        ((forLoop (poolRoiBody L bottom0 top0) L.bboxes_.num (seedState L top0)).top_mem x,
          (forLoop (poolRoiBody L bottom0 top0) L.bboxes_.num
            (seedState L top0)).max_idx_mem x) = outCell L bottom0 n c ph pw) := by
  have hC := hS.channels_toNat
  have hnum : L.bboxes_.num = bottom0.num := hS.2.2.2.1
  have hcount : top0.count = (L.bboxes_.num : Int) * roiSize L := by
    obtain ⟨-, ⟨t1, t2, t3, t4⟩, -, -⟩ := hS
    unfold Blob.count roiSize gridSize
    rw [t1, t2, t3, t4, hC, hnum]; ring
  constructor
  · intro x hx
    have hv := (roiLoop_view L bottom0 top0 hS.top_stride hS.argmax_stride L.bboxes_.num 0 0 0
      (seedState L top0) (seedState_ptrs L top0)).2.1 x (by rw [← hcount]; exact hx)
    simp only [viewAt, zero_add] at hv
    have h1 := congrArg Prod.fst hv
    have h2 := congrArg Prod.snd hv
    simp only [] at h1 h2
    rw [h1, h2]
    unfold seedState caffe_set
    simp only []
    rw [if_neg (by omega), if_neg (by omega)]
    exact ⟨rfl, rfl⟩
  · intro x h0 h1
    obtain ⟨n, c, ph, pw, hn, hc, hph, hpw, hx⟩ := hS.unit_of_offset x h0 h1
    refine ⟨n, c, ph, pw, hn, hc, hph, hpw, ?_⟩
    have hcell := forward_cell L bottom0 top0 hS n c ph pw hn hc hph hpw
    obtain ⟨e1, e2, -, -⟩ := hS.offset_eq n c ph pw hn hc hph hpw
    rw [e2, ← e1, ← hx] at hcell
    exact hcell

/-- A return of `Forward_cpu` on a shaped layer: the regions are valid and
the state is the one the region loop reaches from the seeds. -/
theorem Forward_cpu_ok_inv (L : WholeImagePoolingLayer) (bottom0 top0 : Blob Dtype)
    (hS : Shaped L bottom0 top0) (s : FwdState) (hs : Forward_cpu L bottom0 top0 = .ok s) :
    ValidRois L bottom0 ∧
      s = forLoop (poolRoiBody L bottom0 top0) L.bboxes_.num (seedState L top0) := by
  have hnum : L.bboxes_.num = bottom0.num := hS.2.2.2.1
  have hV : ValidRois L bottom0 := by
    have hs2 := hs
    unfold Forward_cpu at hs2
    have hne : ¬ ((L.bboxes_.num : Int) ≠ (bottom0.num : Int)) := by
      rw [hnum]; simp
    rw [if_neg hne] at hs2
    exact fun n hn => ((roiLoopM_reads L bottom0 top0 L.bboxes_.num).1 s hs2).2.2 n hn
  refine ⟨hV, ?_⟩
  rw [Forward_cpu_eq_ok L bottom0 top0 hS hV] at hs
  exact (Except.ok.inj hs).symm

/-- Inside `top[0]`, what the region loop leaves does not depend on what the
buffers of `top[0]` and `max_idx_` held before the call. -/
theorem forward_prior_indep (L : WholeImagePoolingLayer) (bottom0 top0 : Blob Dtype)
    (hS : Shaped L bottom0 top0) (d1 : Int → Dtype) (d2 : Int → Int) (x : Int)
    (h0 : 0 ≤ x) (h1 : x < top0.count) :
    (forLoop (poolRoiBody (withMaxIdx L d2) bottom0 (top0.withData d1))
        (withMaxIdx L d2).bboxes_.num (seedState (withMaxIdx L d2) (top0.withData d1))).top_mem x =
      (forLoop (poolRoiBody L bottom0 top0) L.bboxes_.num (seedState L top0)).top_mem x ∧
    (forLoop (poolRoiBody (withMaxIdx L d2) bottom0 (top0.withData d1))
        (withMaxIdx L d2).bboxes_.num
        (seedState (withMaxIdx L d2) (top0.withData d1))).max_idx_mem x =
      (forLoop (poolRoiBody L bottom0 top0) L.bboxes_.num (seedState L top0)).max_idx_mem x := by
  have hS2 : Shaped (withMaxIdx L d2) bottom0 (top0.withData d1) := hS
  obtain ⟨n, c, ph, pw, hn, hc, hph, hpw, hx⟩ := hS.unit_of_offset x h0 h1
  have c1 := forward_cell L bottom0 top0 hS n c ph pw hn hc hph hpw
  have c2 := forward_cell (withMaxIdx L d2) bottom0 (top0.withData d1) hS2 n c ph pw hn hc
    hph hpw
  obtain ⟨e1, e2, -, -⟩ := hS.offset_eq n c ph pw hn hc hph hpw
  have f1 : (top0.withData d1).offset n c ph pw = top0.offset n c ph pw := rfl
  have f2 : (withMaxIdx L d2).max_idx_.offset n c ph pw = L.max_idx_.offset n c ph pw := rfl
  have f3 : outCell (withMaxIdx L d2) bottom0 n c ph pw = outCell L bottom0 n c ph pw := rfl
  rw [f1, f2, f3, ← c1, e2, ← e1, ← hx] at c2
  exact ⟨congrArg Prod.fst c2, congrArg Prod.snd c2⟩

/-! ## The adaptive windows cover the map -/

/-- Along one axis of extent `X`, every coordinate lies in the adaptive
interval of some unit of the `P` units. -/
theorem adaptive_cover (X P x : Int) (hP : 0 < P) (hx0 : 0 ≤ x) (hx1 : x < X) :
    ∃ p : Nat, (p : Int) < P ∧
      ⌊(((p : Int) * X : Int) : ℚ) / (P : ℚ)⌋ ≤ x ∧
      x < ⌈((((p : Int) + 1) * X : Int) : ℚ) / (P : ℚ)⌉ := by
  have hX : 0 < X := by omega
  have hq0 : 0 ≤ x * P / X := Int.ediv_nonneg (mul_nonneg hx0 hP.le) hX.le
  have hq1 : x * P / X < P := by
    apply Int.ediv_lt_of_lt_mul hX
    have := mul_lt_mul_of_pos_right hx1 hP
    linarith [mul_comm X P]
  have hlo : x * P / X * X ≤ x * P := Int.ediv_mul_le _ hX.ne'
  have hhi : x * P < (x * P / X + 1) * X := Int.lt_ediv_add_one_mul_self _ hX
  have hPq : (0 : ℚ) < (P : ℚ) := by exact_mod_cast hP
  refine ⟨(x * P / X).toNat, ?_, ?_, ?_⟩
  · rw [Int.toNat_of_nonneg hq0]; exact hq1
  · rw [Int.toNat_of_nonneg hq0]
    have h1 : ((x * P / X * X : Int) : ℚ) / (P : ℚ) ≤ (x : ℚ) := by
      rw [div_le_iff₀ hPq]
      exact_mod_cast hlo
    have h2 := Int.floor_le (((x * P / X * X : Int) : ℚ) / (P : ℚ))
    have h3 : ((⌊((x * P / X * X : Int) : ℚ) / (P : ℚ)⌋ : Int) : ℚ) ≤ (x : ℚ) :=
      le_trans h2 h1
    exact_mod_cast h3
  · rw [Int.toNat_of_nonneg hq0]
    have h1 : (x : ℚ) < (((x * P / X + 1) * X : Int) : ℚ) / (P : ℚ) := by
      rw [lt_div_iff₀ hPq]
      exact_mod_cast hhi
    have h2 := Int.le_ceil ((((x * P / X + 1) * X : Int) : ℚ) / (P : ℚ))
    have h3 : (x : ℚ) <
        ((⌈(((x * P / X + 1) * X : Int) : ℚ) / (P : ℚ)⌉ : Int) : ℚ) :=
      lt_of_lt_of_le h1 h2
    exact_mod_cast h3

/-- Every position of an `H x W` map lies in the adaptive window of some unit
of the pooled grid. -/
theorem adaptiveBin_cover (H W PH PW : Int) (hPH : 0 < PH) (hPW : 0 < PW) (h w : Int)
    (h0 : 0 ≤ h) (h1 : h < H) (w0 : 0 ≤ w) (w1 : w < W) :
    ∃ ph pw : Nat, (ph : Int) < PH ∧ (pw : Int) < PW ∧ (adaptiveBin H W PH PW ph pw).Mem h w := by
  obtain ⟨ph, hph, a1, a2⟩ := adaptive_cover H PH h hPH h0 h1
  obtain ⟨pw, hpw, b1, b2⟩ := adaptive_cover W PW w hPW w0 w1
  exact ⟨ph, pw, hph, hpw, a1, a2, b1, b2⟩


/-! ## The windows of the default region cover the map -/

/-- One axis of the windows of lines 128-135 for the default region, for an
extent `X` pooled to `P` units, both at most `2^22`, in any arithmetic: the
start `S p` and end `E p` of unit `p` are the floor and the ceiling of finite
products; the first window starts at 0, the last ends at `X` or later, each
ends no earlier than the next starts, and each start lies inside the extent
and before its end. -/
theorem small_side (A : Arith) (X P : Int) (hX1 : 1 ≤ X) (hX : X ≤ 4194304) (hP1 : 1 ≤ P)
    (hP : P ≤ 4194304) :
    ∃ S E : Int → Int,
      (∀ p : Int, 0 ≤ p → p < P →
        A.wrap (toInt A (c_floor (A.mul (A.ofInt p)
            (A.div (A.ofInt (max (A.wrap (A.wrap (X - 1 - 0) + 1)) 1)) (A.ofInt P)))) + 0) =
          S p ∧
        A.wrap (toInt A (c_ceil (A.mul (A.ofInt (p + 1))
            (A.div (A.ofInt (max (A.wrap (A.wrap (X - 1 - 0) + 1)) 1)) (A.ofInt P)))) + 0) =
          E p) ∧
      S 0 = 0 ∧ X ≤ E (P - 1) ∧ (∀ p : Int, 0 ≤ p → p + 1 < P → S (p + 1) ≤ E p) ∧
      ∀ p : Int, 0 ≤ p → p < P → 0 ≤ S p ∧ S p < X ∧ S p < E p := by
  obtain ⟨x, hx, hx0, hxb, hxP, hxs⟩ := small_products A X P hX1 hX hP1 hP
  have hE : A.IntExact X := A.IntExact_small X (by omega) (by omega)
  have hr := A.IntExact_int hE
  have hr1 : A = .ideal ∨ (INT_MIN ≤ X - 1 - 0 ∧ X - 1 - 0 ≤ INT_MAX) := by
    rcases hr with h | h
    · exact Or.inl h
    · right; unfold INT_MIN INT_MAX at *; omega
  have hXq : (X : ℚ) ≤ 4194304 := by exact_mod_cast hX
  have hfl : ∀ p : Int, 0 ≤ p → p ≤ P → 0 ≤ ⌊x p⌋ ∧ ⌊x p⌋ ≤ 8388608 := by
    intro p hp0 hp
    obtain ⟨h1, h2⟩ := hxb p hp0 hp
    refine ⟨Int.floor_nonneg.mpr h1, ?_⟩
    have h3 : ((⌊x p⌋ : Int) : ℚ) ≤ ((8388608 : Int) : ℚ) := by
      have := Int.floor_le (x p)
      push_cast
      linarith
    exact_mod_cast h3
  have hcl : ∀ p : Int, 0 ≤ p → p ≤ P → 0 ≤ ⌈x p⌉ ∧ ⌈x p⌉ ≤ 8388608 := by
    intro p hp0 hp
    obtain ⟨h1, h2⟩ := hxb p hp0 hp
    refine ⟨Int.ceil_nonneg h1, ?_⟩
    apply Int.ceil_le.mpr
    push_cast
    linarith
  refine ⟨fun p => ⌊x p⌋, fun p => ⌈x (p + 1)⌉, fun p hp0 hp => ?_, ?_, ?_,
    fun p hp0 hp => ?_, fun p hp0 hp => ?_⟩
  · rw [A.wrap_exact _ hr1, show X - 1 - 0 + 1 = X by ring, A.wrap_exact _ hr, max_eq_left hX1,
      hx p hp0 hp.le, hx (p + 1) (by omega) (by omega)]
    obtain ⟨f0, f1⟩ := hfl p hp0 hp.le
    obtain ⟨c0, c1⟩ := hcl (p + 1) (by omega) (by omega)
    have ge1 := A.IntExact_small _ f0 f1
    have ge2 := A.IntExact_small _ c0 c1
    rw [toInt_c_floor A _ ge1, toInt_c_ceil A _ ge2, add_zero, add_zero,
      A.wrap_exact _ (A.IntExact_int ge1), A.wrap_exact _ (A.IntExact_int ge2)]
    exact ⟨rfl, rfl⟩
  · show ⌊x 0⌋ = 0
    rw [hx0, Int.floor_zero]
  · show X ≤ ⌈x (P - 1 + 1)⌉
    rw [show P - 1 + 1 = P by ring]
    have h1 : (((X - 1 : Int)) : ℚ) < x P := by push_cast; exact hxP
    have h2 : X - 1 < ⌈x P⌉ := Int.lt_ceil.mpr h1
    omega
  · show ⌊x (p + 1)⌋ ≤ ⌈x (p + 1)⌉
    exact Int.floor_le_ceil _
  · show 0 ≤ ⌊x p⌋ ∧ ⌊x p⌋ < X ∧ ⌊x p⌋ < ⌈x (p + 1)⌉
    obtain ⟨h1, h2⟩ := hxs p hp0 hp
    refine ⟨(hfl p hp0 hp.le).1, ?_, floor_lt_ceil_of_lt h2⟩
    have h3 : ((⌊x p⌋ : Int) : ℚ) < (X : ℚ) := lt_of_le_of_lt (Int.floor_le _) h1
    exact_mod_cast h3

/-- With no side input and `spatial_scale_ = 1`, when the arithmetic computes
the bins exactly or the map and the pooled grid measure at most `2^22` a side:
the window of every output unit holds a position, and every position of the
map lies in the window of some unit. -/
theorem default_cells (L : WholeImagePoolingLayer) (bottom0 top0 : Blob Dtype)
    (hscale : L.spatial_scale_ = Dtype.fin 1) (hH : 1 ≤ bottom0.height)
    (hW : 1 ≤ bottom0.width) (hPH : 1 ≤ L.pooled_height_) (hPW : 1 ≤ L.pooled_width_)
    (hN : L.arith.IntExact bottom0.num)
    (hA : L.arith.ExactBins bottom0.height bottom0.width L.pooled_height_ L.pooled_width_ ∨
      (bottom0.height ≤ 4194304 ∧ bottom0.width ≤ 4194304 ∧
        L.pooled_height_ ≤ 4194304 ∧ L.pooled_width_ ≤ 4194304))
    (n : Nat) (hn : n < bottom0.num) :
    (∀ ph pw : Nat, (ph : Int) < L.pooled_height_ → (pw : Int) < L.pooled_width_ →
      (cellBin (Reshape_body L bottom0 top0 none).1 n ph pw).hstart <
          (cellBin (Reshape_body L bottom0 top0 none).1 n ph pw).hend ∧
        (cellBin (Reshape_body L bottom0 top0 none).1 n ph pw).wstart <
          (cellBin (Reshape_body L bottom0 top0 none).1 n ph pw).wend) ∧
    ∀ h w : Int, 0 ≤ h → h < bottom0.height → 0 ≤ w → w < bottom0.width →
      ∃ ph pw : Nat, (ph : Int) < L.pooled_height_ ∧ (pw : Int) < L.pooled_width_ ∧
        (cellBin (Reshape_body L bottom0 top0 none).1 n ph pw).Mem h w := by
  rcases hA with hA | ⟨hH2, hW2, hPH2, hPW2⟩
  · have hbin : ∀ ph pw : Nat, (ph : Int) < L.pooled_height_ → (pw : Int) < L.pooled_width_ →
        cellBin (Reshape_body L bottom0 top0 none).1 n ph pw =
          adaptiveBin bottom0.height bottom0.width L.pooled_height_ L.pooled_width_ ph pw :=
      fun ph pw hph hpw =>
        (default_cellBin L bottom0 top0 hscale hH hW hN hA n ph pw hn hph hpw).2
    constructor
    · intro ph pw hph hpw
      obtain ⟨⟨a1, a2, a3⟩, ⟨b1, b2, b3⟩⟩ := adaptiveBin_bounds bottom0.height bottom0.width
        L.pooled_height_ L.pooled_width_ ph pw (by exact_mod_cast hH) (by exact_mod_cast hW)
        (Int.natCast_nonneg ph) hph (Int.natCast_nonneg pw) hpw
      rw [hbin ph pw hph hpw]
      exact ⟨a2, b2⟩
    · intro h w h0 h1 w0 w1
      obtain ⟨ph, pw, hph, hpw, hm⟩ := adaptiveBin_cover bottom0.height bottom0.width
        L.pooled_height_ L.pooled_width_ (by omega) (by omega) h w h0 h1 w0 w1
      exact ⟨ph, pw, hph, hpw, by rw [hbin ph pw hph hpw]; exact hm⟩
  · have hHi : (1 : Int) ≤ (bottom0.height : Int) := by exact_mod_cast hH
    have hWi : (1 : Int) ≤ (bottom0.width : Int) := by exact_mod_cast hW
    have hH2i : (bottom0.height : Int) ≤ 4194304 := by exact_mod_cast hH2
    have hW2i : (bottom0.width : Int) ≤ 4194304 := by exact_mod_cast hW2
    obtain ⟨Sh, Eh, hSEh, hh0, hhlast, hhstep, hhb⟩ :=
      small_side L.arith bottom0.height L.pooled_height_ hHi hH2i hPH hPH2
    obtain ⟨Sw, Ew, hSEw, hw0, hwlast, hwstep, hwb⟩ :=
      small_side L.arith bottom0.width L.pooled_width_ hWi hW2i hPW hPW2
    have hEH : L.arith.IntExact bottom0.height :=
      L.arith.IntExact_small _ (by omega) (by omega)
    have hEW : L.arith.IntExact bottom0.width :=
      L.arith.IntExact_small _ (by omega) (by omega)
    have hbin : ∀ ph pw : Nat, (ph : Int) < L.pooled_height_ → (pw : Int) < L.pooled_width_ →
        cellBin (Reshape_body L bottom0 top0 none).1 n ph pw =
          { hstart := Sh ph, hend := min (Eh ph) bottom0.height
            wstart := Sw pw, wend := min (Ew pw) bottom0.width } := by
      intro ph pw hph hpw
      obtain ⟨-, hp1, hp2, -⟩ := Reshape_body_shaped L bottom0 top0 none
      have hsh := (Reshape_body_shaped L bottom0 top0 none).1.1
      obtain ⟨s1, s2⟩ := hSEh ph (Int.natCast_nonneg ph) hph
      obtain ⟨s3, s4⟩ := hSEw pw (Int.natCast_nonneg pw) hpw
      obtain ⟨a1, a2, a3⟩ := hhb ph (Int.natCast_nonneg ph) hph
      obtain ⟨b1, b2, b3⟩ := hwb pw (Int.natCast_nonneg pw) hpw
      unfold cellBin
      rw [Reshape_body_arith,
        Reshape_default_regionAt L bottom0 top0 hscale hH hW hN hEH hEW n hn]
      unfold rawBin bin_size_h bin_size_w clampBin
      simp only [hp1, hp2, Reshape_body_arith]
      rw [s1, s2, s3, s4, hsh.2.1, hsh.2.2, max_eq_left a1, max_eq_left (by omega : 0 ≤ Eh ph),
        max_eq_left b1, max_eq_left (by omega : 0 ≤ Ew pw), min_eq_left (by omega : Sh ph ≤ _),
        min_eq_left (by omega : Sw pw ≤ _)]
    constructor
    · intro ph pw hph hpw
      obtain ⟨a1, a2, a3⟩ := hhb ph (Int.natCast_nonneg ph) hph
      obtain ⟨b1, b2, b3⟩ := hwb pw (Int.natCast_nonneg pw) hpw
      rw [hbin ph pw hph hpw]
      exact ⟨lt_min a3 a2, lt_min b3 b2⟩
    · intro h w h0 h1 w0 w1
      obtain ⟨ph, hph, c1, c2⟩ := side_cover Sh Eh bottom0.height L.pooled_height_ hPH hh0
        hhlast hhstep h h0 h1
      obtain ⟨pw, hpw, d1, d2⟩ := side_cover Sw Ew bottom0.width L.pooled_width_ hPW hw0
        hwlast hwstep w w0 w1
      refine ⟨ph, pw, hph, hpw, ?_⟩
      rw [hbin ph pw hph hpw]
      exact ⟨c1, lt_min c2 h1, d1, lt_min d2 w1⟩

/-! ## The arithmetic on examples -/

/-- In `float`, a 62-row map pooled to 14 rows: the product `7 * (62 / 14)`,
31 in exact arithmetic, is `16252927 / 2^19`, just below 31, and unit 7 scans
rows `[30, 36)` where exact arithmetic gives `[31, 36)`. -/
theorem float_window_62_14 :
    Arith.div .float (Arith.ofInt .float 62) (Arith.ofInt .float 14) =
        .fin (9287387 / 2097152) ∧
      Arith.mul .float (Arith.ofInt .float 7) (.fin (9287387 / 2097152)) =
        .fin (16252927 / 524288) ∧
      cellBin (layerFor .float 14 1 (spikeMap 62 30) none) 0 7 0 =
        { hstart := 30, hend := 36, wstart := 0, wend := 1 } ∧
      cellBin (layerFor .ideal 14 1 (spikeMap 62 30) none) 0 7 0 =
        { hstart := 31, hend := 36, wstart := 0, wend := 1 } := by
  refine ⟨by decide!, by decide!, by decide!, by decide!⟩

/-- In `double`, a 58-row map pooled to 14 rows: the product `7 * (58 / 14)`,
29 in exact arithmetic, is `8162774324609025 / 2^48`, just above 29, and unit
6 scans rows `[24, 30)` where exact arithmetic gives `[24, 29)`. -/
theorem double_window_58_14 :
    Arith.div .double (Arith.ofInt .double 58) (Arith.ofInt .double 14) =
        .fin (4664442471205157 / 1125899906842624) ∧
      Arith.mul .double (Arith.ofInt .double 7) (.fin (4664442471205157 / 1125899906842624)) =
        .fin (8162774324609025 / 281474976710656) ∧
      cellBin (layerFor .double 14 1 (spikeMap 58 0) none) 0 6 0 =
        { hstart := 24, hend := 30, wstart := 0, wend := 1 } ∧
      cellBin (layerFor .ideal 14 1 (spikeMap 58 0) none) 0 6 0 =
        { hstart := 24, hend := 29, wstart := 0, wend := 1 } := by
  refine ⟨by decide!, by decide!, by decide!, by decide!⟩

/-- In `float`, with the record `[0, 10^10, 10^10, 1, 0]`: the stored ends
`10^10 - 1` round to `10^10`, their conversion to `int` gives `INT_MIN`, the
region has height and width 1, and every unit of the 2 x 2 grid scans
`[0,1) x [0,1)` of the 4 x 4 map: value 1 and argmax 0.  With integers without
bound the region reaches past the map and unit `(1, 1)` is empty. -/
theorem float_region_out_of_range :
    regionAt (layerFor .float 2 2 fm4x4 (some imInfoHuge)) 0 0 =
        { roi_batch_ind := 0, roi_start_w := 0, roi_start_h := 0
          roi_end_w := INT_MIN, roi_end_h := INT_MIN } ∧
      cellBin (layerFor .float 2 2 fm4x4 (some imInfoHuge)) 0 1 1 =
        { hstart := 0, hend := 1, wstart := 0, wend := 1 } ∧
      pooledValue (blankLayer .float) { pooled_h := 2, pooled_w := 2, spatial_scale := .fin 1 }
        fm4x4 [imInfoHuge] (blankBlob Dtype) 3 = some (.fin 1) ∧
      pooledArgmax (blankLayer .float) { pooled_h := 2, pooled_w := 2, spatial_scale := .fin 1 }
        fm4x4 [imInfoHuge] (blankBlob Dtype) 3 = some 0 ∧
      cellBin (layerFor .ideal 2 2 fm4x4 (some imInfoHuge)) 0 1 1 =
        { hstart := 4, hend := 4, wstart := 4, wend := 4 } := by
  refine ⟨by decide!, by decide!, by decide!, by decide!, by decide!⟩
/-! ## A greatest value among finitely many -/

/-- Finitely many values of `Dtype`, none of them a NaN, have a greatest one. -/
theorem exists_max_of_ne_nan {ι : Type} (s : Finset ι) (hs : s.Nonempty) (f : ι → Dtype)
    (hf : ∀ i, i ∈ s → f i ≠ Dtype.nan) : ∃ i, i ∈ s ∧ ∀ j, j ∈ s → f j ≤ f i := by
  classical
  induction s using Finset.induction_on with
  | empty => exact absurd hs Finset.not_nonempty_empty
  | insert hnot ih =>
    rename_i a t
    by_cases ht : t.Nonempty
    · obtain ⟨i, hi, hmax⟩ := ih ht (fun i hi => hf i (Finset.mem_insert_of_mem hi))
      by_cases hlt : f i < f a
      · refine ⟨a, Finset.mem_insert_self a t, fun j hj => ?_⟩
        rcases Finset.mem_insert.mp hj with rfl | hj
        · exact Dtype.le_refl (hf _ (Finset.mem_insert_self _ t))
        · exact Dtype.le_of_lt (Dtype.lt_of_le_of_lt (hmax j hj) hlt)
      · refine ⟨i, Finset.mem_insert_of_mem hi, fun j hj => ?_⟩
        rcases Finset.mem_insert.mp hj with rfl | hj
        · exact Dtype.le_of_not_lt (hf i (Finset.mem_insert_of_mem hi))
            (hf _ (Finset.mem_insert_self _ t)) hlt
        · exact hmax j hj
    · rw [Finset.not_nonempty_iff_eq_empty] at ht
      subst ht
      refine ⟨a, Finset.mem_insert_self a _, fun j hj => ?_⟩
      rcases Finset.mem_insert.mp hj with rfl | hj
      · exact Dtype.le_refl (hf _ (Finset.mem_insert_self _ _))
      · exact absurd hj (Finset.not_mem_empty j)

/-! ## The claims -/

/-- C1, refuted as stated: on the 1 x 1 feature map of `float` holding minus
infinity, pooled to 1 x 1, the window of the one output unit is
`[0,1) x [0,1)`, its maximum is minus infinity, and the output unit holds
`-FLT_MAX`, a value the feature map does not contain. -/
theorem C1_counterexample :
    pooledValue (blankLayer .float) { pooled_h := 1, pooled_w := 1, spatial_scale := .fin 1 }
        (constMap 1 1 (.inf true)) [] (blankBlob Dtype) 0 = some (-FLT_MAX) ∧
      cellBin (layerFor .float 1 1 (constMap 1 1 (.inf true)) none) 0 0 0 =
        { hstart := 0, hend := 1, wstart := 0, wend := 1 } ∧
      (∀ x, (constMap 1 1 (.inf true)).data x = .inf true) ∧
      (-FLT_MAX : Dtype) ≠ .inf true := by
  refine ⟨by decide!, by decide!, fun _ => rfl, by decide!⟩

/-- C1, amended. For every layer shaped by `Reshape`, in `float`, `double` or
exact arithmetic, whose regions name images of the batch, region `n` naming
image `n`, and every output unit `(n, c, ph, pw)` whose window (the floor /
ceil / offset / clamp rule of `Forward_cpu`, in the arithmetic of the layer)
holds at least one value that is not below `-FLT_MAX`: `Forward_cpu` returns,
the output unit is a value `FeatureMap[n, c, h, w]` of the window, no value of
the window is greater than it, and every value of the window that is not a
NaN is at most it. -/
theorem C1_pooled_value (L : WholeImagePoolingLayer) (bottom0 top0 : Blob Dtype)
    (hS : Shaped L bottom0 top0) (hV : ValidRois L bottom0) (n c ph pw : Nat)
    (hn : n < bottom0.num) (hc : c < bottom0.channels)
    (hph : ph < L.pooled_height_.toNat) (hpw : pw < L.pooled_width_.toNat)
    (hb : (regionAt L 0 n).roi_batch_ind = n)
    (hseed : ∃ h w, (cellBin L n ph pw).Mem h w ∧
      -FLT_MAX ≤ bottom0.data (bottom0.offset n c h w)) :
    ∃ s, Forward_cpu L bottom0 top0 = .ok s ∧
      (∃ h w, (cellBin L n ph pw).Mem h w ∧
        s.top_mem (top0.offset n c ph pw) = bottom0.data (bottom0.offset n c h w)) ∧
      (∀ h w, (cellBin L n ph pw).Mem h w →
        ¬ s.top_mem (top0.offset n c ph pw) < bottom0.data (bottom0.offset n c h w)) ∧
      (∀ h w, (cellBin L n ph pw).Mem h w →
        bottom0.data (bottom0.offset n c h w) ≠ Dtype.nan →
        bottom0.data (bottom0.offset n c h w) ≤ s.top_mem (top0.offset n c ph pw)) := by
  have hN : (cellBin L n ph pw).hstart < (cellBin L n ph pw).hend ∧
      (cellBin L n ph pw).wstart < (cellBin L n ph pw).wend := by
    obtain ⟨h, w, hm, -⟩ := hseed
    unfold Bin.Mem at hm
    omega
  obtain ⟨s, hs, hp⟩ := forward_post L bottom0 top0 hS hV n c ph pw hn hc hph hpw hN
  rw [hb] at hp
  exact ⟨s, hs, hp.isMax hseed⟩

/-- C1, amended, on unit 7 of the 62-row map of `float` pooled to 14 rows, whose
window is rows `[30, 36)`: the output is a value of that window. -/
theorem C1_witness :
    ∃ s, Forward_cpu (layerFor .float 14 1 (spikeMap 62 30) none) (spikeMap 62 30)
        (topFor .float 14 1 (spikeMap 62 30) none) = .ok s ∧
      ∃ h w, (cellBin (layerFor .float 14 1 (spikeMap 62 30) none) 0 7 0).Mem h w ∧
        s.top_mem ((topFor .float 14 1 (spikeMap 62 30) none).offset
          (0 : Nat) (0 : Nat) (7 : Nat) (0 : Nat)) =
        (spikeMap 62 30).data ((spikeMap 62 30).offset (0 : Nat) (0 : Nat) h w) :=
  let ⟨s, hs, hm, _⟩ :=
    C1_pooled_value (layerFor .float 14 1 (spikeMap 62 30) none) (spikeMap 62 30)
      (topFor .float 14 1 (spikeMap 62 30) none)
      (by decide) (by decide!) 0 0 7 0 (by decide) (by decide) (by decide) (by decide)
      (by decide!) ⟨30, 0, by decide!, by decide!⟩
  ⟨s, hs, hm⟩

/-- C2, refuted as stated: on the 1 x 1 feature map of `float` holding
`-FLT_MAX`, pooled to 1 x 1, the window of the one output unit is
`[0,1) x [0,1)`, its maximum is the element of flat index 0, and the argmax is
-1, the flat index of no position of the window. -/
theorem C2_counterexample :
    pooledArgmax (blankLayer .float) { pooled_h := 1, pooled_w := 1, spatial_scale := .fin 1 }
        (constMap 1 1 (-FLT_MAX)) [] (blankBlob Dtype) 0 = some (-1) ∧
      cellBin (layerFor .float 1 1 (constMap 1 1 (-FLT_MAX)) none) 0 0 0 =
        { hstart := 0, hend := 1, wstart := 0, wend := 1 } ∧
      (∀ h w : Int,
        (cellBin (layerFor .float 1 1 (constMap 1 1 (-FLT_MAX)) none) 0 0 0).Mem h w →
        h * ((constMap 1 1 (-FLT_MAX)).width : Int) + w ≠ -1) := by
  have hb : cellBin (layerFor .float 1 1 (constMap 1 1 (-FLT_MAX)) none) 0 0 0 =
      { hstart := 0, hend := 1, wstart := 0, wend := 1 } := by decide!
  refine ⟨by decide!, hb, fun h w hm => ?_⟩
  rw [hb] at hm
  simp only [Bin.Mem] at hm
  simp only [constMap]
  omega

/-- C2, amended. For every layer shaped by `Reshape`, in `float`, `double` or
exact arithmetic, whose regions name images of the batch, region `n` naming
image `n`, and every output unit `(n, c, ph, pw)` whose window holds at least
one value above `-FLT_MAX`: `Forward_cpu` returns, and the argmax is the flat
index `h * W + w` of a position `(h, w)` of the window whose value is the
output value; no value of the window is greater, every value of the window
that is not a NaN is at most it, and every position of the window with that
value comes at or after `(h, w)` in top-to-bottom, left-to-right order. -/
theorem C2_argmax_first (L : WholeImagePoolingLayer) (bottom0 top0 : Blob Dtype)
    (hS : Shaped L bottom0 top0) (hV : ValidRois L bottom0) (n c ph pw : Nat)
    (hn : n < bottom0.num) (hc : c < bottom0.channels)
    (hph : ph < L.pooled_height_.toNat) (hpw : pw < L.pooled_width_.toNat)
    (hb : (regionAt L 0 n).roi_batch_ind = n)
    (hseed : ∃ h w, (cellBin L n ph pw).Mem h w ∧
      -FLT_MAX < bottom0.data (bottom0.offset n c h w)) :
    ∃ s, Forward_cpu L bottom0 top0 = .ok s ∧
      ∃ h w, (cellBin L n ph pw).Mem h w ∧
        s.max_idx_mem (L.max_idx_.offset n c ph pw) = h * bottom0.width + w ∧
        s.top_mem (top0.offset n c ph pw) = bottom0.data (bottom0.offset n c h w) ∧
        (∀ h2 w2, (cellBin L n ph pw).Mem h2 w2 →
          ¬ bottom0.data (bottom0.offset n c h w) < bottom0.data (bottom0.offset n c h2 w2)) ∧
        (∀ h2 w2, (cellBin L n ph pw).Mem h2 w2 →
          bottom0.data (bottom0.offset n c h2 w2) ≠ Dtype.nan →
          bottom0.data (bottom0.offset n c h2 w2) ≤ bottom0.data (bottom0.offset n c h w)) ∧
        (∀ h2 w2, (cellBin L n ph pw).Mem h2 w2 →
          bottom0.data (bottom0.offset n c h2 w2) = bottom0.data (bottom0.offset n c h w) →
          h < h2 ∨ (h = h2 ∧ w ≤ w2)) := by
  have hN : (cellBin L n ph pw).hstart < (cellBin L n ph pw).hend ∧
      (cellBin L n ph pw).wstart < (cellBin L n ph pw).wend := by
    obtain ⟨h, w, hm, -⟩ := hseed
    unfold Bin.Mem at hm
    omega
  obtain ⟨s, hs, hp⟩ := forward_post L bottom0 top0 hS hV n c ph pw hn hc hph hpw hN
  rw [hb] at hp
  exact ⟨s, hs, hp.first_max hseed⟩

/-- C2, amended, on unit 7 of the 62-row map of `float` pooled to 14 rows: the
argmax is the flat index of a position of the window, rows `[30, 36)`. -/
theorem C2_witness :
    ∃ s, Forward_cpu (layerFor .float 14 1 (spikeMap 62 30) none) (spikeMap 62 30)
        (topFor .float 14 1 (spikeMap 62 30) none) = .ok s ∧
      ∃ h w, (cellBin (layerFor .float 14 1 (spikeMap 62 30) none) 0 7 0).Mem h w ∧
        s.max_idx_mem ((layerFor .float 14 1 (spikeMap 62 30) none).max_idx_.offset
          (0 : Nat) (0 : Nat) (7 : Nat) (0 : Nat)) = h * (spikeMap 62 30).width + w :=
  let ⟨s, hs, h, w, hm, ha, _⟩ :=
    C2_argmax_first (layerFor .float 14 1 (spikeMap 62 30) none) (spikeMap 62 30)
      (topFor .float 14 1 (spikeMap 62 30) none)
      (by decide) (by decide!) 0 0 7 0 (by decide) (by decide) (by decide) (by decide)
      (by decide!) ⟨30, 0, by decide!, by decide!⟩
  ⟨s, hs, h, w, hm, ha⟩

/-- C3. For every layer shaped by `Reshape`, in `float`, `double` or exact
arithmetic, with regions that name images of the batch, whatever their
coordinates, `Forward_cpu` returns, and every output unit whose clamped window
(as the arithmetic of the layer computes it) is empty holds value 0 and
argmax -1. -/
theorem C3_empty_cells (L : WholeImagePoolingLayer) (bottom0 top0 : Blob Dtype)
    (hS : Shaped L bottom0 top0) (hV : ValidRois L bottom0) (n c ph pw : Nat)
    (hn : n < bottom0.num) (hc : c < bottom0.channels)
    (hph : ph < L.pooled_height_.toNat) (hpw : pw < L.pooled_width_.toNat)
    (hE : (cellBin L n ph pw).hend ≤ (cellBin L n ph pw).hstart ∨
      (cellBin L n ph pw).wend ≤ (cellBin L n ph pw).wstart) :
    ∃ s, Forward_cpu L bottom0 top0 = .ok s ∧
      s.top_mem (top0.offset n c ph pw) = 0 ∧
      s.max_idx_mem (L.max_idx_.offset n c ph pw) = -1 := by
  refine ⟨_, Forward_cpu_eq_ok L bottom0 top0 hS hV, ?_⟩
  have hcell := forward_cell L bottom0 top0 hS n c ph pw hn hc hph hpw
  have hval : outCell L bottom0 n c ph pw = (0, -1) := by
    unfold outCell
    exact cellValue_empty L _ _ _ _ _ _ _ _ _ hE
  rw [hval] at hcell
  exact ⟨congrArg Prod.fst hcell, congrArg Prod.snd hcell⟩

/-- C3 on a 2 x 2 feature map of `float` whose region, from the record
`[0, 4, 4, 1, 0]`, is 4 x 4: unit `(1, 1)` of the 2 x 2 grid has an empty
window. -/
theorem C3_witness :
    ∃ s, Forward_cpu (layerFor .float 2 2 (constMap 2 2 (.fin 7)) (some imInfoBig))
        (constMap 2 2 (.fin 7))
        (topFor .float 2 2 (constMap 2 2 (.fin 7)) (some imInfoBig)) = .ok s ∧
      s.top_mem ((topFor .float 2 2 (constMap 2 2 (.fin 7)) (some imInfoBig)).offset
        (0 : Nat) (0 : Nat) (1 : Nat) (1 : Nat)) = 0 ∧
      s.max_idx_mem ((layerFor .float 2 2 (constMap 2 2 (.fin 7))
        (some imInfoBig)).max_idx_.offset (0 : Nat) (0 : Nat) (1 : Nat) (1 : Nat)) = -1 :=
  C3_empty_cells (layerFor .float 2 2 (constMap 2 2 (.fin 7)) (some imInfoBig))
    (constMap 2 2 (.fin 7))
    (topFor .float 2 2 (constMap 2 2 (.fin 7)) (some imInfoBig)) (by decide) (by decide!) 0 0 1 1
    (by decide) (by decide) (by decide) (by decide) (by decide!)

/-- C5. The 4 x 4 single-channel map holding 1..16 in row-major order, pooled
to 2 x 2 with `spatial_scale = 1` and no `ImageInfo`, in `float`, in `double`
and in exact arithmetic: after `LayerSetUp`, `Reshape` and `Forward_cpu` the
output is `[[6, 8], [14, 16]]` and the argmax entries are 5, 7, 13, 15. -/
theorem C5_worked_scenario (A : Arith) :
    (List.range 4).map (fun i =>
        pooledValue (blankLayer A) { pooled_h := 2, pooled_w := 2, spatial_scale := .fin 1 }
          fm4x4 [] (blankBlob Dtype) i) =
        [some (.fin 6), some (.fin 8), some (.fin 14), some (.fin 16)] ∧
      (List.range 4).map (fun i =>
        pooledArgmax (blankLayer A) { pooled_h := 2, pooled_w := 2, spatial_scale := .fin 1 }
          fm4x4 [] (blankBlob Dtype) i) = [some 5, some 7, some 13, some 15] := by
  cases A <;> constructor <;> decide!

/-- C8. `LayerSetUp` aborts exactly when `pooled_h <= 0` or `pooled_w <= 0`,
the abort being one of the two configuration checks; when it returns, the
stored `pooled_height_`, `pooled_width_` and `spatial_scale_` are the
configured values. -/
theorem C8_LayerSetUp_validation (L : WholeImagePoolingLayer) (p : ROIPoolingParameter) :
    ((∃ e, LayerSetUp L p = .error e) ↔ (p.pooled_h ≤ 0 ∨ p.pooled_w ≤ 0)) ∧
      (∀ e, LayerSetUp L p = .error e →
        e = .pooled_h_must_be_gt_0 ∨ e = .pooled_w_must_be_gt_0) ∧
      (∀ L1, LayerSetUp L p = .ok L1 →
        L1.pooled_height_ = p.pooled_h ∧ L1.pooled_width_ = p.pooled_w ∧
          L1.spatial_scale_ = p.spatial_scale) := by
  unfold LayerSetUp
  by_cases h1 : p.pooled_h > 0
  · by_cases h2 : p.pooled_w > 0
    · simp only [h1, h2, not_true_eq_false, if_false]
      refine ⟨⟨fun ⟨e, he⟩ => (by cases he), fun h => (by omega)⟩, fun e he => (by cases he), ?_⟩
      intro L1 hL
      cases hL
      exact ⟨rfl, rfl, rfl⟩
    · simp only [h1, h2, not_true_eq_false, not_false_eq_true, if_false, if_true]
      refine ⟨⟨fun _ => Or.inr (by omega), fun _ => ⟨_, rfl⟩⟩, fun e he => ?_,
        fun L1 hL => (by cases hL)⟩
      cases he
      exact Or.inr rfl
  · simp only [h1, not_false_eq_true, if_true]
    refine ⟨⟨fun _ => Or.inl (by omega), fun _ => ⟨_, rfl⟩⟩, fun e he => ?_,
      fun L1 hL => (by cases hL)⟩
    cases he
    exact Or.inl rfl

/-- C9. Whatever the layer, its arithmetic and its list of regions, if some
region `k` of the list has a batch index (the conversion of its first field to
`int`) that is negative or not below the batch size,
`Forward_cpu` aborts, on one of its three checks, and every feature-map
element read before the abort was read through a region whose batch index
passed the two checks: none was read through a region that fails them. -/
theorem C9_batch_index_check (L : WholeImagePoolingLayer) (bottom0 top0 : Blob Dtype)
    (k : Nat) (hk : k < L.bboxes_.num)
    (hbad : (regionAt L 0 k).roi_batch_ind < 0 ∨
      (bottom0.num : Int) ≤ (regionAt L 0 k).roi_batch_ind) :
    ∃ e s, Forward_cpu L bottom0 top0 = .error (e, s) ∧
      (e = .check_eq_num_rois_batch_size ∨ e = .check_ge_roi_batch_ind_0 ∨
        e = .check_lt_roi_batch_ind_batch_size) ∧
      ∀ r, r ∈ s.reads →
        0 ≤ (regionAt L 0 r.1).roi_batch_ind ∧
          (regionAt L 0 r.1).roi_batch_ind < bottom0.num := by
  unfold Forward_cpu
  by_cases hne : (L.bboxes_.num : Int) ≠ (bottom0.num : Int)
  · rw [if_pos hne]
    exact ⟨_, _, rfl, Or.inl rfl, fun r hr => by simp at hr⟩
  · rw [if_neg hne]
    change ∃ e s, forLoopM (poolRoi L bottom0 top0) L.bboxes_.num (seedState L top0) =
      .error (e, s) ∧ _
    have hl := roiLoopM_reads L bottom0 top0 L.bboxes_.num
    cases hres : forLoopM (poolRoi L bottom0 top0) L.bboxes_.num (seedState L top0) with
    | ok s =>
      have hv := (hl.1 s hres).2.2 k hk
      unfold ValidRoi at hv
      omega
    | error es =>
      obtain ⟨e, s⟩ := es
      obtain ⟨he, hr⟩ := hl.2 e s hres
      refine ⟨e, s, rfl, ?_, fun r hr2 => hr r hr2⟩
      rcases he with he | he
      · exact Or.inr (Or.inl he)
      · exact Or.inr (Or.inr he)

/-- C9 on a layer of `float` whose one region has batch index -1:
`Forward_cpu` aborts on one of its checks. -/
theorem C9_witness :
    ∃ e s, Forward_cpu (badRegionLayer .float fm4x4) fm4x4 (topFor .float 2 2 fm4x4 none) =
        .error (e, s) ∧
      (e = .check_eq_num_rois_batch_size ∨ e = .check_ge_roi_batch_ind_0 ∨
        e = .check_lt_roi_batch_ind_batch_size) :=
  let ⟨e, s, h, he, _⟩ := C9_batch_index_check (badRegionLayer .float fm4x4) fm4x4
    (topFor .float 2 2 fm4x4 none) 0 (by decide) (Or.inl (by decide!))
  ⟨e, s, h, he⟩

/-- C10. With an `ImageInfo` blob of at least one element, `Reshape` aborts on
the `im_info` check exactly when `count / num` of that blob differs from 5;
with no `ImageInfo` blob (`bottom.size() != 2`) `Reshape` returns, so never
aborts on that check. -/
theorem C10_Reshape_im_info_check (L : WholeImagePoolingLayer) (bottom0 top0 : Blob Dtype)
    (bottom1 : Blob Dtype) (hnum : 0 < bottom1.num) :
    (Reshape L bottom0 [bottom1] top0 = .error .wrong_im_info_params ↔
        bottom1.count / bottom1.num ≠ 5) ∧
      (∀ bottomRest : List (Blob Dtype), bottomRest.length ≠ 1 →
        Reshape L bottom0 bottomRest top0 = .ok (Reshape_body L bottom0 top0 none) ∧
          Reshape L bottom0 bottomRest top0 ≠ .error .wrong_im_info_params) := by
  have h0 : ¬ (bottom1.num = 0) := by omega
  refine ⟨?_, ?_⟩
  · unfold Reshape
    simp only [h0, if_false]
    by_cases h5 : bottom1.count / bottom1.num = 5
    · simp [h5]
    · simp [h5]
  · intro bottomRest hlen
    have hok : Reshape L bottom0 bottomRest top0 = .ok (Reshape_body L bottom0 top0 none) := by
      unfold Reshape
      match bottomRest, hlen with
      | [], _ => rfl
      | [_], h => exact absurd rfl h
      | _ :: _ :: _, _ => rfl
    refine ⟨hok, ?_⟩
    rw [hok]
    exact fun h => by cases h

/-- C10, on a record of four fields: `Reshape` aborts on the `im_info` check. -/
theorem C10_witness :
    Reshape (blankLayer .float) fm4x4 [imInfoShort] (blankBlob Dtype) =
      .error .wrong_im_info_params :=
  (C10_Reshape_im_info_check (blankLayer .float) fm4x4 (blankBlob Dtype) imInfoShort
    (by decide)).1.mpr (by decide)

/-- C11. For a configuration with `pooled_height_ > 0` and `pooled_width_ > 0`
and an input of extents `(N, C, H, W)`: whenever `Reshape` returns (and with no
`ImageInfo` it does), `top[0]` and `max_idx_` both have extents
`(N, C, pooled_height_, pooled_width_)`, so both hold
`N * C * pooled_height_ * pooled_width_` units, whatever `H` and `W`. -/
theorem C11_output_shape (L : WholeImagePoolingLayer) (bottom0 top0 : Blob Dtype)
    (bottomRest : List (Blob Dtype)) (L1 : WholeImagePoolingLayer) (top1 : Blob Dtype)
    (hPH : 0 < L.pooled_height_) (hPW : 0 < L.pooled_width_)
    (hR : Reshape L bottom0 bottomRest top0 = .ok (L1, top1)) :
    (∃ r, Reshape L bottom0 [] top0 = .ok r) ∧
      (top1.num = bottom0.num ∧ top1.channels = bottom0.channels ∧
        (top1.height : Int) = L.pooled_height_ ∧ (top1.width : Int) = L.pooled_width_) ∧
      (L1.max_idx_.num = bottom0.num ∧ L1.max_idx_.channels = bottom0.channels ∧
        (L1.max_idx_.height : Int) = L.pooled_height_ ∧
        (L1.max_idx_.width : Int) = L.pooled_width_) ∧
      top1.count = (bottom0.num : Int) * bottom0.channels * L.pooled_height_ * L.pooled_width_ ∧
      L1.max_idx_.count =
        (bottom0.num : Int) * bottom0.channels * L.pooled_height_ * L.pooled_width_ := by
  obtain ⟨im_info, hr⟩ := Reshape_ok_body L bottom0 top0 bottomRest _ hR
  obtain ⟨⟨-, ⟨t1, t2, t3, t4⟩, ⟨m1, m2, m3, m4⟩, -⟩, hp1, hp2, -⟩ :=
    Reshape_body_shaped L bottom0 top0 im_info
  rw [← hr] at t1 t2 t3 t4 m1 m2 m3 m4 hp1 hp2
  simp only [] at t1 t2 t3 t4 m1 m2 m3 m4 hp1 hp2
  rw [hp1] at t3 m3
  rw [hp2] at t4 m4
  have eh : (top1.height : Int) = L.pooled_height_ := by rw [t3]; omega
  have ew : (top1.width : Int) = L.pooled_width_ := by rw [t4]; omega
  have fh : (L1.max_idx_.height : Int) = L.pooled_height_ := by rw [m3]; omega
  have fw : (L1.max_idx_.width : Int) = L.pooled_width_ := by rw [m4]; omega
  refine ⟨⟨_, rfl⟩, ⟨t1, t2, eh, ew⟩, ⟨m1, m2, fh, fw⟩, ?_, ?_⟩
  · unfold Blob.count; rw [t1, t2, eh, ew]
  · unfold Blob.count; rw [m1, m2, fh, fw]

/-- C11 on the 4 x 4 map pooled to 2 x 2: `top[0]` holds 4 units. -/
theorem C11_witness : (topFor .float 2 2 fm4x4 none).count = 1 * 1 * 2 * 2 :=
  (C11_output_shape (configuredLayer .float 2 2) fm4x4 (blankBlob Dtype) []
    (layerFor .float 2 2 fm4x4 none) (topFor .float 2 2 fm4x4 none) (by decide) (by decide)
    rfl).2.2.2.1

/-- C13. For every layer shaped by `Reshape` on which `Forward_cpu` returns:
whatever the buffers of `top[0]` and `max_idx_` held before the call,
`Forward_cpu` returns and leaves the same output and argmax arrays; and a
second call, on the buffers the first call left, returns with both buffers
unchanged. -/
theorem C13_forward_idempotent (L : WholeImagePoolingLayer) (bottom0 top0 : Blob Dtype)
    (hS : Shaped L bottom0 top0) (s : FwdState)
    (hs : Forward_cpu L bottom0 top0 = .ok s) :
    (∀ (d1 : Int → Dtype) (d2 : Int → Int),
      ∃ s2, Forward_cpu (withMaxIdx L d2) bottom0 (top0.withData d1) = .ok s2 ∧
        ∀ x : Int, 0 ≤ x → x < top0.count →
          s2.top_mem x = s.top_mem x ∧ s2.max_idx_mem x = s.max_idx_mem x) ∧
    (∃ s2, Forward_cpu (withMaxIdx L s.max_idx_mem) bottom0 (top0.withData s.top_mem) =
        .ok s2 ∧ s2.top_mem = s.top_mem ∧ s2.max_idx_mem = s.max_idx_mem) := by
  obtain ⟨hV, rfl⟩ := Forward_cpu_ok_inv L bottom0 top0 hS s hs
  have hrun : ∀ (d1 : Int → Dtype) (d2 : Int → Int),
      Forward_cpu (withMaxIdx L d2) bottom0 (top0.withData d1) =
        .ok (forLoop (poolRoiBody (withMaxIdx L d2) bottom0 (top0.withData d1))
          (withMaxIdx L d2).bboxes_.num (seedState (withMaxIdx L d2) (top0.withData d1))) :=
    fun d1 d2 => Forward_cpu_eq_ok (withMaxIdx L d2) bottom0 (top0.withData d1) hS hV
  refine ⟨fun d1 d2 => ⟨_, hrun d1 d2, fun x h0 h1 =>
    forward_prior_indep L bottom0 top0 hS d1 d2 x h0 h1⟩, _, hrun _ _, ?_, ?_⟩
  · funext x
    by_cases hx : 0 ≤ x ∧ x < top0.count
    · exact (forward_prior_indep L bottom0 top0 hS _ _ x hx.1 hx.2).1
    · have hS2 : Shaped (withMaxIdx L
          (forLoop (poolRoiBody L bottom0 top0) L.bboxes_.num (seedState L top0)).max_idx_mem)
          bottom0 (top0.withData
          (forLoop (poolRoiBody L bottom0 top0) L.bboxes_.num (seedState L top0)).top_mem) := hS
      exact ((forward_mem _ bottom0 _ hS2).1 x (by
        have : (top0.withData (forLoop (poolRoiBody L bottom0 top0) L.bboxes_.num
          (seedState L top0)).top_mem).count = top0.count := rfl
        rw [this]; omega)).1
  · funext x
    by_cases hx : 0 ≤ x ∧ x < top0.count
    · exact (forward_prior_indep L bottom0 top0 hS _ _ x hx.1 hx.2).2
    · have hS2 : Shaped (withMaxIdx L
          (forLoop (poolRoiBody L bottom0 top0) L.bboxes_.num (seedState L top0)).max_idx_mem)
          bottom0 (top0.withData
          (forLoop (poolRoiBody L bottom0 top0) L.bboxes_.num (seedState L top0)).top_mem) := hS
      exact ((forward_mem _ bottom0 _ hS2).1 x (by
        have : (top0.withData (forLoop (poolRoiBody L bottom0 top0) L.bboxes_.num
          (seedState L top0)).top_mem).count = top0.count := rfl
        rw [this]; omega)).2

/-- C13 on the 4 x 4 map of `float` pooled to 2 x 2: a second call on the
buffers the first call left returns with both buffers unchanged. -/
theorem C13_witness :
    ∃ s2, Forward_cpu
        (withMaxIdx (layerFor .float 2 2 fm4x4 none)
          (forLoop
            (poolRoiBody (layerFor .float 2 2 fm4x4 none) fm4x4 (topFor .float 2 2 fm4x4 none))
            (layerFor .float 2 2 fm4x4 none).bboxes_.num
            (seedState (layerFor .float 2 2 fm4x4 none)
              (topFor .float 2 2 fm4x4 none))).max_idx_mem)
        fm4x4
        ((topFor .float 2 2 fm4x4 none).withData
          (forLoop
            (poolRoiBody (layerFor .float 2 2 fm4x4 none) fm4x4 (topFor .float 2 2 fm4x4 none))
            (layerFor .float 2 2 fm4x4 none).bboxes_.num
            (seedState (layerFor .float 2 2 fm4x4 none)
              (topFor .float 2 2 fm4x4 none))).top_mem) = .ok s2 ∧
      s2.top_mem =
        (forLoop
          (poolRoiBody (layerFor .float 2 2 fm4x4 none) fm4x4 (topFor .float 2 2 fm4x4 none))
          (layerFor .float 2 2 fm4x4 none).bboxes_.num
          (seedState (layerFor .float 2 2 fm4x4 none) (topFor .float 2 2 fm4x4 none))).top_mem :=
  let ⟨s2, h, ht, _⟩ :=
    (C13_forward_idempotent (layerFor .float 2 2 fm4x4 none) fm4x4 (topFor .float 2 2 fm4x4 none)
      (by decide) _
      (Forward_cpu_eq_ok (layerFor .float 2 2 fm4x4 none) fm4x4 (topFor .float 2 2 fm4x4 none)
        (by decide) (by decide!))).2
  ⟨s2, h, ht⟩

/-- C14. Whatever its arguments, `Backward_cpu` aborts on `NOT_IMPLEMENTED`
and returns no gradient. -/
theorem C14_backward_not_implemented (L : WholeImagePoolingLayer) (top : List (Blob Dtype))
    (propagate_down : List Bool) (bottom : List (Blob Dtype)) :
    Backward_cpu L top propagate_down bottom = .error .not_implemented ∧
      ∀ r, Backward_cpu L top propagate_down bottom ≠ .ok r := by
  refine ⟨rfl, fun r h => ?_⟩
  cases h

/-- C15. For every layer shaped by `Reshape`, whatever its arithmetic, the
coordinates of its regions and `spatial_scale_`, and every output unit: the clamped
bounds satisfy `0 <= hstart, hend <= H` and `0 <= wstart, wend <= W`; every
position of the window has a flat index `h * W + w` in `[0, H * W)`; and every
element `Forward_cpu` reads, whether it returns or aborts, is at such an index
of a slice `(b, c)` of an image `b` of the batch, hence inside the buffer of
the feature map. -/
theorem C15_in_bounds_scanning (L : WholeImagePoolingLayer) (bottom0 top0 : Blob Dtype)
    (hS : Shaped L bottom0 top0) (n ph pw : Nat) :
    ((0 ≤ (cellBin L n ph pw).hstart ∧ (cellBin L n ph pw).hstart ≤ bottom0.height) ∧
      (0 ≤ (cellBin L n ph pw).hend ∧ (cellBin L n ph pw).hend ≤ bottom0.height) ∧
      (0 ≤ (cellBin L n ph pw).wstart ∧ (cellBin L n ph pw).wstart ≤ bottom0.width) ∧
      (0 ≤ (cellBin L n ph pw).wend ∧ (cellBin L n ph pw).wend ≤ bottom0.width)) ∧
    (∀ h w, (cellBin L n ph pw).Mem h w →
      0 ≤ h * bottom0.width + w ∧
        h * bottom0.width + w < (bottom0.height : Int) * bottom0.width) ∧
    (∀ r, r ∈ (finalState (Forward_cpu L bottom0 top0)).reads →
      ∃ b : Int, ∃ c : Nat, ∃ idx : Int,
        (0 ≤ b ∧ b < bottom0.num) ∧ c < bottom0.channels ∧
        (0 ≤ idx ∧ idx < (bottom0.height : Int) * bottom0.width) ∧
        r.2 = bottom0.offset b c 0 0 + idx ∧
        0 ≤ r.2 ∧ r.2 < bottom0.count) := by
  have hC := hS.channels_toNat
  obtain ⟨-, e1, e2⟩ := hS.1
  refine ⟨?_, fun h w hm => ?_, fun r hr => ?_⟩
  · unfold cellBin
    rw [e1, e2]
    exact clampBin_bounds _ _ (Int.natCast_nonneg _) (Int.natCast_nonneg _) _
  · obtain ⟨-, -, i0, i1⟩ := cellBin_mem L bottom0 top0 hS n ph pw h w hm
    exact ⟨i0, i1⟩
  · obtain ⟨⟨v0, v1⟩, c, hc, idx, i0, i1, hr2⟩ :=
      Forward_cpu_reads_in L (by rw [e1]; exact Int.natCast_nonneg _)
        (by rw [e2]; exact Int.natCast_nonneg _) bottom0 top0 r hr
    rw [hC] at hc
    rw [e1, e2] at i1
    obtain ⟨b0, b1⟩ := slice_in_count bottom0 _ c idx v0 v1 hc i0 i1
    exact ⟨_, c, idx, ⟨v0, v1⟩, hc, ⟨i0, i1⟩, hr2, by rw [hr2]; exact b0, by rw [hr2]; exact b1⟩

/-- C15 on the 2 x 2 map whose region, from the record `[0, 4, 4, 1, 0]`, is
4 x 4 and so reaches outside the map: the window of unit `(1, 0)` is clamped
to lie inside it. -/
theorem C15_witness :
    (0 ≤ (cellBin (layerFor .float 2 2 (constMap 2 2 (.fin 7)) (some imInfoBig)) 0 1 0).hstart ∧
      (cellBin (layerFor .float 2 2 (constMap 2 2 (.fin 7)) (some imInfoBig)) 0 1 0).hstart ≤
        (constMap 2 2 (.fin 7)).height) :=
  (C15_in_bounds_scanning (layerFor .float 2 2 (constMap 2 2 (.fin 7)) (some imInfoBig))
    (constMap 2 2 (.fin 7)) (topFor .float 2 2 (constMap 2 2 (.fin 7)) (some imInfoBig))
    (by decide) 0 1 0).1.1

/-- C16, refuted as stated: on the 1 x 1 feature map of `float` holding a NaN,
pooled to 1 x 1, the window of the one output unit is `[0,1) x [0,1)`, the
output unit holds `-FLT_MAX`, and `-FLT_MAX` is not greater than or equal to
the NaN of the window: a comparison with a NaN is false. -/
theorem C16_counterexample :
    pooledValue (blankLayer .float) { pooled_h := 1, pooled_w := 1, spatial_scale := .fin 1 }
        (constMap 1 1 .nan) [] (blankBlob Dtype) 0 = some (-FLT_MAX) ∧
      cellBin (layerFor .float 1 1 (constMap 1 1 .nan) none) 0 0 0 =
        { hstart := 0, hend := 1, wstart := 0, wend := 1 } ∧
      (∀ x, (constMap 1 1 .nan).data x = .nan) ∧
      ¬ (Dtype.nan ≤ -FLT_MAX) := by
  refine ⟨by decide!, by decide!, fun _ => rfl, by decide!⟩

/-- C16, amended. For every layer shaped by `Reshape`, in `float`, `double` or
exact arithmetic, whose regions name images of the batch, region `n` naming
image `n`, and every output unit `(n, c, ph, pw)`: `Forward_cpu` returns;
(i) no `FeatureMap[n, c, h, w]` of the unit's window is greater than the output
value, and every one that is not a NaN is at most the output value; (ii) when
the argmax is not -1 it is the flat index `h * W + w` of a position of the
window, lies in `[0, H * W)`, and the element of slice `(n, c)` at that index
is the output value. -/
theorem C16_output_argmax_consistent (L : WholeImagePoolingLayer) (bottom0 top0 : Blob Dtype)
    (hS : Shaped L bottom0 top0) (hV : ValidRois L bottom0) (n c ph pw : Nat)
    (hn : n < bottom0.num) (hc : c < bottom0.channels)
    (hph : ph < L.pooled_height_.toNat) (hpw : pw < L.pooled_width_.toNat)
    (hb : (regionAt L 0 n).roi_batch_ind = n) :
    ∃ s, Forward_cpu L bottom0 top0 = .ok s ∧
      (∀ h w, (cellBin L n ph pw).Mem h w →
        ¬ s.top_mem (top0.offset n c ph pw) < bottom0.data (bottom0.offset n c h w) ∧
        (bottom0.data (bottom0.offset n c h w) ≠ Dtype.nan →
          bottom0.data (bottom0.offset n c h w) ≤ s.top_mem (top0.offset n c ph pw))) ∧
      (s.max_idx_mem (L.max_idx_.offset n c ph pw) ≠ -1 →
        ∃ h w, (cellBin L n ph pw).Mem h w ∧
          s.max_idx_mem (L.max_idx_.offset n c ph pw) = h * bottom0.width + w ∧
          0 ≤ s.max_idx_mem (L.max_idx_.offset n c ph pw) ∧
          s.max_idx_mem (L.max_idx_.offset n c ph pw) <
            (bottom0.height : Int) * bottom0.width ∧
          bottom0.data (bottom0.offset n c 0 0 + s.max_idx_mem (L.max_idx_.offset n c ph pw)) =
            s.top_mem (top0.offset n c ph pw)) := by
  obtain ⟨s, hs, hE, hN⟩ := forward_pair L bottom0 top0 hS hV n c ph pw hn hc hph hpw
  refine ⟨s, hs, ?_⟩
  by_cases hemp : (cellBin L n ph pw).hend ≤ (cellBin L n ph pw).hstart ∨
      (cellBin L n ph pw).wend ≤ (cellBin L n ph pw).wstart
  · have hpair := hE hemp
    refine ⟨fun h w hm => ?_, fun hne => absurd (congrArg Prod.snd hpair) hne⟩
    unfold Bin.Mem at hm
    omega
  · have hp := hN (by omega)
    rw [hb] at hp
    have hvn : s.top_mem (top0.offset n c ph pw) ≠ Dtype.nan := (Dtype.ne_nan_of_le hp.1).2
    refine ⟨fun h w hm => ⟨hp.2.1 h w hm, fun hx => Dtype.le_of_not_lt hvn hx (hp.2.1 h w hm)⟩,
      fun hne => ?_⟩
    obtain ⟨h, w, hm, ha, hv⟩ := (hp.seed_cases (Int.natCast_nonneg _)
      (fun h w hm => by
        obtain ⟨⟨p, -⟩, ⟨q, -⟩, -⟩ := cellBin_mem L bottom0 top0 hS n ph pw h w hm
        exact ⟨p, q⟩)).2.2 hne
    obtain ⟨-, -, i0, i1⟩ := cellBin_mem L bottom0 top0 hS n ph pw h w hm
    refine ⟨h, w, hm, ha, by rw [ha]; exact i0, by rw [ha]; exact i1, ?_⟩
    rw [ha, offset_add]
    exact hv

/-- C16, amended, on unit 7 of the 62-row map of `float` pooled to 14 rows:
the argmax is not -1, and it is the flat index of a position of the window,
rows `[30, 36)`. -/
theorem C16_witness :
    ∃ s, Forward_cpu (layerFor .float 14 1 (spikeMap 62 30) none) (spikeMap 62 30)
        (topFor .float 14 1 (spikeMap 62 30) none) = .ok s ∧
      (s.max_idx_mem ((layerFor .float 14 1 (spikeMap 62 30) none).max_idx_.offset
          (0 : Nat) (0 : Nat) (7 : Nat) (0 : Nat)) ≠ -1 →
        ∃ h w, (cellBin (layerFor .float 14 1 (spikeMap 62 30) none) 0 7 0).Mem h w ∧
          s.max_idx_mem ((layerFor .float 14 1 (spikeMap 62 30) none).max_idx_.offset
            (0 : Nat) (0 : Nat) (7 : Nat) (0 : Nat)) = h * (spikeMap 62 30).width + w) :=
  let ⟨s, hs, _, h2⟩ :=
    C16_output_argmax_consistent (layerFor .float 14 1 (spikeMap 62 30) none) (spikeMap 62 30)
      (topFor .float 14 1 (spikeMap 62 30) none)
      (by decide) (by decide!) 0 0 7 0 (by decide) (by decide) (by decide) (by decide)
      (by decide!)
  ⟨s, hs, fun hne => let ⟨h, w, hm, ha, _⟩ := h2 hne; ⟨h, w, hm, ha⟩⟩

/-- C17. For every layer shaped by `Reshape`, in `float`, `double` or exact
arithmetic, whose regions name images of the batch, region `n` naming image
`n`, and every output unit `(n, c, ph, pw)` with a non-empty window (as the
arithmetic of the layer computes it): `Forward_cpu` returns; the argmax is -1
exactly when no `FeatureMap[n, c, h, w]` of the window is strictly greater
than `-FLT_MAX`; and in that case the output value is the seed `-FLT_MAX`. -/
theorem C17_seed_visibility (L : WholeImagePoolingLayer) (bottom0 top0 : Blob Dtype)
    (hS : Shaped L bottom0 top0) (hV : ValidRois L bottom0) (n c ph pw : Nat)
    (hn : n < bottom0.num) (hc : c < bottom0.channels)
    (hph : ph < L.pooled_height_.toNat) (hpw : pw < L.pooled_width_.toNat)
    (hb : (regionAt L 0 n).roi_batch_ind = n)
    (hN : (cellBin L n ph pw).hstart < (cellBin L n ph pw).hend ∧
      (cellBin L n ph pw).wstart < (cellBin L n ph pw).wend) :
    ∃ s, Forward_cpu L bottom0 top0 = .ok s ∧
      (s.max_idx_mem (L.max_idx_.offset n c ph pw) = -1 ↔
        ¬ ∃ h w, (cellBin L n ph pw).Mem h w ∧
          -FLT_MAX < bottom0.data (bottom0.offset n c h w)) ∧
      (s.max_idx_mem (L.max_idx_.offset n c ph pw) = -1 →
        s.top_mem (top0.offset n c ph pw) = -FLT_MAX) := by
  obtain ⟨s, hs, -, hP⟩ := forward_pair L bottom0 top0 hS hV n c ph pw hn hc hph hpw
  have hp := hP hN
  rw [hb] at hp
  have hc3 := hp.seed_cases (Int.natCast_nonneg _)
    (fun h w hm => by
      obtain ⟨⟨p, -⟩, ⟨q, -⟩, -⟩ := cellBin_mem L bottom0 top0 hS n ph pw h w hm
      exact ⟨p, q⟩)
  exact ⟨s, hs, hc3.1, hc3.2.1⟩

/-- C17 on unit 7 of the 62-row map of `float` pooled to 14 rows, whose window
is rows `[30, 36)` and holds the 100 of row 30: the argmax is not -1. -/
theorem C17_witness :
    ∃ s, Forward_cpu (layerFor .float 14 1 (spikeMap 62 30) none) (spikeMap 62 30)
        (topFor .float 14 1 (spikeMap 62 30) none) = .ok s ∧
      s.max_idx_mem ((layerFor .float 14 1 (spikeMap 62 30) none).max_idx_.offset
          (0 : Nat) (0 : Nat) (7 : Nat) (0 : Nat)) ≠ -1 :=
  let ⟨s, hs, h1, _⟩ :=
    C17_seed_visibility (layerFor .float 14 1 (spikeMap 62 30) none) (spikeMap 62 30)
      (topFor .float 14 1 (spikeMap 62 30) none)
      (by decide) (by decide!) 0 0 7 0 (by decide) (by decide) (by decide) (by decide)
      (by decide!) (by decide!)
  ⟨s, hs, fun ha => h1.mp ha ⟨30, 0, by decide!, by decide!⟩⟩

/-- C18. With no `ImageInfo`, `spatial_scale_ = 1`, `H, W >= 1`,
`pooled_height_, pooled_width_ >= 1`, and an arithmetic that holds the batch
size exactly, in each of these cases: exact arithmetic; `float` or `double`
with `pooled_height_` dividing `H` and `pooled_width_` dividing `W`; `float`
or `double` with `H`, `W`, `pooled_height_`, `pooled_width_` at most `2^22`,
where the bins are rounded. `Reshape` returns; every position `(h, w)` of
`[0, H) x [0, W)` lies in the window of at least one output unit `(ph, pw)`;
`Forward_cpu` returns; and when every value of slice `(n, c)` of the feature
map is above `-FLT_MAX`, the pooled output over slice `(n, c)` has a maximum,
and it is the maximum of slice `(n, c)` of the feature map. -/
theorem C18_coverage (L : WholeImagePoolingLayer) (bottom0 top0 : Blob Dtype)
    (hscale : L.spatial_scale_ = Dtype.fin 1) (hH : 1 ≤ bottom0.height)
    (hW : 1 ≤ bottom0.width) (hPH : 1 ≤ L.pooled_height_) (hPW : 1 ≤ L.pooled_width_)
    (hNum : L.arith.IntExact bottom0.num)
    (hA : L.arith.ExactBins bottom0.height bottom0.width L.pooled_height_ L.pooled_width_ ∨
      (bottom0.height ≤ 4194304 ∧ bottom0.width ≤ 4194304 ∧
        L.pooled_height_ ≤ 4194304 ∧ L.pooled_width_ ≤ 4194304))
    (n c : Nat) (hn : n < bottom0.num) (hc : c < bottom0.channels) :
    ∃ L1 top1, Reshape L bottom0 [] top0 = .ok (L1, top1) ∧
      (∀ h w : Int, 0 ≤ h → h < bottom0.height → 0 ≤ w → w < bottom0.width →
        ∃ ph pw : Nat, (ph : Int) < L.pooled_height_ ∧ (pw : Int) < L.pooled_width_ ∧
          (cellBin L1 n ph pw).Mem h w) ∧
      ∃ s, Forward_cpu L1 bottom0 top1 = .ok s ∧
        ((∀ h w : Int, 0 ≤ h → h < bottom0.height → 0 ≤ w → w < bottom0.width →
            -FLT_MAX < bottom0.data (bottom0.offset n c h w)) →
          ∃ M,
            IsMaxOf
              {x | ∃ ph pw : Nat, (ph : Int) < L.pooled_height_ ∧ (pw : Int) < L.pooled_width_ ∧
                x = s.top_mem (top1.offset n c ph pw)} M ∧
            IsMaxOf
              {x | ∃ h w : Int, (0 ≤ h ∧ h < bottom0.height) ∧ (0 ≤ w ∧ w < bottom0.width) ∧
                x = bottom0.data (bottom0.offset n c h w)} M) := by
  obtain ⟨hS, hp1, hp2, -⟩ := Reshape_body_shaped L bottom0 top0 none
  have hV := Reshape_validRois L bottom0 top0 none hNum
  have hb : (regionAt (Reshape_body L bottom0 top0 none).1 0 n).roi_batch_ind = n :=
    Reshape_batch_ind L bottom0 top0 none hNum n hn
  obtain ⟨hne0, hcover⟩ :=
    default_cells L bottom0 top0 hscale hH hW hPH hPW hNum hA n hn
  refine ⟨_, _, rfl, hcover, _, Forward_cpu_eq_ok _ bottom0 _ hS hV, fun hseed => ?_⟩
  have hcell : ∀ ph pw : Nat, (ph : Int) < L.pooled_height_ → (pw : Int) < L.pooled_width_ →
      (∃ h w, (cellBin (Reshape_body L bottom0 top0 none).1 n ph pw).Mem h w ∧
        (forLoop (poolRoiBody (Reshape_body L bottom0 top0 none).1 bottom0
            (Reshape_body L bottom0 top0 none).2)
          (Reshape_body L bottom0 top0 none).1.bboxes_.num
          (seedState (Reshape_body L bottom0 top0 none).1
            (Reshape_body L bottom0 top0 none).2)).top_mem
          ((Reshape_body L bottom0 top0 none).2.offset n c ph pw) =
          bottom0.data (bottom0.offset n c h w)) ∧
      (∀ h w, (cellBin (Reshape_body L bottom0 top0 none).1 n ph pw).Mem h w →
        bottom0.data (bottom0.offset n c h w) ≠ Dtype.nan →
        bottom0.data (bottom0.offset n c h w) ≤
          (forLoop (poolRoiBody (Reshape_body L bottom0 top0 none).1 bottom0
              (Reshape_body L bottom0 top0 none).2)
            (Reshape_body L bottom0 top0 none).1.bboxes_.num
            (seedState (Reshape_body L bottom0 top0 none).1
              (Reshape_body L bottom0 top0 none).2)).top_mem
            ((Reshape_body L bottom0 top0 none).2.offset n c ph pw)) := by
    intro ph pw hph hpw
    have hN := hne0 ph pw hph hpw
    have hpost := outCell_post (Reshape_body L bottom0 top0 none).1 bottom0
      (Reshape_body L bottom0 top0 none).2 hS n c ph pw hN
    rw [← forward_cell (Reshape_body L bottom0 top0 none).1 bottom0
      (Reshape_body L bottom0 top0 none).2 hS n c ph pw hn hc
      (by rw [hp1]; omega) (by rw [hp2]; omega), hb] at hpost
    have hmx := hpost.isMax (by
      refine ⟨(cellBin (Reshape_body L bottom0 top0 none).1 n ph pw).hstart,
        (cellBin (Reshape_body L bottom0 top0 none).1 n ph pw).wstart, ?_, ?_⟩
      · unfold Bin.Mem; omega
      · have hm : (cellBin (Reshape_body L bottom0 top0 none).1 n ph pw).Mem
            (cellBin (Reshape_body L bottom0 top0 none).1 n ph pw).hstart
            (cellBin (Reshape_body L bottom0 top0 none).1 n ph pw).wstart := by
          unfold Bin.Mem; omega
        obtain ⟨⟨p0, p1⟩, ⟨q0, q1⟩, -⟩ := cellBin_mem _ bottom0 _ hS n ph pw _ _ hm
        exact Dtype.le_of_lt (hseed _ _ p0 p1 q0 q1))
    exact ⟨hmx.1, hmx.2.2⟩
  have hne : (Finset.range L.pooled_height_.toNat ×ˢ
      Finset.range L.pooled_width_.toNat).Nonempty := by
    refine ⟨(0, 0), ?_⟩
    simp only [Finset.mem_product, Finset.mem_range]
    omega
  have hval : ∀ h w : Int, 0 ≤ h → h < bottom0.height → 0 ≤ w → w < bottom0.width →
      bottom0.data (bottom0.offset n c h w) ≠ Dtype.nan :=
    fun h w h0 h1 w0 w1 => (Dtype.ne_nan_of_lt (hseed h w h0 h1 w0 w1)).2
  obtain ⟨⟨ph0, pw0⟩, hmem, hmax⟩ := exists_max_of_ne_nan
    (Finset.range L.pooled_height_.toNat ×ˢ Finset.range L.pooled_width_.toNat) hne
    (fun q : Nat × Nat =>
      (forLoop (poolRoiBody (Reshape_body L bottom0 top0 none).1 bottom0
          (Reshape_body L bottom0 top0 none).2)
        (Reshape_body L bottom0 top0 none).1.bboxes_.num
        (seedState (Reshape_body L bottom0 top0 none).1
          (Reshape_body L bottom0 top0 none).2)).top_mem
        ((Reshape_body L bottom0 top0 none).2.offset n c q.1 q.2))
    (fun q hq => by
      simp only [Finset.mem_product, Finset.mem_range] at hq
      obtain ⟨⟨h, w, hm, hx⟩, -⟩ := hcell q.1 q.2 (by omega) (by omega)
      obtain ⟨⟨p0, p1⟩, ⟨q0, q1⟩, -⟩ := cellBin_mem _ bottom0 _ hS n q.1 q.2 h w hm
      show (forLoop (poolRoiBody (Reshape_body L bottom0 top0 none).1 bottom0
          (Reshape_body L bottom0 top0 none).2)
        (Reshape_body L bottom0 top0 none).1.bboxes_.num
        (seedState (Reshape_body L bottom0 top0 none).1
          (Reshape_body L bottom0 top0 none).2)).top_mem
        ((Reshape_body L bottom0 top0 none).2.offset n c q.1 q.2) ≠ Dtype.nan
      rw [hx]
      exact hval h w p0 p1 q0 q1)
  simp only [Finset.mem_product, Finset.mem_range] at hmem
  have hph0 : (ph0 : Int) < L.pooled_height_ := by omega
  have hpw0 : (pw0 : Int) < L.pooled_width_ := by omega
  refine ⟨_, ⟨⟨ph0, pw0, hph0, hpw0, rfl⟩, ?_⟩, ⟨?_, ?_⟩⟩
  · rintro x ⟨ph, pw, hph, hpw, rfl⟩
    exact hmax (ph, pw) (by
      simp only [Finset.mem_product, Finset.mem_range]
      omega)
  · obtain ⟨h, w, hm, hx⟩ := (hcell ph0 pw0 hph0 hpw0).1
    obtain ⟨hh, hw, -⟩ := cellBin_mem _ bottom0 _ hS n ph0 pw0 h w hm
    exact ⟨h, w, hh, hw, hx⟩
  · rintro x ⟨h, w, ⟨h0, h1⟩, ⟨w0, w1⟩, rfl⟩
    obtain ⟨ph, pw, hph, hpw, hm⟩ := hcover h w h0 h1 w0 w1
    have hub := (hcell ph pw hph hpw).2 h w hm (hval h w h0 h1 w0 w1)
    exact Dtype.le_trans hub (hmax (ph, pw) (by
      simp only [Finset.mem_product, Finset.mem_range]
      omega))

/-- C18 on the 62-row map of `float` pooled to 14 rows, where the bin size
`62 / 14` is rounded: position `(30, 0)` lies in the window of some unit. -/
theorem C18_witness :
    ∃ L1 top1, Reshape (configuredLayer .float 14 1) (spikeMap 62 30) [] (blankBlob Dtype) =
        .ok (L1, top1) ∧
      ∃ ph pw : Nat, (cellBin L1 0 ph pw).Mem 30 0 :=
  let ⟨L1, top1, h, hcov, _⟩ :=
    C18_coverage (configuredLayer .float 14 1) (spikeMap 62 30) (blankBlob Dtype) rfl
      (by decide) (by decide) (by decide) (by decide) (by decide) (Or.inr (by decide))
      0 0 (by decide) (by decide)
  let ⟨ph, pw, _, _, hm⟩ := hcov 30 0 (by decide) (by decide) (by decide) (by decide)
  ⟨L1, top1, h, ph, pw, hm⟩

end caffe
